import Mathlib

/-!
Detrimental characters of hanabi-live: `server/pkg/characters/todo.go`.

A shallow embedding of the character hooks.

* Go pointers: a `*GamePlayer` is a position in `Game.Players`, a `*Card` is a
  position in `Game.Deck` (the deck owns every card of the game, hands hold
  pointers to deck cards).
* Go `int` is `Int`; mutation is explicit state passing.
* A call that does not return normally (run-time panic: index out of range,
  division by zero, `rand.Intn` of a non-positive bound) yields `none`.
* The Go field name `Type` is written `Type_`.
* A validator that calls `s.Warningf(msg)` and returns `true` yields
  `Verdict.reject msg`; one that returns `false` yields `Verdict.allow`.
-/

namespace Characters

/-! ## Data model -/

/-- The fields of `Card` read or written by the hooks. -/
structure Card where
  Order : Int
  SuitIndex : Int
  Rank : Int
  InsistentTouched : Bool
deriving DecidableEq, Repr

/-- The fields of `GamePlayer` read or written by the hooks; `Hand` holds
pointers to deck cards, oldest card first. -/
structure GamePlayer where
  Name : String
  Index : Int
  Hand : List Nat
  Character : String
  CharacterMetadata : Int
deriving DecidableEq, Repr

/-- One entry of `ExtraOptions.CustomCharacterAssignments`. -/
structure CharacterAssignment where
  Name : String
  Metadata : Int
deriving DecidableEq, Repr

/-- The game options read by the hooks. -/
structure Options where
  DetrimentalCharacters : Bool
  VariantName : String
deriving DecidableEq, Repr

/-- The extra options; a nil slice and an empty slice both have length 0. -/
structure ExtraOptions where
  CustomCharacterAssignments : List CharacterAssignment
deriving DecidableEq, Repr

/-- The action appended by `characterSendCardIdentityOfSlot2`. -/
structure ActionCardIdentity where
  Type_ : String
  PlayerIndex : Int
  Order : Int
  SuitIndex : Int
  Rank : Int
deriving DecidableEq, Repr

/-- The fields of `Game` read or written by the hooks. `Notified` counts the
calls of `t.NotifyGameAction()` on the game's table. -/
structure Game where
  Options : Options
  ExtraOptions : ExtraOptions
  Seed : String
  Players : List GamePlayer
  Deck : List Card
  Stacks : List Int
  ClueTokens : Int
  Turn : Int
  EndTurn : Int
  TurnsInverted : Bool
  ActivePlayerIndex : Int
  EndCondition : Int
  EndPlayer : Int
  Actions : List ActionCardIdentity
  Notified : Nat
deriving DecidableEq, Repr

/-- The incoming command: action kind, target (a player index for a clue, a
card order for a play or discard) and clue value. -/
structure CommandData where
  Type_ : Int
  Target : Int
  Value : Int
deriving DecidableEq, Repr

/-- A clue: its type and value. -/
structure Clue where
  Type_ : Int
  Value : Int
deriving DecidableEq, Repr

/-- The draw action inspected by `characterHideCard`. -/
structure ActionDraw where
  PlayerIndex : Int
  Order : Int
deriving DecidableEq, Repr

/-- The part of a `Variant` the hooks use. -/
structure Variant where
  ClueColors : List String
  GetAdjustedClueTokens : Int → Int

/-- Collaborators declared outside `todo.go`, taken as parameters: the variant
table, the character names and their `Not2P` flags, the card-touch relation of
a variant, the raw outputs of the generator after `setSeed`, and the
character-softlock end condition code. -/
structure Env where
  variants : String → Variant
  characterNames : List String
  Not2P : String → Bool
  variantIsCardTouched : String → Clue → Card → Bool
  setSeed : String → List Nat
  EndConditionCharacterSoftlock : Int

/-- What a validator hands back: `allow` for `return false`, `reject msg` for
`s.Warningf(msg); return true`. -/
inductive Verdict where
  | allow
  | reject (warning : String)
deriving DecidableEq, Repr

/-- The boolean a validator returns (`true` when validation fails). -/
def Verdict.failed : Verdict → Bool
  | .allow => false
  | .reject _ => true

/-! ## Constants and helpers declared outside `todo.go` -/

/-- Modelled from the spec: the action kinds `Play|Discard|ColorClue|RankClue`
of the ActionDescriptor, numbered in that order (constants package). -/
def ActionTypePlay : Int := 0

/-- Modelled from the spec: second action kind of the ActionDescriptor. -/
def ActionTypeDiscard : Int := 1

/-- Modelled from the spec: third action kind of the ActionDescriptor. -/
def ActionTypeColorClue : Int := 2

/-- Modelled from the spec: fourth action kind of the ActionDescriptor. -/
def ActionTypeRankClue : Int := 3

/-- Modelled from the spec: the clue kinds `Color|Rank` of the ClueDescriptor,
numbered in that order. -/
def ClueTypeColor : Int := 0

/-- Modelled from the spec: second clue kind of the ClueDescriptor. -/
def ClueTypeRank : Int := 1

/-- Modelled from the spec: `NewClue`, the ClueDescriptor derived from a raw
action command (a color-clue command gives a color clue, a rank-clue command a
rank clue, the value is the command's value). -/
def NewClue (d : CommandData) : Clue :=
  { Type_ := if d.Type_ = ActionTypeColorClue then ClueTypeColor
            else if d.Type_ = ActionTypeRankClue then ClueTypeRank
            else 0,
    Value := d.Value }

/-- Go slice indexing `xs[i]` with an `int` index: `none` is the
index-out-of-range panic. -/
def index? {α : Type} (xs : List α) (i : Int) : Option α :=
  if 0 ≤ i then xs[i.toNat]? else none

/-- The cards a hand points to, oldest first. -/
def handCards (g : Game) (p : GamePlayer) : List Card :=
  p.Hand.filterMap (fun k => g.Deck[k]?)

/-- Modelled from the spec: `FindCardsTouchedByClue`, the orders of the cards
of the hand touched by the clue ("touches every card in the target's hand
matching that color/rank"). -/
def FindCardsTouchedByClue (env : Env) (g : Game) (p : GamePlayer) (clue : Clue) : List Int :=
  ((handCards g p).filter (env.variantIsCardTouched g.Options.VariantName clue)).map (fun c => c.Order)

/-- Modelled from the spec: `IsFirstCardTouchedByClue`, whether the clue
touches the newest card of the hand (slot 1, the last element). -/
def IsFirstCardTouchedByClue (env : Env) (g : Game) (p : GamePlayer) (clue : Clue) : Bool :=
  match (handCards g p).getLast? with
  | some c => env.variantIsCardTouched g.Options.VariantName clue c
  | none => false

/-- Modelled from the spec: `IsLastCardTouchedByClue`, whether the clue
touches the oldest card of the hand (the first element). -/
def IsLastCardTouchedByClue (env : Env) (g : Game) (p : GamePlayer) (clue : Clue) : Bool :=
  match (handCards g p).head? with
  | some c => env.variantIsCardTouched g.Options.VariantName clue c
  | none => false

/-- The position of the first card of the list with the given order. -/
def cardIndex (order : Int) : List Card → Option Nat
  | [] => none
  | c :: cs => if c.Order = order then some 0 else (cardIndex order cs).map (· + 1)

/-- Modelled from the spec: `GetCardSlot`, the slot of the card with the given
order in the hand, slot 1 being the most recently drawn (last) card; -1 when
the card is not in the hand. -/
def GetCardSlot (g : Game) (p : GamePlayer) (order : Int) : Int :=
  match cardIndex order (handCards g p) with
  | some i => ((handCards g p).length : Int) - (i : Int)
  | none => -1

/-- Modelled from the spec: `GetNextPlayer`, the index of the next seat,
computed as `leftIndex` is in `characterValidateClue`. -/
def GetNextPlayer (g : Game) (p : GamePlayer) : Int :=
  if p.Index + 1 = (g.Players.length : Int) then 0 else p.Index + 1

/-- Modelled from the spec: `GetPreviousPlayer`, the index of the previous
seat, computed as `rightIndex` is in `characterValidateClue`. -/
def GetPreviousPlayer (g : Game) (p : GamePlayer) : Int :=
  if p.Index - 1 = -1 then (g.Players.length : Int) - 1 else p.Index - 1

/-- The helper `stringInSlice`. -/
def stringInSlice (a : String) (l : List String) : Bool :=
  l.contains a

/-- The fixture `debugCharacters`. -/
def debugCharacters : List String :=
  ["Genius", "n/a", "n/a", "n/a", "n/a", "n/a"]

/-- The fixture `debugCharacterMetadata`. -/
def debugCharacterMetadata : List Int :=
  [-1, -1, -1, -1, -1, -1]

/-- The fixture `debugUsernames`. -/
def debugUsernames : List String :=
  ["test", "test1", "test2", "test3", "test4", "test5", "test6", "test7"]

/-- The generator call `rand.Intn(n)` on the remaining raw outputs: panics for
`n ≤ 0`, otherwise consumes one raw output and reduces it into `[0, n)`. A
generator with no raw output left does not return. -/
def randIntn (n : Nat) (rng : List Nat) : Option (Nat × List Nat) :=
  if n = 0 then none
  else match rng with
    | [] => none
    | r :: rest => some (r % n, rest)

/-- The largest value of Go's `int` on the server's 64-bit platform. -/
def maxInt : Int := 9223372036854775807

/-- The smallest value of Go's `int` on the server's 64-bit platform. -/
def minInt : Int := -9223372036854775808

/-- The `int` result of an addition whose mathematical result is `x`: 64-bit
two's complement, wrapping around on overflow (`x % 2^64` brought into the
range from `minInt` to `maxInt`). -/
def wrapInt (x : Int) : Int :=
  (x + 9223372036854775808) % 18446744073709551616 - 9223372036854775808

/-! ## State updates through pointers -/

/-- Write through a player pointer: `g.Players[i].f = ...`. -/
def modifyPlayer (g : Game) (i : Nat) (f : GamePlayer → GamePlayer) : Game :=
  { g with Players := g.Players.modify f i }

/-- The assignment `p.CharacterMetadata = m` through the pointer `i`. -/
def setMetadata (g : Game) (i : Nat) (m : Int) : Game :=
  modifyPlayer g i (fun p => { p with CharacterMetadata := m })

/-- The assignment `p.Character = c` through the pointer `i`. -/
def setCharacter (g : Game) (i : Nat) (c : String) : Game :=
  modifyPlayer g i (fun p => { p with Character := c })

/-- The assignment `c.InsistentTouched = b` through the card pointer `k`. -/
def setInsistentTouched (g : Game) (k : Nat) (b : Bool) : Game :=
  { g with Deck := g.Deck.modify (fun c => { c with InsistentTouched := b }) k }

/-! ## Validators -/

/-- The third conjunct of the Impulsive rule of `characterValidateAction`,
`d.Type != ActionTypePlay || d.Target != p.Hand[len(p.Hand)-1].Order`,
evaluated left to right: the hand is indexed only for a play action, and
indexing an empty hand panics. -/
def notSlot1Play (d : CommandData) (g : Game) (p : GamePlayer) : Option Bool :=
  if d.Type_ ≠ ActionTypePlay then some true
  else match (handCards g p).getLast? with
    | none => none
    | some c => some (decide (d.Target ≠ c.Order))

/-- The hook `characterValidateAction(s, d, g, p)`; `reject` when validation
fails. -/
def characterValidateAction (d : CommandData) (g : Game) (pi : Nat) : Option Verdict :=
  if g.Options.DetrimentalCharacters = false then some .allow
  else match g.Players[pi]? with
    | none => none
    | some p =>
      if p.Character = "Vindictive" ∧ p.CharacterMetadata = 0 ∧
          (d.Type_ ≠ ActionTypeColorClue ∧ d.Type_ ≠ ActionTypeRankClue) then
        some (.reject ("You are " ++ p.Character ++
          ", so you must give a clue if you have been given a clue on this go-around."))
      else if p.Character = "Insistent" ∧ p.CharacterMetadata ≠ -1 ∧
          (d.Type_ ≠ ActionTypeColorClue ∧ d.Type_ ≠ ActionTypeRankClue) then
        some (.reject ("You are " ++ p.Character ++
          ", so you must continue to clue the same card until it is played or discarded."))
      else
        match (if p.Character = "Impulsive" ∧ p.CharacterMetadata = 0
               then notSlot1Play d g p else some false) with
        | none => none
        | some true =>
          some (.reject ("You are " ++ p.Character ++
            ", so you must play your slot 1 card after it has been clued."))
        | some false =>
          if p.Character = "Indolent" ∧ d.Type_ = ActionTypePlay ∧ p.CharacterMetadata = 0 then
            some (.reject ("You are " ++ p.Character ++
              ", so you cannot play a card if you played one in the last round."))
          else if p.Character = "Stubborn" ∧
              (d.Type_ = p.CharacterMetadata ∨
               (d.Type_ = ActionTypeColorClue ∧ p.CharacterMetadata = ActionTypeRankClue) ∨
               (d.Type_ = ActionTypeRankClue ∧ p.CharacterMetadata = ActionTypeColorClue)) then
            some (.reject ("You are " ++ p.Character ++
              ", so you cannot perform the same kind of action that the previous player did."))
          else some .allow

/-- The hook `characterValidateSecondAction(s, d, g, p)`. -/
def characterValidateSecondAction (d : CommandData) (g : Game) (pi : Nat) : Option Verdict :=
  if g.Options.DetrimentalCharacters = false then some .allow
  else match g.Players[pi]? with
    | none => none
    | some p =>
      if p.CharacterMetadata = -1 then some .allow
      else if p.Character = "Genius" then
        if d.Type_ ≠ ActionTypeRankClue then
          some (.reject ("You are " ++ p.Character ++ ", so you must now give a rank clue."))
        else if d.Target ≠ p.CharacterMetadata then
          some (.reject ("You are " ++ p.Character ++
            ", so you must give the second clue to the same player."))
        else some .allow
      else if p.Character = "Panicky" ∧ d.Type_ ≠ ActionTypeDiscard then
        some (.reject ("You are " ++ p.Character ++
          ", so you must discard again since there are 4 or less clues available."))
      else some .allow

/-- The loop `for _, order := range cardsTouched { c := g.Deck[order]; if f(c)
{ found } }` shared by the Inept, Awkward and Insistent rules: `some true`
when a touched card satisfies the test, `none` when `g.Deck[order]` panics
before one is found. -/
def anyTouched (g : Game) (f : Card → Bool) : List Int → Option Bool
  | [] => some false
  | order :: rest =>
    match index? g.Deck order with
    | none => none
    | some c => if f c then some true else anyTouched g f rest

/-- The rules of `characterValidateClue` that depend on the clue giver's
character (the first `if ... else if` chain); `allow` means that control
reaches the rules of the target's character. -/
def giverRules (env : Env) (d : CommandData) (g : Game) (p p2 : GamePlayer) : Option Verdict :=
  let variant := env.variants g.Options.VariantName
  let clue := NewClue d
  if p.Character = "Fuming" ∧ clue.Type_ = ClueTypeColor ∧ clue.Value ≠ p.CharacterMetadata then
    some (.reject ("You are " ++ p.Character ++ ", so you can not give that type of clue."))
  else if p.Character = "Dumbfounded" ∧ clue.Type_ = ClueTypeRank ∧
      clue.Value ≠ p.CharacterMetadata then
    some (.reject ("You are " ++ p.Character ++ ", so you can not give that type of clue."))
  else if p.Character = "Inept" then
    match anyTouched g (fun c => decide (c.SuitIndex = p.CharacterMetadata))
        (FindCardsTouchedByClue env g p2 clue) with
    | none => none
    | some true =>
      some (.reject ("You are " ++ p.Character ++
        ", so you cannot give clues that touch a specific suit."))
    | some false => some .allow
  else if p.Character = "Awkward" then
    match anyTouched g (fun c => decide (c.Rank = p.CharacterMetadata))
        (FindCardsTouchedByClue env g p2 clue) with
    | none => none
    | some true =>
      some (.reject ("You are " ++ p.Character ++
        ", so you cannot give clues that touch cards with a rank of " ++
        toString p.CharacterMetadata ++ "."))
    | some false => some .allow
  else if p.Character = "Conservative" ∧ (FindCardsTouchedByClue env g p2 clue).length ≠ 1 then
    some (.reject ("You are " ++ p.Character ++
      ", so you can only give clues that touch a single card."))
  else if p.Character = "Greedy" ∧ (FindCardsTouchedByClue env g p2 clue).length < 2 then
    some (.reject ("You are " ++ p.Character ++
      ", so you can only give clues that touch 2+ cards."))
  else if p.Character = "Picky" ∧
      ((clue.Type_ = ClueTypeRank ∧ Int.tmod clue.Value 2 = 0) ∨
       (clue.Type_ = ClueTypeColor ∧ Int.tmod (clue.Value + 1) 2 = 0)) then
    some (.reject ("You are " ++ p.Character ++
      ", so you can only clue odd numbers or odd colors."))
  else if p.Character = "Spiteful" then
    let leftIndex := if p.Index + 1 = (g.Players.length : Int) then 0 else p.Index + 1
    if d.Target = leftIndex then
      some (.reject ("You are " ++ p.Character ++
        ", so you cannot clue the player to your left."))
    else some .allow
  else if p.Character = "Insolent" then
    let rightIndex := if p.Index - 1 = -1 then (g.Players.length : Int) - 1 else p.Index - 1
    if d.Target = rightIndex then
      some (.reject ("You are " ++ p.Character ++
        ", so you cannot clue the player to your right."))
    else some .allow
  else if p.Character = "Miser" ∧ g.ClueTokens < variant.GetAdjustedClueTokens 4 then
    some (.reject ("You are " ++ p.Character ++
      ", so you cannot give a clue unless there are 4 or more clues available."))
  else if p.Character = "Compulsive" ∧ IsFirstCardTouchedByClue env g p2 clue = false ∧
      IsLastCardTouchedByClue env g p2 clue = false then
    some (.reject ("You are " ++ p.Character ++
      ", so you can only give a clue if it touches either the newest or oldest card in a hand."))
  else if p.Character = "Mood Swings" ∧ p.CharacterMetadata = clue.Type_ then
    some (.reject ("You are " ++ p.Character ++
      ", so cannot give the same clue type twice in a row."))
  else if p.Character = "Insistent" ∧ p.CharacterMetadata ≠ -1 then
    match anyTouched g (fun c => c.InsistentTouched) (FindCardsTouchedByClue env g p2 clue) with
    | none => none
    | some false =>
      some (.reject ("You are " ++ p.Character ++
        ", so you must continue to clue a card until it is played or discarded."))
    | some true => some .allow
  else if p.Character = "Genius" ∧ p.CharacterMetadata = -1 then
    if g.ClueTokens < variant.GetAdjustedClueTokens 2 then
      some (.reject ("You are " ++ p.Character ++
        ", so there needs to be at least two clues available for you to give a clue."))
    else if clue.Type_ ≠ ClueTypeColor then
      some (.reject ("You are " ++ p.Character ++ ", so you must give a color clue first."))
    else some .allow
  else some .allow

/-- The rules of `characterValidateClue` that depend on the target's
character (the second `if ... else if` chain and the final `return false`). -/
def targetRules (d : CommandData) (p2 : GamePlayer) : Verdict :=
  let clue := NewClue d
  if p2.Character = "Vulnerable" ∧ clue.Type_ = ClueTypeRank ∧
      (clue.Value = 2 ∨ clue.Value = 5) then
    .reject ("You cannot give a number 2 or number 5 clue to a " ++ p2.Character ++ " character.")
  else if p2.Character = "Color-Blind" ∧ clue.Type_ = ClueTypeColor then
    .reject ("You cannot give that color clue to a " ++ p2.Character ++ " character.")
  else .allow

/-- The hook `characterValidateClue(s, d, g, p)`: the target `p2 :=
g.Players[d.Target]` is fetched first, then the giver's rules run, then the
target's. -/
def characterValidateClue (env : Env) (d : CommandData) (g : Game) (pi : Nat) : Option Verdict :=
  if g.Options.DetrimentalCharacters = false then some .allow
  else match index? g.Players d.Target with
    | none => none
    | some p2 =>
      match g.Players[pi]? with
      | none => none
      | some p =>
        match giverRules env d g p p2 with
        | none => none
        | some (.reject w) => some (.reject w)
        | some .allow => some (targetRules d p2)

/-- The hook `characterCheckPlay(s, d, g, p)`; `reject` when the card cannot
be played. -/
def characterCheckPlay (d : CommandData) (g : Game) (pi : Nat) : Option Verdict :=
  if g.Options.DetrimentalCharacters = false then some .allow
  else match g.Players[pi]? with
    | none => none
    | some p =>
      if p.Character = "Hesitant" ∧ GetCardSlot g p d.Target = 1 then
        some (.reject ("You cannot play that card since you are a " ++ p.Character ++
          " character."))
      else some .allow

/-- The hook `characterCheckMisplay(g, p, c)`; `true` when the card should
misplay. The card is passed by pointer. -/
def characterCheckMisplay (g : Game) (pi : Nat) (ci : Nat) : Option Bool :=
  if g.Options.DetrimentalCharacters = false then some false
  else match g.Players[pi]?, g.Deck[ci]? with
    | some p, some c =>
      if p.Character = "Follower" then
        let numPlayedOfThisRank := (g.Stacks.filter (fun s => decide (s ≥ c.Rank))).length
        if numPlayedOfThisRank < 2 then some true else some false
      else some false
    | _, _ => none

/-- The hook `characterCheckDiscard(s, g, p)`; `reject` when the player cannot
currently discard. -/
def characterCheckDiscard (env : Env) (g : Game) (pi : Nat) : Option Verdict :=
  if g.Options.DetrimentalCharacters = false then some .allow
  else match g.Players[pi]? with
    | none => none
    | some p =>
      let variant := env.variants g.Options.VariantName
      if p.Character = "Anxious" ∧ Int.tmod g.ClueTokens 2 = 0 then
        some (.reject ("You are " ++ p.Character ++
          ", so you cannot discard when there is an even number of clues available."))
      else if p.Character = "Traumatized" ∧ Int.tmod g.ClueTokens 2 = 1 then
        some (.reject ("You are " ++ p.Character ++
          ", so you cannot discard when there is an odd number of clues available."))
      else if p.Character = "Wasteful" ∧ g.ClueTokens ≥ variant.GetAdjustedClueTokens 2 then
        some (.reject ("You are " ++ p.Character ++
          ", so you cannot discard if there are 2 or more clues available."))
      else some .allow

/-! ## Mutators -/

/-- The loop of `characterPostClue` that marks the touched cards:
`c := g.Deck[order]; c.InsistentTouched = true` for each order. -/
def markTouched (g : Game) : List Int → Option Game
  | [] => some g
  | order :: rest =>
    match index? g.Deck order with
    | none => none
    | some _ => markTouched (setInsistentTouched g order.toNat true) rest

/-- The first half of `characterPostClue`: the effect on the clue giver. -/
def postClueGiver (env : Env) (d : CommandData) (g : Game) (pi : Nat) (p p2 : GamePlayer) :
    Option Game :=
  let clue := NewClue d
  if p.Character = "Mood Swings" then some (setMetadata g pi clue.Type_)
  else if p.Character = "Insistent" then
    if p.CharacterMetadata = -1 then
      match markTouched g (FindCardsTouchedByClue env g p2 clue) with
      | none => none
      | some g1 => some (setMetadata g1 pi 0)
    else some g
  else some g

/-- The hook `characterPostClue(d, g, p)`; the target `p2` is the pointer
`g.Players[d.Target]`, read again after the giver's update. -/
def characterPostClue (env : Env) (d : CommandData) (g : Game) (pi : Nat) : Option Game :=
  if g.Options.DetrimentalCharacters = false then some g
  else match index? g.Players d.Target, g.Players[pi]? with
    | some p2, some p =>
      match postClueGiver env d g pi p p2 with
      | none => none
      | some g1 =>
        match index? g1.Players d.Target with
        | none => none
        | some q2 =>
          if q2.Character = "Vindictive" then some (setMetadata g1 d.Target.toNat 0)
          else if q2.Character = "Impulsive" ∧ IsFirstCardTouchedByClue env g1 q2 (NewClue d) = true then
            some (setMetadata g1 d.Target.toNat 0)
          else some g1
    | _, _ => none

/-- The loop of `characterPostRemoveCard` over the players: the first
Insistent player's metadata is reset, then `break`. -/
def resetInsistent : List GamePlayer → List GamePlayer
  | [] => []
  | p2 :: rest =>
    if p2.Character = "Insistent" then { p2 with CharacterMetadata := -1 } :: rest
    else p2 :: resetInsistent rest

/-- The hook `characterPostRemoveCard(g, p, c)`; the card is passed by
pointer. -/
def characterPostRemoveCard (g : Game) (pi : Nat) (ci : Nat) : Option Game :=
  if g.Options.DetrimentalCharacters = false then some g
  else match g.Players[pi]?, g.Deck[ci]? with
    | some p, some c =>
      if c.InsistentTouched = false then some g
      else
        let g1 := p.Hand.foldl (fun acc k => setInsistentTouched acc k false) g
        some { g1 with Players := resetInsistent g1.Players }
    | _, _ => none

/-- The hook `characterPostAction(d, g, p)`. -/
def characterPostAction (d : CommandData) (g : Game) (pi : Nat) : Option Game :=
  if g.Options.DetrimentalCharacters = false then some g
  else match g.Players[pi]? with
    | none => none
    | some p =>
      let g1 :=
        if p.Character = "Vindictive" then setMetadata g pi (-1)
        else if p.Character = "Impulsive" then setMetadata g pi (-1)
        else if p.Character = "Indolent" then
          if d.Type_ = ActionTypePlay then setMetadata g pi 0 else setMetadata g pi (-1)
        else if p.Character = "Contrarian" then { g with TurnsInverted := !g.TurnsInverted }
        else g
      some { g1 with Players := g1.Players.map (fun p2 =>
        if p2.Character = "Stubborn" then { p2 with CharacterMetadata := d.Type_ } else p2) }

/-- The hook `characterNeedsToTakeSecondTurn(d, g, p)`: the state after the
call and the returned boolean. -/
def characterNeedsToTakeSecondTurn (env : Env) (d : CommandData) (g : Game) (pi : Nat) :
    Option (Game × Bool) :=
  if g.Options.DetrimentalCharacters = false then some (g, false)
  else match g.Players[pi]? with
    | none => none
    | some p =>
      let variant := env.variants g.Options.VariantName
      if p.Character = "Genius" then
        if d.Type_ = ActionTypeColorClue then some (setMetadata g pi d.Target, true)
        else if d.Type_ = ActionTypeRankClue then some (setMetadata g pi (-1), false)
        else some (g, false)
      else if p.Character = "Panicky" ∧ d.Type_ = ActionTypeDiscard then
        if p.CharacterMetadata = -1 ∧ g.ClueTokens ≤ variant.GetAdjustedClueTokens 4 then
          some (setMetadata g pi 0, true)
        else if p.CharacterMetadata = 0 then some (setMetadata g pi (-1), false)
        else some (g, false)
      else some (g, false)

/-! ## Visibility -/

/-- The hook `characterHideCard(a, g, p)`. -/
def characterHideCard (a : ActionDraw) (g : Game) (pi : Nat) : Option Bool :=
  if g.Options.DetrimentalCharacters = false then some false
  else match g.Players[pi]? with
    | none => none
    | some p =>
      if p.Character = "Blind Spot" ∧ a.PlayerIndex = GetNextPlayer g p then some true
      else if p.Character = "Oblivious" ∧ a.PlayerIndex = GetPreviousPlayer g p then some true
      else if p.Character = "Slow-Witted" then some true
      else some false

/-- The hook `characterSendCardIdentityOfSlot2(g, playerIndexDrawingCard)`. -/
def characterSendCardIdentityOfSlot2 (g : Game) (playerIndexDrawingCard : Int) : Option Game :=
  if g.Options.DetrimentalCharacters = false then some g
  else match index? g.Players playerIndexDrawingCard with
    | none => none
    | some p =>
      if (handCards g p).length ≤ 1 then some g
      else
        let hasSlowWitted := g.Players.any (fun p2 => decide (p2.Character = "Slow-Witted"))
        if hasSlowWitted then
          match (handCards g p)[(handCards g p).length - 2]? with
          | none => none
          | some c =>
            some { g with
              Actions := g.Actions ++ [{ Type_ := "cardIdentity", PlayerIndex := p.Index,
                                          Order := c.Order, SuitIndex := c.SuitIndex,
                                          Rank := c.Rank }],
              Notified := g.Notified + 1 }
        else some g

/-- The hook `characterSeesCard(g, p, p2, cardOrder)`. -/
def characterSeesCard (g : Game) (pi p2i : Nat) (cardOrder : Int) : Option Bool :=
  if g.Options.DetrimentalCharacters = false then some true
  else match g.Players[pi]?, g.Players[p2i]? with
    | some p, some p2 =>
      if p.Character = "Blind Spot" ∧ p2.Index = GetNextPlayer g p then some false
      else if p.Character = "Oblivious" ∧ p2.Index = GetPreviousPlayer g p then some false
      else if p.Character = "Slow-Witted" ∧ GetCardSlot g p2 cardOrder = 1 then some false
      else some true
    | _, _ => none

/-! ## Turn flow and softlock -/

/-- The hook `characterAdjustEndTurn(g)`: every Contrarian player found by the
loop performs the same assignment `g.EndTurn = g.Turn + 3`, an `int`
addition. -/
def characterAdjustEndTurn (g : Game) : Game :=
  if g.Options.DetrimentalCharacters = false then g
  else g.Players.foldl (fun acc p =>
    if p.Character = "Contrarian" then { acc with EndTurn := wrapInt (acc.Turn + 3) }
    else acc) g

/-- The loop `for turn := g.Turn + 1; turn <= g.EndTurn; turn++ { ... }` of
`characterHasTakenLastTurn`, entered at the loop test with the current `turn`,
the walking `activePlayer` and the walking `turnsInverted`. `turn++` is an
`int` increment and wraps around; Go's `%` truncates towards zero and panics
for a zero divisor. The player arithmetic stays far below `maxInt`: the index
is below `len(g.Players)` in absolute value after the first step, and a slice
has fewer than 2^61 elements. The first argument bounds the number of loop
tests; a loop that needs more does not return. -/
def lastTurnWalk (g : Game) : Nat → Int → Int → Bool → Option Bool
  | 0, _, _, _ => none
  | fuel + 1, turn, activePlayer, turnsInverted =>
    if turn ≤ g.EndTurn then
      if g.Players.length = 0 then none
      else
        let n : Int := (g.Players.length : Int)
        let activePlayer1 :=
          if turnsInverted then Int.tmod (activePlayer + n - 1) n
          else Int.tmod (activePlayer + 1) n
        if activePlayer1 = g.ActivePlayerIndex then some false
        else match index? g.Players activePlayer1 with
          | none => none
          | some q =>
            lastTurnWalk g fuel (wrapInt (turn + 1)) activePlayer1
              (if q.Character = "Contrarian" then !turnsInverted else turnsInverted)
    else some true

/-- The number of loop tests granted to the loop of
`characterHasTakenLastTurn`: 2^64 + 1. A loop that leaves through its test does
so within 2^64 iterations, `turn` being an `int` that only grows until then. A
loop with `g.EndTurn = maxInt` never leaves through its test; when its body
does not return within that many iterations it never does, the pair of
`activePlayer` and `turnsInverted` having repeated. -/
def lastTurnFuel : Nat := 18446744073709551617

/-- The hook `characterHasTakenLastTurn(g)`. -/
def characterHasTakenLastTurn (g : Game) : Option Bool :=
  if g.EndTurn = -1 then some false
  else lastTurnWalk g lastTurnFuel (wrapInt (g.Turn + 1)) g.ActivePlayerIndex g.TurnsInverted

/-- The hook `characterCheckSoftlock(g, p)`. -/
def characterCheckSoftlock (env : Env) (g : Game) (pi : Nat) : Option Game :=
  if g.Options.DetrimentalCharacters = false then some g
  else match g.Players[pi]? with
    | none => none
    | some p =>
      let variant := env.variants g.Options.VariantName
      if g.ClueTokens < variant.GetAdjustedClueTokens 1 ∧ p.CharacterMetadata = 0 ∧
          (p.Character = "Vindictive" ∨ p.Character = "Insistent") then
        some { g with EndCondition := env.EndConditionCharacterSoftlock, EndPlayer := p.Index }
      else some g

/-! ## Character assignment -/

/-- The inner loop of `charactersGenerate` over `g.Players` for player `i`
holding character `c`: it stops at `j == i`, so it compares `c` with the
characters of the players before `i`. -/
def alreadyAssigned (players : List GamePlayer) (i : Nat) (c : String) : Bool :=
  (players.take i).any (fun p2 => decide (p2.Character = c))

/-- The `for { ... }` draw loop of `charactersGenerate` for player `i`: each
round is one `rand.Intn(len(characterNames))` (see `randIntn`: a panic for an
empty table, one raw output consumed otherwise), the assignment of the drawn
name to `p.Character`, and the two rejection tests. The loop does not return
when the raw outputs run out. -/
def drawCharacter (env : Env) (i : Nat) (g : Game) : List Nat → Option (Game × List Nat)
  | [] => none
  | r :: rest =>
    if env.characterNames.length = 0 then none
    else match env.characterNames[r % env.characterNames.length]? with
      | none => none
      | some name =>
        let g1 := setCharacter g i name
        if alreadyAssigned g1.Players i name = true then drawCharacter env i g1 rest
        else if env.Not2P name = true ∧ g1.Players.length = 2 then drawCharacter env i g1 rest
        else some (g1, rest)

/-- The secondary attribute drawn for a player that is not a test fixture,
after the metadata was initialised to -1. -/
def drawMetadata (env : Env) (i : Nat) (g : Game) (rng : List Nat) (character : String) :
    Option (Game × List Nat) :=
  let variant := env.variants g.Options.VariantName
  if character = "Fuming" then
    (randIntn variant.ClueColors.length rng).map (fun r => (setMetadata g i (r.1 : Int), r.2))
  else if character = "Dumbfounded" then
    (randIntn 4 rng).map (fun r => (setMetadata g i ((r.1 : Int) + 1), r.2))
  else if character = "Inept" then
    (randIntn variant.ClueColors.length rng).map (fun r => (setMetadata g i (r.1 : Int), r.2))
  else if character = "Awkward" then
    (randIntn 4 rng).map (fun r => (setMetadata g i ((r.1 : Int) + 1), r.2))
  else some (g, rng)

/-- The body of the player loop of the random path of `charactersGenerate`
for the player at position `i`. -/
def generateFor (env : Env) (i : Nat) (g : Game) (rng : List Nat) : Option (Game × List Nat) :=
  match g.Players[i]? with
  | none => none
  | some p =>
    if stringInSlice p.Name debugUsernames = true then
      match debugCharacters[i]?, debugCharacterMetadata[i]? with
      | some c, some m => some (setMetadata (setMetadata (setCharacter g i c) i (-1)) i m, rng)
      | _, _ => none
    else
      match drawCharacter env i g rng with
      | none => none
      | some (g1, rng1) =>
        match g1.Players[i]? with
        | none => none
        | some p1 => drawMetadata env i (setMetadata g1 i (-1)) rng1 p1.Character

/-- The player loop `for i, p := range g.Players` of the random path. -/
def generateLoop (env : Env) : List Nat → Game → List Nat → Option (Game × List Nat)
  | [], g, rng => some (g, rng)
  | i :: rest, g, rng =>
    match generateFor env i g rng with
    | none => none
    | some (g1, rng1) => generateLoop env rest g1 rng1

/-- The loop of the explicit path: player `i` receives the `i`-th entry of
`CustomCharacterAssignments` verbatim. -/
def assignCustom (players : List GamePlayer) (custom : List CharacterAssignment) :
    List GamePlayer :=
  players.zipWith (fun p a => { p with Character := a.Name, CharacterMetadata := a.Metadata })
    custom

/-- The hook `charactersGenerate(g)` on a game and the remaining raw outputs of
the process-wide generator. -/
def charactersGenerate (env : Env) (g : Game) (rng : List Nat) : Option (Game × List Nat) :=
  if g.Options.DetrimentalCharacters = false then some (g, rng)
  else if g.ExtraOptions.CustomCharacterAssignments.length ≠ 0 then
    if g.ExtraOptions.CustomCharacterAssignments.length ≠ g.Players.length then some (g, rng)
    else some ({ g with Players := assignCustom g.Players g.ExtraOptions.CustomCharacterAssignments },
               rng)
  else generateLoop env (List.range g.Players.length) g (env.setSeed g.Seed)

/-! ## Concrete games used to instantiate the theorems -/

/-- A five-colour variant without clue-token adjustment. -/
def plainVariant : Variant :=
  ⟨["Red", "Yellow", "Green", "Blue", "Purple"], fun n => n⟩

/-- An environment with three characters, of which Genius is barred from
2-player games; a colour clue touches the cards of that suit, a rank clue the
cards of that rank. -/
def sampleEnv : Env :=
  ⟨fun _ => plainVariant, ["Fuming", "Genius", "Miser"], fun c => c == "Genius",
   fun _ clue c => if clue.Type_ = ClueTypeColor then c.SuitIndex == clue.Value
                   else c.Rank == clue.Value,
   fun _ => [0, 1, 2, 3, 4, 5, 6, 7], 7⟩

/-- A player without cards. -/
def seat (name : String) (index : Int) (character : String) (metadata : Int) : GamePlayer :=
  ⟨name, index, [], character, metadata⟩

/-- A game at turn 0 with eight clue tokens and no card dealt. -/
def table (enabled : Bool) (custom : List CharacterAssignment) (players : List GamePlayer) :
    Game :=
  ⟨⟨enabled, "No Variant"⟩, ⟨custom⟩, "seed", players, [], [], 8, 0, -1, false, 0, 0, -1, [], 0⟩

/-- Two players named alice and bob before assignment, with the explicit
assignment Fuming (metadata 1), Genius. -/
def fumingGeniusSetup : Game :=
  table true [⟨"Fuming", 1⟩, ⟨"Genius", -1⟩] [seat "alice" 0 "" 0, seat "bob" 1 "" 0]

/-- The game `fumingGeniusSetup` after `charactersGenerate`. -/
def fumingGenius : Game :=
  table true [⟨"Fuming", 1⟩, ⟨"Genius", -1⟩]
    [seat "alice" 0 "Fuming" 1, seat "bob" 1 "Genius" (-1)]

/-- The cards of the list carry the orders `k`, `k + 1`, ... in sequence. -/
def ordersFrom : Nat → List Card → Bool
  | _, [] => true
  | k, c :: cs => decide (c.Order = (k : Int)) && ordersFrom (k + 1) cs

/-- The deck invariant of the game: the card at position `k` of `g.Deck` has
`Order` `k`, so that `g.Deck[c.Order]` is the card `c` itself. -/
def deckOrdered (g : Game) : Bool :=
  ordersFrom 0 g.Deck

/-- An Insistent player alice without cards and bob holding the three cards of
the deck: red 1, yellow 2, red 3 (suits 0, 1, 0). -/
def insistentGame : Game :=
  ⟨⟨true, "No Variant"⟩, ⟨[]⟩, "seed",
   [⟨"alice", 0, [], "Insistent", -1⟩, ⟨"bob", 1, [0, 1, 2], "Fuming", 1⟩],
   [⟨0, 0, 1, false⟩, ⟨1, 1, 2, false⟩, ⟨2, 0, 3, false⟩],
   [], 8, 0, -1, false, 0, 0, -1, [], 0⟩

/-- The game `insistentGame` after alice's red clue to bob: both red cards
are marked and alice's metadata is 0. -/
def insistentMarked : Game :=
  ⟨⟨true, "No Variant"⟩, ⟨[]⟩, "seed",
   [⟨"alice", 0, [], "Insistent", 0⟩, ⟨"bob", 1, [0, 1, 2], "Fuming", 1⟩],
   [⟨0, 0, 1, true⟩, ⟨1, 1, 2, false⟩, ⟨2, 0, 3, true⟩],
   [], 8, 0, -1, false, 0, 0, -1, [], 0⟩

/-- The game `insistentMarked` after bob's red 1 left the hand and
`characterPostRemoveCard` ran: the red 3 is unmarked, alice's metadata is -1. -/
def insistentCleared : Game :=
  ⟨⟨true, "No Variant"⟩, ⟨[]⟩, "seed",
   [⟨"alice", 0, [], "Insistent", -1⟩, ⟨"bob", 1, [1, 2], "Fuming", 1⟩],
   [⟨0, 0, 1, true⟩, ⟨1, 1, 2, false⟩, ⟨2, 0, 3, false⟩],
   [], 8, 0, -1, false, 0, 0, -1, [], 0⟩

/-- A game in which alice, who holds no cards, has the given character, and
bob holds the three cards of the deck, the card of order 2 in slot 1. -/
def viewerGame (character : String) : Game :=
  ⟨⟨true, "No Variant"⟩, ⟨[]⟩, "seed",
   [⟨"alice", 0, [], character, -1⟩, ⟨"bob", 1, [0, 1, 2], "Fuming", 1⟩],
   [⟨0, 0, 1, false⟩, ⟨1, 1, 2, false⟩, ⟨2, 0, 3, false⟩],
   [], 8, 0, -1, false, 0, 0, -1, [], 0⟩

/-- The ranks of the cards played on a stack whose value is `s`: 1, ..., s. -/
def stackCards (s : Int) : List Int :=
  (List.range s.toNat).map (fun (k : Nat) => (k : Int) + 1)

/-- The number of played cards, across all stacks, whose rank equals `rank`. -/
def playedOfRank (piles : List Int) (rank : Int) : Nat :=
  (piles.map (fun s => (stackCards s).count rank)).sum

/-- The number of played cards, across all stacks, whose rank is equal to or
higher than `rank` (the count in the wording of the misplay rule of the
specification). -/
def playedOfRankAtLeast (piles : List Int) (rank : Int) : Nat :=
  (piles.map (fun s => ((stackCards s).filter (fun k => decide (rank ≤ k))).length)).sum

/-- A Follower alice and a Miser bob, alice holding the only card of the deck,
of the given rank, over the given play stacks. -/
def followerGame (piles : List Int) (rank : Int) : Game :=
  ⟨⟨true, "No Variant"⟩, ⟨[]⟩, "seed",
   [⟨"alice", 0, [0], "Follower", -1⟩, ⟨"bob", 1, [], "Miser", -1⟩],
   [⟨0, 0, rank, false⟩],
   piles, 8, 0, -1, false, 0, 0, -1, [], 0⟩

/-- An environment whose only character is Dumbfounded and whose generator
yields the given raw outputs. -/
def dumbfoundedEnv (raw : List Nat) : Env :=
  ⟨fun _ => plainVariant, ["Dumbfounded"], fun _ => false,
   fun _ clue c => if clue.Type_ = ClueTypeColor then c.SuitIndex == clue.Value
                   else c.Rank == clue.Value,
   fun _ => raw, 7⟩

/-- The values the loop of `characterHasTakenLastTurn` assigns to
`activePlayer`, in order, for the same arguments as `lastTurnWalk`: each is
compared with the original player and, when different, used as the index
`g.Players[activePlayer]`. -/
def lastTurnTrace (g : Game) : Nat → Int → Int → Bool → List Int
  | 0, _, _, _ => []
  | fuel + 1, turn, activePlayer, turnsInverted =>
    if turn ≤ g.EndTurn then
      if g.Players.length = 0 then []
      else
        let n : Int := (g.Players.length : Int)
        let activePlayer1 :=
          if turnsInverted then Int.tmod (activePlayer + n - 1) n
          else Int.tmod (activePlayer + 1) n
        if activePlayer1 = g.ActivePlayerIndex then [activePlayer1]
        else match index? g.Players activePlayer1 with
          | none => [activePlayer1]
          | some q =>
            activePlayer1 :: lastTurnTrace g fuel (wrapInt (turn + 1)) activePlayer1
              (if q.Character = "Contrarian" then !turnsInverted else turnsInverted)
    else []

/-! ## The validators as state transformers -/

/-- The hook `characterValidateAction(s, d, g, p)` as a state transformer: the
body is threaded through the game statement by statement, and every `return`
hands back the game as the statements before it left it together with the
verdict. -/
def characterValidateActionCall (d : CommandData) (g : Game) (pi : Nat) : Option (Game × Verdict) :=
  if g.Options.DetrimentalCharacters = false then some (g, .allow)
  else match g.Players[pi]? with
    | none => none
    | some p =>
      if p.Character = "Vindictive" ∧ p.CharacterMetadata = 0 ∧
          (d.Type_ ≠ ActionTypeColorClue ∧ d.Type_ ≠ ActionTypeRankClue) then
        some (g, .reject ("You are " ++ p.Character ++
          ", so you must give a clue if you have been given a clue on this go-around."))
      else if p.Character = "Insistent" ∧ p.CharacterMetadata ≠ -1 ∧
          (d.Type_ ≠ ActionTypeColorClue ∧ d.Type_ ≠ ActionTypeRankClue) then
        some (g, .reject ("You are " ++ p.Character ++
          ", so you must continue to clue the same card until it is played or discarded."))
      else
        match (if p.Character = "Impulsive" ∧ p.CharacterMetadata = 0
               then notSlot1Play d g p else some false) with
        | none => none
        | some true =>
          some (g, .reject ("You are " ++ p.Character ++
            ", so you must play your slot 1 card after it has been clued."))
        | some false =>
          if p.Character = "Indolent" ∧ d.Type_ = ActionTypePlay ∧ p.CharacterMetadata = 0 then
            some (g, .reject ("You are " ++ p.Character ++
              ", so you cannot play a card if you played one in the last round."))
          else if p.Character = "Stubborn" ∧
              (d.Type_ = p.CharacterMetadata ∨
               (d.Type_ = ActionTypeColorClue ∧ p.CharacterMetadata = ActionTypeRankClue) ∨
               (d.Type_ = ActionTypeRankClue ∧ p.CharacterMetadata = ActionTypeColorClue)) then
            some (g, .reject ("You are " ++ p.Character ++
              ", so you cannot perform the same kind of action that the previous player did."))
          else some (g, .allow)

/-- The hook `characterValidateSecondAction(s, d, g, p)` as a state
transformer. -/
def characterValidateSecondActionCall (d : CommandData) (g : Game) (pi : Nat) : Option (Game × Verdict) :=
  if g.Options.DetrimentalCharacters = false then some (g, .allow)
  else match g.Players[pi]? with
    | none => none
    | some p =>
      if p.CharacterMetadata = -1 then some (g, .allow)
      else if p.Character = "Genius" then
        if d.Type_ ≠ ActionTypeRankClue then
          some (g, .reject ("You are " ++ p.Character ++ ", so you must now give a rank clue."))
        else if d.Target ≠ p.CharacterMetadata then
          some (g, .reject ("You are " ++ p.Character ++
            ", so you must give the second clue to the same player."))
        else some (g, .allow)
      else if p.Character = "Panicky" ∧ d.Type_ ≠ ActionTypeDiscard then
        some (g, .reject ("You are " ++ p.Character ++
          ", so you must discard again since there are 4 or less clues available."))
      else some (g, .allow)

/-- The first `if ... else if` chain of `characterValidateClue` as a state
transformer; `allow` means that control reaches the second chain. -/
def giverRulesCall (env : Env) (d : CommandData) (g : Game) (p p2 : GamePlayer) : Option (Game × Verdict) :=
  let variant := env.variants g.Options.VariantName
  let clue := NewClue d
  if p.Character = "Fuming" ∧ clue.Type_ = ClueTypeColor ∧ clue.Value ≠ p.CharacterMetadata then
    some (g, .reject ("You are " ++ p.Character ++ ", so you can not give that type of clue."))
  else if p.Character = "Dumbfounded" ∧ clue.Type_ = ClueTypeRank ∧
      clue.Value ≠ p.CharacterMetadata then
    some (g, .reject ("You are " ++ p.Character ++ ", so you can not give that type of clue."))
  else if p.Character = "Inept" then
    match anyTouched g (fun c => decide (c.SuitIndex = p.CharacterMetadata))
        (FindCardsTouchedByClue env g p2 clue) with
    | none => none
    | some true =>
      some (g, .reject ("You are " ++ p.Character ++
        ", so you cannot give clues that touch a specific suit."))
    | some false => some (g, .allow)
  else if p.Character = "Awkward" then
    match anyTouched g (fun c => decide (c.Rank = p.CharacterMetadata))
        (FindCardsTouchedByClue env g p2 clue) with
    | none => none
    | some true =>
      some (g, .reject ("You are " ++ p.Character ++
        ", so you cannot give clues that touch cards with a rank of " ++
        toString p.CharacterMetadata ++ "."))
    | some false => some (g, .allow)
  else if p.Character = "Conservative" ∧ (FindCardsTouchedByClue env g p2 clue).length ≠ 1 then
    some (g, .reject ("You are " ++ p.Character ++
      ", so you can only give clues that touch a single card."))
  else if p.Character = "Greedy" ∧ (FindCardsTouchedByClue env g p2 clue).length < 2 then
    some (g, .reject ("You are " ++ p.Character ++
      ", so you can only give clues that touch 2+ cards."))
  else if p.Character = "Picky" ∧
      ((clue.Type_ = ClueTypeRank ∧ Int.tmod clue.Value 2 = 0) ∨
       (clue.Type_ = ClueTypeColor ∧ Int.tmod (clue.Value + 1) 2 = 0)) then
    some (g, .reject ("You are " ++ p.Character ++
      ", so you can only clue odd numbers or odd colors."))
  else if p.Character = "Spiteful" then
    let leftIndex := if p.Index + 1 = (g.Players.length : Int) then 0 else p.Index + 1
    if d.Target = leftIndex then
      some (g, .reject ("You are " ++ p.Character ++
        ", so you cannot clue the player to your left."))
    else some (g, .allow)
  else if p.Character = "Insolent" then
    let rightIndex := if p.Index - 1 = -1 then (g.Players.length : Int) - 1 else p.Index - 1
    if d.Target = rightIndex then
      some (g, .reject ("You are " ++ p.Character ++
        ", so you cannot clue the player to your right."))
    else some (g, .allow)
  else if p.Character = "Miser" ∧ g.ClueTokens < variant.GetAdjustedClueTokens 4 then
    some (g, .reject ("You are " ++ p.Character ++
      ", so you cannot give a clue unless there are 4 or more clues available."))
  else if p.Character = "Compulsive" ∧ IsFirstCardTouchedByClue env g p2 clue = false ∧
      IsLastCardTouchedByClue env g p2 clue = false then
    some (g, .reject ("You are " ++ p.Character ++
      ", so you can only give a clue if it touches either the newest or oldest card in a hand."))
  else if p.Character = "Mood Swings" ∧ p.CharacterMetadata = clue.Type_ then
    some (g, .reject ("You are " ++ p.Character ++
      ", so cannot give the same clue type twice in a row."))
  else if p.Character = "Insistent" ∧ p.CharacterMetadata ≠ -1 then
    match anyTouched g (fun c => c.InsistentTouched) (FindCardsTouchedByClue env g p2 clue) with
    | none => none
    | some false =>
      some (g, .reject ("You are " ++ p.Character ++
        ", so you must continue to clue a card until it is played or discarded."))
    | some true => some (g, .allow)
  else if p.Character = "Genius" ∧ p.CharacterMetadata = -1 then
    if g.ClueTokens < variant.GetAdjustedClueTokens 2 then
      some (g, .reject ("You are " ++ p.Character ++
        ", so there needs to be at least two clues available for you to give a clue."))
    else if clue.Type_ ≠ ClueTypeColor then
      some (g, .reject ("You are " ++ p.Character ++ ", so you must give a color clue first."))
    else some (g, .allow)
  else some (g, .allow)

/-- The hook `characterCheckPlay(s, d, g, p)` as a state transformer. -/
def characterCheckPlayCall (d : CommandData) (g : Game) (pi : Nat) : Option (Game × Verdict) :=
  if g.Options.DetrimentalCharacters = false then some (g, .allow)
  else match g.Players[pi]? with
    | none => none
    | some p =>
      if p.Character = "Hesitant" ∧ GetCardSlot g p d.Target = 1 then
        some (g, .reject ("You cannot play that card since you are a " ++ p.Character ++
          " character."))
      else some (g, .allow)

/-- The hook `characterCheckDiscard(s, g, p)` as a state transformer. -/
def characterCheckDiscardCall (env : Env) (g : Game) (pi : Nat) : Option (Game × Verdict) :=
  if g.Options.DetrimentalCharacters = false then some (g, .allow)
  else match g.Players[pi]? with
    | none => none
    | some p =>
      let variant := env.variants g.Options.VariantName
      if p.Character = "Anxious" ∧ Int.tmod g.ClueTokens 2 = 0 then
        some (g, .reject ("You are " ++ p.Character ++
          ", so you cannot discard when there is an even number of clues available."))
      else if p.Character = "Traumatized" ∧ Int.tmod g.ClueTokens 2 = 1 then
        some (g, .reject ("You are " ++ p.Character ++
          ", so you cannot discard when there is an odd number of clues available."))
      else if p.Character = "Wasteful" ∧ g.ClueTokens ≥ variant.GetAdjustedClueTokens 2 then
        some (g, .reject ("You are " ++ p.Character ++
          ", so you cannot discard if there are 2 or more clues available."))
      else some (g, .allow)

/-- The second `if ... else if` chain of `characterValidateClue` and its final
`return false` as a state transformer. -/
def targetRulesCall (d : CommandData) (g : Game) (p2 : GamePlayer) : Game × Verdict :=
  let clue := NewClue d
  if p2.Character = "Vulnerable" ∧ clue.Type_ = ClueTypeRank ∧
      (clue.Value = 2 ∨ clue.Value = 5) then
    (g, .reject ("You cannot give a number 2 or number 5 clue to a " ++ p2.Character ++
      " character."))
  else if p2.Character = "Color-Blind" ∧ clue.Type_ = ClueTypeColor then
    (g, .reject ("You cannot give that color clue to a " ++ p2.Character ++ " character."))
  else (g, .allow)

/-- The hook `characterValidateClue(s, d, g, p)` as a state transformer: the
second chain runs on the game the first chain hands on. -/
def characterValidateClueCall (env : Env) (d : CommandData) (g : Game) (pi : Nat) :
    Option (Game × Verdict) :=
  if g.Options.DetrimentalCharacters = false then some (g, .allow)
  else match index? g.Players d.Target with
    | none => none
    | some p2 =>
      match g.Players[pi]? with
      | none => none
      | some p =>
        match giverRulesCall env d g p p2 with
        | none => none
        | some (g1, .reject w) => some (g1, .reject w)
        | some (g1, .allow) => some (targetRulesCall d g1 p2)

/-- The hook `characterCheckMisplay(g, p, c)` as a state transformer. -/
def characterCheckMisplayCall (g : Game) (pi : Nat) (ci : Nat) : Option (Game × Bool) :=
  if g.Options.DetrimentalCharacters = false then some (g, false)
  else match g.Players[pi]?, g.Deck[ci]? with
    | some p, some c =>
      if p.Character = "Follower" then
        let numPlayedOfThisRank := (g.Stacks.filter (fun s => decide (s ≥ c.Rank))).length
        if numPlayedOfThisRank < 2 then some (g, true) else some (g, false)
      else some (g, false)
    | _, _ => none

/-! ## Theorems -/

/-- C1 (as amended): with characters enabled, a Fuming clue giver with
metadata m and a target that is neither Vulnerable nor Color-Blind,
`characterValidateClue` allows a color clue of value m and rejects a color
clue of any other value. -/
theorem fuming_color_clue (env : Env) (d : CommandData) (g : Game) (pi : Nat)
    (p p2 : GamePlayer)
    (hon : g.Options.DetrimentalCharacters = true)
    (hp : g.Players[pi]? = some p) (hp2 : index? g.Players d.Target = some p2)
    (hfuming : p.Character = "Fuming")
    (hv : p2.Character ≠ "Vulnerable") (hc : p2.Character ≠ "Color-Blind")
    (hcolor : d.Type_ = ActionTypeColorClue) :
    (d.Value = p.CharacterMetadata → characterValidateClue env d g pi = some .allow) ∧
    (d.Value ≠ p.CharacterMetadata → characterValidateClue env d g pi =
      some (.reject "You are Fuming, so you can not give that type of clue.")) := by
  constructor
  · intro hval
    simp [characterValidateClue, hon, hp, hp2, giverRules, targetRules, NewClue, hfuming,
      hcolor, hval, hv, hc]
  · intro hval
    simp [characterValidateClue, hon, hp, hp2, giverRules, NewClue, hfuming, hcolor, hval]

/-- With the explicit assignment Fuming (metadata 1), Genius, the Fuming
player's color clue of value 1 to the Genius player is allowed and the color
clue of value 0 is rejected. -/
theorem fuming_color_clue_witness :
    charactersGenerate sampleEnv fumingGeniusSetup [] = some (fumingGenius, []) ∧
    characterValidateClue sampleEnv ⟨ActionTypeColorClue, 1, 1⟩ fumingGenius 0 = some .allow ∧
    characterValidateClue sampleEnv ⟨ActionTypeColorClue, 1, 0⟩ fumingGenius 0 =
      some (.reject "You are Fuming, so you can not give that type of clue.") :=
  ⟨by decide,
   (fuming_color_clue sampleEnv ⟨ActionTypeColorClue, 1, 1⟩ fumingGenius 0
      (seat "alice" 0 "Fuming" 1) (seat "bob" 1 "Genius" (-1))
      (by decide) (by decide) (by decide) (by decide) (by decide) (by decide) (by decide)).1
      (by decide),
   (fuming_color_clue sampleEnv ⟨ActionTypeColorClue, 1, 0⟩ fumingGenius 0
      (seat "alice" 0 "Fuming" 1) (seat "bob" 1 "Genius" (-1))
      (by decide) (by decide) (by decide) (by decide) (by decide) (by decide) (by decide)).2
      (by decide)⟩

/-- C1 as stated fails: in the scenario of the specification the color clue
of value 1 is not rejected and the color clue of value 0 is not allowed. -/
theorem fuming_scenario_reversed :
    charactersGenerate sampleEnv fumingGeniusSetup [] = some (fumingGenius, []) ∧
    ¬ ((characterValidateClue sampleEnv ⟨ActionTypeColorClue, 1, 1⟩ fumingGenius 0).map
          Verdict.failed = some true ∧
       (characterValidateClue sampleEnv ⟨ActionTypeColorClue, 1, 0⟩ fumingGenius 0).map
          Verdict.failed = some false) := by
  decide

/-- C2: with DetrimentalCharacters off the validators return false (`allow`),
`characterNeedsToTakeSecondTurn` and `characterHideCard` return false,
`characterSeesCard` returns true, and the mutating hooks hand back the game
(and the generator) unchanged, for every input. -/
theorem hooks_disabled (env : Env) (g : Game) (hoff : g.Options.DetrimentalCharacters = false) :
    (∀ d pi, characterValidateAction d g pi = some .allow) ∧
    (∀ d pi, characterValidateSecondAction d g pi = some .allow) ∧
    (∀ d pi, characterValidateClue env d g pi = some .allow) ∧
    (∀ d pi, characterCheckPlay d g pi = some .allow) ∧
    (∀ pi ci, characterCheckMisplay g pi ci = some false) ∧
    (∀ pi, characterCheckDiscard env g pi = some .allow) ∧
    (∀ d pi, characterNeedsToTakeSecondTurn env d g pi = some (g, false)) ∧
    (∀ a pi, characterHideCard a g pi = some false) ∧
    (∀ pi p2i cardOrder, characterSeesCard g pi p2i cardOrder = some true) ∧
    (∀ rng, charactersGenerate env g rng = some (g, rng)) ∧
    (∀ d pi, characterPostClue env d g pi = some g) ∧
    (∀ pi ci, characterPostRemoveCard g pi ci = some g) ∧
    (∀ d pi, characterPostAction d g pi = some g) ∧
    (∀ playerIndexDrawingCard, characterSendCardIdentityOfSlot2 g playerIndexDrawingCard = some g) ∧
    characterAdjustEndTurn g = g ∧
    (∀ pi, characterCheckSoftlock env g pi = some g) := by
  refine ⟨?_, ?_, ?_, ?_, ?_, ?_, ?_, ?_, ?_, ?_, ?_, ?_, ?_, ?_, ?_, ?_⟩
  · intro d pi; simp [characterValidateAction, hoff]
  · intro d pi; simp [characterValidateSecondAction, hoff]
  · intro d pi; simp [characterValidateClue, hoff]
  · intro d pi; simp [characterCheckPlay, hoff]
  · intro pi ci; simp [characterCheckMisplay, hoff]
  · intro pi; simp [characterCheckDiscard, hoff]
  · intro d pi; simp [characterNeedsToTakeSecondTurn, hoff]
  · intro a pi; simp [characterHideCard, hoff]
  · intro pi p2i cardOrder; simp [characterSeesCard, hoff]
  · intro rng; simp [charactersGenerate, hoff]
  · intro d pi; simp [characterPostClue, hoff]
  · intro pi ci; simp [characterPostRemoveCard, hoff]
  · intro d pi; simp [characterPostAction, hoff]
  · intro i; simp [characterSendCardIdentityOfSlot2, hoff]
  · simp [characterAdjustEndTurn, hoff]
  · intro pi; simp [characterCheckSoftlock, hoff]

/-- A game with characters disabled: every hook is a no-op on it. -/
theorem hooks_disabled_witness :
    characterValidateClue sampleEnv ⟨ActionTypeColorClue, 1, 0⟩ (table false [] [seat "alice" 0 "Fuming" 1, seat "bob" 1 "Color-Blind" (-1)]) 0 = some .allow ∧
    characterSeesCard (table false [] [seat "alice" 0 "Slow-Witted" 1, seat "bob" 1 "Genius" (-1)]) 0 1 0 = some true :=
  ⟨(hooks_disabled sampleEnv (table false [] [seat "alice" 0 "Fuming" 1, seat "bob" 1 "Color-Blind" (-1)]) (by decide)).2.2.1 _ _,
   (hooks_disabled sampleEnv (table false [] [seat "alice" 0 "Slow-Witted" 1, seat "bob" 1 "Genius" (-1)]) (by decide)).2.2.2.2.2.2.2.2.1 _ _ _⟩

/-- Independence of `lastTurnWalk` from the game options. -/
theorem lastTurnWalk_options (g : Game) (o : Options) (k : Nat) (turn a : Int) (inv : Bool) :
    lastTurnWalk { g with Options := o } k turn a inv = lastTurnWalk g k turn a inv := by
  induction k generalizing turn a inv with
  | zero => simp [lastTurnWalk]
  | succ k ih => simp only [lastTurnWalk, ih]

/-- C3 (as amended): `characterHasTakenLastTurn` returns false whenever
EndTurn is -1, whatever Turn, TurnsInverted, ActivePlayerIndex and the
characters are; it does not read DetrimentalCharacters, so with the flag off it
returns what it returns with the flag on. -/
theorem hasTakenLastTurn_ignores_flag (g : Game) :
    (g.EndTurn = -1 → characterHasTakenLastTurn g = some false) ∧
    (∀ b : Bool, characterHasTakenLastTurn
        { g with Options := { g.Options with DetrimentalCharacters := b } } =
      characterHasTakenLastTurn g) := by
  constructor
  · intro h; simp [characterHasTakenLastTurn, h]
  · intro b
    simp only [characterHasTakenLastTurn]
    rw [lastTurnWalk_options]

/-- A game with characters disabled whose final turn is not fixed. -/
theorem hasTakenLastTurn_ignores_flag_witness :
    characterHasTakenLastTurn (table false [] [seat "alice" 0 "" (-1), seat "bob" 1 "" (-1)]) =
      some false :=
  (hasTakenLastTurn_ignores_flag
    (table false [] [seat "alice" 0 "" (-1), seat "bob" 1 "" (-1)])).1 (by decide)

/-- C3 as stated fails: with DetrimentalCharacters off, EndTurn = 0 and
Turn = 0, `characterHasTakenLastTurn` returns true. -/
theorem hasTakenLastTurn_disabled_true :
    ({ table false [] [seat "alice" 0 "" (-1), seat "bob" 1 "" (-1)] with
        EndTurn := 0 } : Game).Options.DetrimentalCharacters = false ∧
    characterHasTakenLastTurn
      { table false [] [seat "alice" 0 "" (-1), seat "bob" 1 "" (-1)] with EndTurn := 0 } =
      some true := by
  decide

/-- The explicit loop gives every player the entry at their position. -/
theorem assignCustom_assigned (players : List GamePlayer) (custom : List CharacterAssignment)
    (hlen : custom.length = players.length) :
    (assignCustom players custom).map (fun p => (p.Character, p.CharacterMetadata)) =
      custom.map (fun a => (a.Name, a.Metadata)) := by
  induction players generalizing custom with
  | nil =>
    cases custom with
    | nil => rfl
    | cons a rest => simp at hlen
  | cons p ps ih =>
    cases custom with
    | nil => simp at hlen
    | cons a rest =>
      have hrest : rest.length = ps.length := by simpa using hlen
      have := ih rest hrest
      simp only [assignCustom] at this ⊢
      simp [List.zipWith, this]

/-- The explicit loop leaves names, seats and hands alone. -/
theorem assignCustom_frame (players : List GamePlayer) (custom : List CharacterAssignment)
    (hlen : custom.length = players.length) :
    (assignCustom players custom).map (fun p => (p.Name, p.Index, p.Hand)) =
      players.map (fun p => (p.Name, p.Index, p.Hand)) := by
  induction players generalizing custom with
  | nil =>
    cases custom with
    | nil => rfl
    | cons a rest => simp at hlen
  | cons p ps ih =>
    cases custom with
    | nil => simp at hlen
    | cons a rest =>
      have hrest : rest.length = ps.length := by simpa using hlen
      have := ih rest hrest
      simp only [assignCustom] at this ⊢
      simp [List.zipWith, this]

/-- C4: with characters enabled and a non-empty explicit assignment list, a
list whose length differs from the number of players leaves the game (hence
every Character and CharacterMetadata) and the generator unchanged; a list of
the right length gives the player at every position the Name and Metadata of
the entry at that position verbatim, changes nothing else of the players and
draws nothing from the generator. -/
theorem explicit_assignment (env : Env) (g : Game) (rng : List Nat)
    (hon : g.Options.DetrimentalCharacters = true)
    (hcustom : g.ExtraOptions.CustomCharacterAssignments ≠ []) :
    (g.ExtraOptions.CustomCharacterAssignments.length ≠ g.Players.length →
      charactersGenerate env g rng = some (g, rng)) ∧
    (g.ExtraOptions.CustomCharacterAssignments.length = g.Players.length →
      ∃ g1, charactersGenerate env g rng = some (g1, rng) ∧
        g1.Players.map (fun p => (p.Character, p.CharacterMetadata)) =
          g.ExtraOptions.CustomCharacterAssignments.map (fun a => (a.Name, a.Metadata)) ∧
        (∀ (i : Nat) (a : CharacterAssignment),
          g.ExtraOptions.CustomCharacterAssignments[i]? = some a →
          ∃ p, g1.Players[i]? = some p ∧ p.Character = a.Name ∧
            p.CharacterMetadata = a.Metadata) ∧
        g1.Players.map (fun p => (p.Name, p.Index, p.Hand)) =
          g.Players.map (fun p => (p.Name, p.Index, p.Hand))) := by
  have hne : g.ExtraOptions.CustomCharacterAssignments.length ≠ 0 := by
    intro h; exact hcustom (List.length_eq_zero.mp h)
  constructor
  · intro hlen
    simp [charactersGenerate, hon, hne, hlen]
  · intro hlen
    refine ⟨{ g with Players := assignCustom g.Players g.ExtraOptions.CustomCharacterAssignments },
      ?_, assignCustom_assigned _ _ hlen, ?_, assignCustom_frame _ _ hlen⟩
    · unfold charactersGenerate
      rw [if_neg (by simp [hon]), if_pos hne, if_neg (not_not.mpr hlen)]
    · intro i a ha
      have hmap := congrArg (fun l => l[i]?) (assignCustom_assigned g.Players _ hlen)
      simp only [List.getElem?_map, ha, Option.map_some'] at hmap
      cases hq : (assignCustom g.Players g.ExtraOptions.CustomCharacterAssignments)[i]? with
      | none => simp [hq] at hmap
      | some q =>
        simp only [hq, Option.map_some', Option.some.injEq, Prod.mk.injEq] at hmap
        exact ⟨q, rfl, hmap.1, hmap.2⟩

/-- The explicit assignment Fuming (metadata 1), Genius on two players is
taken verbatim although the table bars Genius from 2-player games; a list of
one entry for two players changes nothing. -/
theorem explicit_assignment_witness :
    (∃ g1, charactersGenerate sampleEnv fumingGeniusSetup [5, 6] = some (g1, [5, 6]) ∧
      g1.Players.map (fun p => (p.Character, p.CharacterMetadata)) =
        [("Fuming", 1), ("Genius", -1)] ∧
      (∀ (i : Nat) (a : CharacterAssignment),
        [(⟨"Fuming", 1⟩ : CharacterAssignment), ⟨"Genius", -1⟩][i]? = some a →
        ∃ p, g1.Players[i]? = some p ∧ p.Character = a.Name ∧
          p.CharacterMetadata = a.Metadata) ∧
      g1.Players.map (fun p => (p.Name, p.Index, p.Hand)) =
        [("alice", 0, []), ("bob", 1, [])]) ∧
    charactersGenerate sampleEnv
        (table true [⟨"Fuming", 1⟩] [seat "alice" 0 "" 0, seat "bob" 1 "" 0]) [5, 6] =
      some (table true [⟨"Fuming", 1⟩] [seat "alice" 0 "" 0, seat "bob" 1 "" 0], [5, 6]) :=
  ⟨(explicit_assignment sampleEnv fumingGeniusSetup [5, 6] (by decide) (by decide)).2
      (by decide),
   (explicit_assignment sampleEnv
      (table true [⟨"Fuming", 1⟩] [seat "alice" 0 "" 0, seat "bob" 1 "" 0]) [5, 6]
      (by decide) (by decide)).1 (by decide)⟩

/-- Writing through the pointer `i` leaves the players before `i` alone. -/
theorem take_modify_self {α : Type} (f : α → α) (l : List α) (i : Nat) :
    (List.modify f i l).take i = l.take i := by
  induction l generalizing i with
  | nil => cases i <;> rfl
  | cons x xs ih =>
    cases i with
    | zero => rfl
    | succ i => simp [List.modify_succ_cons, ih]

/-- A write that preserves the observation `h` of a player preserves the
observations of all players. -/
theorem map_modify_of_inv {α β : Type} (f : α → α) (h : α → β) (hf : ∀ x, h (f x) = h x)
    (l : List α) (i : Nat) : (List.modify f i l).map h = l.map h := by
  induction l generalizing i with
  | nil => cases i <;> rfl
  | cons x xs ih =>
    cases i with
    | zero => simp [List.modify, List.modifyTailIdx, List.modifyHead, hf]
    | succ i => simp [List.modify_succ_cons, ih]

/-- The draw loop, when it returns, has kept the names and the players before
`i`, and player `i` holds a character that no earlier player holds and that is
not barred in a 2-player game. -/
theorem drawCharacter_spec (env : Env) (i : Nat) (rng : List Nat) :
    ∀ (g g1 : Game) (rng1 : List Nat) (p : GamePlayer),
      g.Players[i]? = some p → drawCharacter env i g rng = some (g1, rng1) →
      g1.Players.map (fun q => q.Name) = g.Players.map (fun q => q.Name) ∧
      g1.Players.take i = g.Players.take i ∧
      ∃ p1, g1.Players[i]? = some p1 ∧
        (∀ q ∈ g1.Players.take i, q.Character ≠ p1.Character) ∧
        (env.Not2P p1.Character = true → g1.Players.length ≠ 2) := by
  induction rng with
  | nil => intro g g1 rng1 p _ h; simp [drawCharacter] at h
  | cons r rest ih =>
    intro g g1 rng1 p hp h
    simp only [drawCharacter] at h
    split at h
    · exact absurd h (by simp)
    · split at h
      · exact absurd h (by simp)
      · rename_i name hname
        have hnames : (setCharacter g i name).Players.map (fun q => q.Name) =
            g.Players.map (fun q => q.Name) :=
          map_modify_of_inv (fun q : GamePlayer => { q with Character := name })
            (fun q => q.Name) (fun _ => rfl) g.Players i
        have htake : (setCharacter g i name).Players.take i = g.Players.take i :=
          take_modify_self _ _ _
        have hget : (setCharacter g i name).Players[i]? = some { p with Character := name } := by
          simp [setCharacter, modifyPlayer, List.getElem?_modify, hp]
        have hrec : ∀ g1 rng1, drawCharacter env i (setCharacter g i name) rest = some (g1, rng1) →
            g1.Players.map (fun q => q.Name) = g.Players.map (fun q => q.Name) ∧
            g1.Players.take i = g.Players.take i ∧
            ∃ p1, g1.Players[i]? = some p1 ∧
              (∀ q ∈ g1.Players.take i, q.Character ≠ p1.Character) ∧
              (env.Not2P p1.Character = true → g1.Players.length ≠ 2) := by
          intro g1 rng1 h1
          obtain ⟨a, b, c⟩ := ih _ g1 rng1 _ hget h1
          exact ⟨a.trans hnames, b.trans htake, c⟩
        split at h
        · exact hrec _ _ h
        · rename_i hnot
          split at h
          · exact hrec _ _ h
          · rename_i h2p
            simp only [Option.some.injEq, Prod.mk.injEq] at h
            obtain ⟨rfl, -⟩ := h
            refine ⟨hnames, htake, _, hget, ?_, ?_⟩
            · intro q hq
              have hany : alreadyAssigned (setCharacter g i name).Players i name = false := by
                simpa using hnot
              simp only [alreadyAssigned, List.any_eq_false, decide_eq_true_eq] at hany
              exact hany q hq
            · intro hn hlen
              exact h2p ⟨hn, hlen⟩

/-- The assignment of a metadata value changes no character and no name. -/
theorem setMetadata_frame (g : Game) (i : Nat) (m : Int) :
    (setMetadata g i m).Players.map (fun q => q.Character) =
      g.Players.map (fun q => q.Character) ∧
    (setMetadata g i m).Players.map (fun q => q.Name) = g.Players.map (fun q => q.Name) :=
  ⟨map_modify_of_inv (fun q : GamePlayer => { q with CharacterMetadata := m })
      (fun q => q.Character) (fun _ => rfl) g.Players i,
   map_modify_of_inv (fun q : GamePlayer => { q with CharacterMetadata := m })
      (fun q => q.Name) (fun _ => rfl) g.Players i⟩

/-- The draw of the secondary attribute changes no character and no name. -/
theorem drawMetadata_frame (env : Env) (i : Nat) (g g1 : Game) (rng rng1 : List Nat)
    (c : String) (h : drawMetadata env i g rng c = some (g1, rng1)) :
    g1.Players.map (fun q => q.Character) = g.Players.map (fun q => q.Character) ∧
    g1.Players.map (fun q => q.Name) = g.Players.map (fun q => q.Name) := by
  simp only [drawMetadata] at h
  split at h
  · cases hr : randIntn (env.variants g.Options.VariantName).ClueColors.length rng with
    | none => simp [hr] at h
    | some r =>
      simp only [hr, Option.map_some', Option.some.injEq, Prod.mk.injEq] at h
      obtain ⟨rfl, -⟩ := h
      exact setMetadata_frame _ _ _
  · split at h
    · cases hr : randIntn 4 rng with
      | none => simp [hr] at h
      | some r =>
        simp only [hr, Option.map_some', Option.some.injEq, Prod.mk.injEq] at h
        obtain ⟨rfl, -⟩ := h
        exact setMetadata_frame _ _ _
    · split at h
      · cases hr : randIntn (env.variants g.Options.VariantName).ClueColors.length rng with
        | none => simp [hr] at h
        | some r =>
          simp only [hr, Option.map_some', Option.some.injEq, Prod.mk.injEq] at h
          obtain ⟨rfl, -⟩ := h
          exact setMetadata_frame _ _ _
      · split at h
        · cases hr : randIntn 4 rng with
          | none => simp [hr] at h
          | some r =>
            simp only [hr, Option.map_some', Option.some.injEq, Prod.mk.injEq] at h
            obtain ⟨rfl, -⟩ := h
            exact setMetadata_frame _ _ _
        · simp only [Option.some.injEq, Prod.mk.injEq] at h
          obtain ⟨rfl, -⟩ := h
          exact ⟨rfl, rfl⟩

/-- One round of the player loop for a player that is not a test fixture:
names and earlier characters are kept, and the character of player `i` is
new among the earlier ones and not barred in a 2-player game. -/
theorem generateFor_spec (env : Env) (i : Nat) (g g1 : Game) (rng rng1 : List Nat)
    (p : GamePlayer) (hp : g.Players[i]? = some p)
    (hname : stringInSlice p.Name debugUsernames = false)
    (h : generateFor env i g rng = some (g1, rng1)) :
    g1.Players.map (fun q => q.Name) = g.Players.map (fun q => q.Name) ∧
    (g1.Players.map (fun q => q.Character)).take i =
      (g.Players.map (fun q => q.Character)).take i ∧
    ∃ c, (g1.Players.map (fun q => q.Character))[i]? = some c ∧
      c ∉ (g.Players.map (fun q => q.Character)).take i ∧
      (env.Not2P c = true → g.Players.length ≠ 2) := by
  simp only [generateFor, hp, hname, Bool.false_eq_true, if_false] at h
  cases hd : drawCharacter env i g rng with
  | none => simp [hd] at h
  | some r =>
    obtain ⟨g2, rng2⟩ := r
    obtain ⟨hn, ht, p1, hp1, hnew, h2p⟩ := drawCharacter_spec env i rng g g2 rng2 p hp hd
    simp only [hd, hp1] at h
    obtain ⟨hc3, hn3⟩ := drawMetadata_frame env i _ g1 rng2 rng1 _ h
    obtain ⟨hc2, hn2⟩ := setMetadata_frame g2 i (-1)
    have hlen : g2.Players.length = g.Players.length := by
      simpa using congrArg List.length hn
    refine ⟨hn3.trans (hn2.trans hn), ?_, p1.Character, ?_, ?_, ?_⟩
    · rw [hc3, hc2, ← List.map_take, ht, List.map_take]
    · rw [hc3, hc2]; simp [hp1]
    · intro hmem
      rw [← List.map_take, ← ht] at hmem
      obtain ⟨q, hq, hqc⟩ := List.mem_map.mp hmem
      exact hnew q hq hqc
    · intro hn2p; rw [← hlen]; exact h2p hn2p

/-- The player loop from position `k` on, over players none of whom is a test
fixture: if the characters before `k` are pairwise distinct and none of them
is barred in a 2-player game, the same holds for all characters at the end. -/
theorem generateLoop_spec (env : Env) (m : Nat) :
    ∀ (k : Nat) (g g1 : Game) (rng rng1 : List Nat),
      k + m = g.Players.length →
      (∀ q ∈ g.Players, stringInSlice q.Name debugUsernames = false) →
      ((g.Players.map (fun q => q.Character)).take k).Nodup →
      (∀ c ∈ (g.Players.map (fun q => q.Character)).take k,
        env.Not2P c = true → g.Players.length ≠ 2) →
      generateLoop env (List.range' k m) g rng = some (g1, rng1) →
      (g1.Players.map (fun q => q.Character)).Nodup ∧
      (∀ c ∈ g1.Players.map (fun q => q.Character),
        env.Not2P c = true → g1.Players.length ≠ 2) ∧
      g1.Players.map (fun q => q.Name) = g.Players.map (fun q => q.Name) := by
  induction m with
  | zero =>
    intro k g g1 rng rng1 hk _ hnd h2p h
    simp only [List.range'_zero, generateLoop, Option.some.injEq, Prod.mk.injEq] at h
    obtain ⟨rfl, -⟩ := h
    have hfull : (g.Players.map (fun q => q.Character)).take k =
        g.Players.map (fun q => q.Character) :=
      List.take_of_length_le (by simp; omega)
    rw [hfull] at hnd h2p
    exact ⟨hnd, h2p, rfl⟩
  | succ m ih =>
    intro k g g1 rng rng1 hk hnames hnd h2p h
    simp only [List.range'_succ, generateLoop] at h
    cases hstep : generateFor env k g rng with
    | none => simp [hstep] at h
    | some r =>
      obtain ⟨g2, rng2⟩ := r
      simp only [hstep] at h
      have hlt : k < g.Players.length := by omega
      have hp : g.Players[k]? = some g.Players[k] := List.getElem?_eq_getElem hlt
      obtain ⟨hn, ht, c, hc, hnew, hc2p⟩ :=
        generateFor_spec env k g g2 rng rng2 _ hp
          (hnames _ (List.getElem_mem hlt)) hstep
      have hlen : g2.Players.length = g.Players.length := by
        simpa using congrArg List.length hn
      have htake : (g2.Players.map (fun q => q.Character)).take (k + 1) =
          (g.Players.map (fun q => q.Character)).take k ++ [c] := by
        rw [List.take_succ, ht, hc]; rfl
      have hgoal : (∀ q ∈ g2.Players, stringInSlice q.Name debugUsernames = false) →
          ((g2.Players.map (fun q => q.Character)).take (k + 1)).Nodup →
          (∀ c ∈ (g2.Players.map (fun q => q.Character)).take (k + 1),
            env.Not2P c = true → g2.Players.length ≠ 2) →
          (g1.Players.map (fun q => q.Character)).Nodup ∧
          (∀ c ∈ g1.Players.map (fun q => q.Character),
            env.Not2P c = true → g1.Players.length ≠ 2) ∧
          g1.Players.map (fun q => q.Name) = g.Players.map (fun q => q.Name) := by
        intro a b c
        obtain ⟨x, y, z⟩ := ih (k + 1) g2 g1 rng2 rng1 (by omega) a b c h
        exact ⟨x, y, z.trans hn⟩
      refine hgoal ?_ ?_ ?_
      · intro q hq
        have hqn : q.Name ∈ g2.Players.map (fun q => q.Name) := List.mem_map_of_mem _ hq
        rw [hn] at hqn
        obtain ⟨q0, hq0, hq0n⟩ := List.mem_map.mp hqn
        have := hnames q0 hq0
        simpa [hq0n] using this
      · rw [htake, List.nodup_append]
        refine ⟨hnd, List.nodup_singleton c, ?_⟩
        intro x hx hx1
        rw [List.mem_singleton] at hx1
        exact hnew (hx1 ▸ hx)
      · intro x hx hx2p
        rw [htake, List.mem_append, List.mem_singleton] at hx
        rw [hlen]
        rcases hx with hx | rfl
        · exact h2p x hx hx2p
        · exact hc2p hx2p

/-- The random path over players none of whom is a test fixture ends with
pairwise distinct characters, none of them barred in a 2-player game. -/
theorem random_path_spec (env : Env) (g g1 : Game) (rng rng1 : List Nat)
    (hon : g.Options.DetrimentalCharacters = true)
    (hcustom : g.ExtraOptions.CustomCharacterAssignments = [])
    (hnames : ∀ q ∈ g.Players, stringInSlice q.Name debugUsernames = false)
    (h : charactersGenerate env g rng = some (g1, rng1)) :
    (g1.Players.map (fun q => q.Character)).Nodup ∧
    (∀ c ∈ g1.Players.map (fun q => q.Character),
      env.Not2P c = true → g1.Players.length ≠ 2) ∧
    g1.Players.map (fun q => q.Name) = g.Players.map (fun q => q.Name) := by
  simp only [charactersGenerate, hon, hcustom, List.length_nil, ne_eq, not_true_eq_false,
    if_false, Bool.true_eq_false, List.range_eq_range'] at h
  exact generateLoop_spec env g.Players.length 0 g g1 _ rng1 (by simp) hnames (by simp)
    (by simp) h

/-- C5 (as amended): with characters enabled, no explicit assignment list and
no player bearing one of the test-fixture usernames, for every seed and every
generator output for which `charactersGenerate` completes, no two distinct
players end up with the same Character. -/
theorem random_assignment_distinct (env : Env) (g g1 : Game) (rng rng1 : List Nat)
    (hon : g.Options.DetrimentalCharacters = true)
    (hcustom : g.ExtraOptions.CustomCharacterAssignments = [])
    (hnames : ∀ q ∈ g.Players, stringInSlice q.Name debugUsernames = false)
    (h : charactersGenerate env g rng = some (g1, rng1)) :
    ∀ (i j : Nat) (p q : GamePlayer), i ≠ j → g1.Players[i]? = some p →
      g1.Players[j]? = some q → p.Character ≠ q.Character := by
  have hnd := (random_path_spec env g g1 rng rng1 hon hcustom hnames h).1
  have key : ∀ (i j : Nat) (p q : GamePlayer), i < j → g1.Players[i]? = some p →
      g1.Players[j]? = some q → p.Character ≠ q.Character := by
    intro i j p q hij hp hq heq
    have hj : j < (g1.Players.map (fun q => q.Character)).length := by
      have := (List.getElem?_eq_some.mp hq).1
      simpa using this
    have hne := List.nodup_iff_getElem?_ne_getElem?.mp hnd i j hij hj
    apply hne
    simp [List.getElem?_map, hp, hq, heq]
  intro i j p q hij hp hq
  rcases Nat.lt_or_gt_of_ne hij with hlt | hgt
  · exact key i j p q hlt hp hq
  · exact fun heq => key j i q p hgt hq hp heq.symm

/-- A completed random assignment for alice and bob: Fuming and Miser. -/
theorem random_assignment_distinct_witness :
    charactersGenerate sampleEnv (table true [] [seat "alice" 0 "" 0, seat "bob" 1 "" 0]) [] =
      some (table true [] [seat "alice" 0 "Fuming" 1, seat "bob" 1 "Miser" (-1)],
        [3, 4, 5, 6, 7]) ∧
    (seat "alice" 0 "Fuming" 1).Character ≠ (seat "bob" 1 "Miser" (-1)).Character :=
  ⟨by decide,
   random_assignment_distinct sampleEnv
     (table true [] [seat "alice" 0 "" 0, seat "bob" 1 "" 0])
     (table true [] [seat "alice" 0 "Fuming" 1, seat "bob" 1 "Miser" (-1)])
     [] [3, 4, 5, 6, 7] (by decide) (by decide) (by decide) (by decide) 0 1 _ _ (by decide)
     (by decide) (by decide)⟩

/-- C5 as stated fails: players named test1 and test2 at seats 1 and 2 both
receive the fixture character "n/a". -/
theorem fixture_names_share_character :
    charactersGenerate sampleEnv
        (table true [] [seat "alice" 0 "" 0, seat "test1" 1 "" 0, seat "test2" 2 "" 0]) [] =
      some (table true []
          [seat "alice" 0 "Fuming" 1, seat "test1" 1 "n/a" (-1), seat "test2" 2 "n/a" (-1)],
        [2, 3, 4, 5, 6, 7]) ∧
    (seat "test1" 1 "n/a" (-1)).Character = (seat "test2" 2 "n/a" (-1)).Character := by
  decide

/-- C6 (as amended): with characters enabled, no explicit assignment list and
no player bearing one of the test-fixture usernames, for every character
table, every seed and every generator output for which `charactersGenerate`
completes on a game of exactly 2 players, no player ends up with a Character
whose Not2P flag is set. -/
theorem random_assignment_eligible (env : Env) (g g1 : Game) (rng rng1 : List Nat)
    (hon : g.Options.DetrimentalCharacters = true)
    (hcustom : g.ExtraOptions.CustomCharacterAssignments = [])
    (hnames : ∀ q ∈ g.Players, stringInSlice q.Name debugUsernames = false)
    (h2 : g.Players.length = 2)
    (h : charactersGenerate env g rng = some (g1, rng1)) :
    g1.Players.length = 2 ∧ ∀ p ∈ g1.Players, env.Not2P p.Character = false := by
  obtain ⟨-, h2p, hn⟩ := random_path_spec env g g1 rng rng1 hon hcustom hnames h
  have hlen : g1.Players.length = 2 := by
    have := congrArg List.length hn
    simpa [h2] using this
  refine ⟨hlen, ?_⟩
  intro p hp
  cases hflag : env.Not2P p.Character with
  | false => rfl
  | true => exact absurd hlen (h2p p.Character (List.mem_map_of_mem _ hp) hflag)

/-- A completed random assignment for alice and bob, where the table bars
Genius from 2-player games: Fuming and Miser. -/
theorem random_assignment_eligible_witness :
    charactersGenerate sampleEnv (table true [] [seat "carol" 0 "" 0, seat "dave" 1 "" 0]) [] =
      some (table true [] [seat "carol" 0 "Fuming" 1, seat "dave" 1 "Miser" (-1)],
        [3, 4, 5, 6, 7]) ∧
    (table true [] [seat "carol" 0 "Fuming" 1, seat "dave" 1 "Miser" (-1)]).Players.length = 2 ∧
    ∀ p ∈ (table true [] [seat "carol" 0 "Fuming" 1, seat "dave" 1 "Miser" (-1)]).Players,
      sampleEnv.Not2P p.Character = false :=
  ⟨by decide,
   random_assignment_eligible sampleEnv
     (table true [] [seat "carol" 0 "" 0, seat "dave" 1 "" 0])
     (table true [] [seat "carol" 0 "Fuming" 1, seat "dave" 1 "Miser" (-1)])
     [] [3, 4, 5, 6, 7] (by decide) (by decide) (by decide) (by decide) (by decide)⟩

/-- C6 as stated fails: in a 2-player game under a table that bars Genius from
2-player games, the player named test receives the fixture character
Genius. -/
theorem fixture_name_gets_barred_character :
    charactersGenerate sampleEnv
        (table true [] [seat "test" 0 "" 0, seat "bob" 1 "" 0]) [] =
      some (table true [] [seat "test" 0 "Genius" (-1), seat "bob" 1 "Fuming" 1],
        [2, 3, 4, 5, 6, 7]) ∧
    (table true [] [seat "test" 0 "" 0, seat "bob" 1 "" 0]).Players.length = 2 ∧
    sampleEnv.Not2P (seat "test" 0 "Genius" (-1)).Character = true := by
  decide

/-- Reading a player back after `p.CharacterMetadata = m`. -/
theorem getElem?_setMetadata (g : Game) (i : Nat) (m : Int) (p : GamePlayer)
    (hp : g.Players[i]? = some p) :
    (setMetadata g i m).Players[i]? = some { p with CharacterMetadata := m } := by
  simp [setMetadata, modifyPlayer, List.getElem?_modify, hp]

/-- C7: with characters enabled, for a Genius player and a color clue `d`
targeting the player index t = d.Target, `characterNeedsToTakeSecondTurn`
returns true and sets the player's metadata to t; in the resulting state
`characterValidateSecondAction` accepts an action exactly when it is a rank
clue with target t, rejects a rank clue to another player with the "must give
the second clue to the same player" warning and rejects every action that is
not a rank clue; and `characterNeedsToTakeSecondTurn` on a rank clue returns
false and resets the metadata to -1. -/
theorem genius_second_clue (env : Env) (d : CommandData) (g : Game) (pi : Nat) (p : GamePlayer)
    (hon : g.Options.DetrimentalCharacters = true)
    (hp : g.Players[pi]? = some p) (hgenius : p.Character = "Genius")
    (hcolor : d.Type_ = ActionTypeColorClue) (htarget : d.Target ≠ -1) :
    ∃ g1, characterNeedsToTakeSecondTurn env d g pi = some (g1, true) ∧
      g1.Players[pi]? = some { p with CharacterMetadata := d.Target } ∧
      (∀ d2, characterValidateSecondAction d2 g1 pi = some .allow ↔
        (d2.Type_ = ActionTypeRankClue ∧ d2.Target = d.Target)) ∧
      (∀ d2, d2.Type_ = ActionTypeRankClue → d2.Target ≠ d.Target →
        characterValidateSecondAction d2 g1 pi =
          some (.reject "You are Genius, so you must give the second clue to the same player.")) ∧
      (∀ d2, d2.Type_ ≠ ActionTypeRankClue →
        characterValidateSecondAction d2 g1 pi =
          some (.reject "You are Genius, so you must now give a rank clue.")) ∧
      (∀ d2, d2.Type_ = ActionTypeRankClue →
        ∃ g2, characterNeedsToTakeSecondTurn env d2 g1 pi = some (g2, false) ∧
          g2.Players[pi]? = some { p with CharacterMetadata := -1 }) := by
  have hg1 := getElem?_setMetadata g pi d.Target p hp
  have hon1 : (setMetadata g pi d.Target).Options.DetrimentalCharacters = true := hon
  refine ⟨setMetadata g pi d.Target, ?_, hg1, ?_, ?_, ?_, ?_⟩
  · simp [characterNeedsToTakeSecondTurn, hon, hp, hgenius, hcolor]
  · intro d2
    simp only [characterValidateSecondAction, hon1, hg1]
    by_cases h1 : d2.Type_ = ActionTypeRankClue <;> by_cases h2 : d2.Target = d.Target <;>
      simp [h1, h2, hgenius, htarget]
  · intro d2 h1 h2
    simp [characterValidateSecondAction, hon1, hg1, h1, h2, hgenius, htarget]
  · intro d2 h1
    simp [characterValidateSecondAction, hon1, hg1, h1, hgenius, htarget]
  · intro d2 h1
    refine ⟨setMetadata (setMetadata g pi d.Target) pi (-1), ?_, ?_⟩
    · have hne : ActionTypeRankClue ≠ ActionTypeColorClue := by decide
      simp [characterNeedsToTakeSecondTurn, hon1, hg1, hgenius, h1, hne]
    · have := getElem?_setMetadata (setMetadata g pi d.Target) pi (-1) _ hg1
      simpa using this

/-- The scenario of the specification: the Genius player at seat 0 gives a
color clue to player 1; a rank clue to player 0 is then rejected, a rank clue
to player 1 is accepted. -/
theorem genius_second_clue_witness :
    ∃ g1, characterNeedsToTakeSecondTurn sampleEnv ⟨ActionTypeColorClue, 1, 2⟩
        (table true [] [seat "alice" 0 "Genius" (-1), seat "bob" 1 "Fuming" 1]) 0 =
          some (g1, true) ∧
      g1.Players[0]? = some (seat "alice" 0 "Genius" 1) ∧
      characterValidateSecondAction ⟨ActionTypeRankClue, 0, 3⟩ g1 0 =
        some (.reject "You are Genius, so you must give the second clue to the same player.") ∧
      characterValidateSecondAction ⟨ActionTypeRankClue, 1, 3⟩ g1 0 = some .allow := by
  obtain ⟨g1, h1, h2, h3, h4, -, -⟩ :=
    genius_second_clue sampleEnv ⟨ActionTypeColorClue, 1, 2⟩
      (table true [] [seat "alice" 0 "Genius" (-1), seat "bob" 1 "Fuming" 1]) 0
      (seat "alice" 0 "Genius" (-1)) (by decide) (by decide) (by decide) (by decide)
      (by decide)
  exact ⟨g1, h1, h2, h4 ⟨ActionTypeRankClue, 0, 3⟩ rfl (by decide),
    (h3 ⟨ActionTypeRankClue, 1, 3⟩).mpr ⟨rfl, rfl⟩⟩

/-- C8: with characters enabled, a variant whose clue-token adjustment is the
identity, a Miser clue giver and a target that is neither Vulnerable nor
Color-Blind, `characterValidateClue` rejects the clue if and only if the
clue-token count is less than 4: below 4 tokens (so at 3) every clue is
rejected, from 4 tokens on (so at 4) every clue is allowed. -/
theorem miser_clue (env : Env) (d : CommandData) (g : Game) (pi : Nat) (p p2 : GamePlayer)
    (hon : g.Options.DetrimentalCharacters = true)
    (hid : ∀ n, (env.variants g.Options.VariantName).GetAdjustedClueTokens n = n)
    (hp : g.Players[pi]? = some p) (hp2 : index? g.Players d.Target = some p2)
    (hmiser : p.Character = "Miser")
    (hv : p2.Character ≠ "Vulnerable") (hc : p2.Character ≠ "Color-Blind") :
    (characterValidateClue env d g pi).map Verdict.failed = some (decide (g.ClueTokens < 4)) ∧
    (g.ClueTokens < 4 → characterValidateClue env d g pi = some (.reject
      "You are Miser, so you cannot give a clue unless there are 4 or more clues available.")) ∧
    (4 ≤ g.ClueTokens → characterValidateClue env d g pi = some .allow) := by
  have hlow : g.ClueTokens < 4 → characterValidateClue env d g pi = some (.reject
      "You are Miser, so you cannot give a clue unless there are 4 or more clues available.") := by
    intro h
    simp [characterValidateClue, hon, hp, hp2, giverRules, hmiser, hid, h]
  have hhigh : 4 ≤ g.ClueTokens → characterValidateClue env d g pi = some .allow := by
    intro h
    have h' : ¬ g.ClueTokens < 4 := by omega
    simp [characterValidateClue, hon, hp, hp2, giverRules, targetRules, hmiser, hid, h', hv, hc]
  refine ⟨?_, hlow, hhigh⟩
  by_cases h : g.ClueTokens < 4
  · simp [hlow h, h, Verdict.failed]
  · simp [hhigh (by omega), h, Verdict.failed]

/-- The scenario of the specification: a Miser's clue with 3 clue tokens is
rejected, and after the count rises to 4 it is allowed. -/
theorem miser_clue_witness :
    characterValidateClue sampleEnv ⟨ActionTypeRankClue, 1, 3⟩
        { table true [] [seat "alice" 0 "Miser" (-1), seat "bob" 1 "Fuming" 1] with
          ClueTokens := 3 } 0 = some (.reject
      "You are Miser, so you cannot give a clue unless there are 4 or more clues available.") ∧
    characterValidateClue sampleEnv ⟨ActionTypeRankClue, 1, 3⟩
        { table true [] [seat "alice" 0 "Miser" (-1), seat "bob" 1 "Fuming" 1] with
          ClueTokens := 4 } 0 = some .allow :=
  ⟨(miser_clue sampleEnv ⟨ActionTypeRankClue, 1, 3⟩
      { table true [] [seat "alice" 0 "Miser" (-1), seat "bob" 1 "Fuming" 1] with
        ClueTokens := 3 } 0 (seat "alice" 0 "Miser" (-1)) (seat "bob" 1 "Fuming" 1)
      (by decide) (fun _ => rfl) (by decide) (by decide) (by decide) (by decide)
      (by decide)).2.1 (by decide),
   (miser_clue sampleEnv ⟨ActionTypeRankClue, 1, 3⟩
      { table true [] [seat "alice" 0 "Miser" (-1), seat "bob" 1 "Fuming" 1] with
        ClueTokens := 4 } 0 (seat "alice" 0 "Miser" (-1)) (seat "bob" 1 "Fuming" 1)
      (by decide) (fun _ => rfl) (by decide) (by decide) (by decide) (by decide)
      (by decide)).2.2 (by decide)⟩

/-- In a sequence of orders starting at `k`, the card at position `j` has
order `k + j`. -/
theorem ordersFrom_getElem? (l : List Card) :
    ∀ (k j : Nat) (c : Card), ordersFrom k l = true → l[j]? = some c →
      c.Order = ((k + j : Nat) : Int) := by
  induction l with
  | nil => intro k j c _ h; simp at h
  | cons x xs ih =>
    intro k j c hwf h
    simp only [ordersFrom, Bool.and_eq_true, decide_eq_true_eq] at hwf
    cases j with
    | zero =>
      simp only [List.getElem?_cons_zero, Option.some.injEq] at h
      subst h; simpa using hwf.1
    | succ j =>
      simp only [List.getElem?_cons_succ] at h
      have := ih (k + 1) j c hwf.2 h
      rw [this]; congr 1; omega

/-- Indexing with the `int` image of a position is indexing at the
position. -/
theorem index?_natCast {α : Type} (xs : List α) (k : Nat) : index? xs (k : Int) = xs[k]? := by
  simp [index?]

/-- In an ordered deck a card of a hand is found again under its order. -/
theorem index?_order_of_mem_handCards (g : Game) (hwf : deckOrdered g = true)
    (p : GamePlayer) (c : Card) (hc : c ∈ handCards g p) :
    ∃ k, k ∈ p.Hand ∧ g.Deck[k]? = some c ∧ c.Order = (k : Int) ∧
      index? g.Deck c.Order = some c := by
  simp only [handCards, List.mem_filterMap] at hc
  obtain ⟨k, hk, hkc⟩ := hc
  have ho : c.Order = (k : Int) := by
    have := ordersFrom_getElem? g.Deck 0 k c hwf hkc
    simpa using this
  exact ⟨k, hk, hkc, ho, by rw [ho, index?_natCast]; exact hkc⟩

/-- In an ordered deck every order returned by `FindCardsTouchedByClue` is a
valid deck index. -/
theorem touched_orders_valid (env : Env) (g : Game) (hwf : deckOrdered g = true)
    (p2 : GamePlayer) (clue : Clue) :
    ∀ o ∈ FindCardsTouchedByClue env g p2 clue, ∃ c, index? g.Deck o = some c := by
  intro o ho
  simp only [FindCardsTouchedByClue, List.mem_map, List.mem_filter] at ho
  obtain ⟨c, ⟨hc, -⟩, rfl⟩ := ho
  obtain ⟨k, -, -, -, h⟩ := index?_order_of_mem_handCards g hwf p2 c hc
  exact ⟨c, h⟩

/-- The search loop returns when every order is a valid deck index. -/
theorem anyTouched_defined (g : Game) (f : Card → Bool) (os : List Int)
    (h : ∀ o ∈ os, ∃ c, index? g.Deck o = some c) : ∃ b, anyTouched g f os = some b := by
  induction os with
  | nil => exact ⟨false, rfl⟩
  | cons o rest ih =>
    obtain ⟨c, hc⟩ := h o (List.mem_cons_self _ _)
    simp only [anyTouched, hc]
    by_cases hf : f c = true
    · exact ⟨true, by simp [hf]⟩
    · obtain ⟨b, hb⟩ := ih (fun o ho => h o (List.mem_cons_of_mem _ ho))
      exact ⟨b, by simp [hf, hb]⟩

/-- A conditional between two defined results is defined. -/
theorem ite_ne_none {α : Type} (c : Prop) [Decidable c] (a b : Option α)
    (ha : a ≠ none) (hb : b ≠ none) : (if c then a else b) ≠ none := by
  split <;> assumption

/-- In an ordered deck the rules of the giver's character return a verdict. -/
theorem giverRules_defined (env : Env) (d : CommandData) (g : Game) (p p2 : GamePlayer)
    (hwf : deckOrdered g = true) : ∃ v, giverRules env d g p p2 = some v := by
  have hT : ∀ f, ∃ b, anyTouched g f (FindCardsTouchedByClue env g p2 (NewClue d)) = some b :=
    fun f => anyTouched_defined g f _ (touched_orders_valid env g hwf p2 (NewClue d))
  have hne : giverRules env d g p p2 ≠ none := by
    obtain ⟨b1, hb1⟩ := hT (fun c => decide (c.SuitIndex = p.CharacterMetadata))
    obtain ⟨b2, hb2⟩ := hT (fun c => decide (c.Rank = p.CharacterMetadata))
    obtain ⟨b3, hb3⟩ := hT (fun c => c.InsistentTouched)
    unfold giverRules
    dsimp only
    rw [hb1, hb2, hb3]
    cases b1 <;> cases b2 <;> cases b3 <;>
      repeat' first
        | exact Option.some_ne_none _
        | apply ite_ne_none
  cases h : giverRules env d g p p2 with
  | none => exact absurd h hne
  | some v => exact ⟨v, rfl⟩

/-- C10: with characters enabled, whatever the giver's character and
metadata, `characterValidateClue` never allows a rank clue of value 2 or 5 to
a Vulnerable target nor a color clue to a Color-Blind target, and in a game
whose deck is ordered (every `g.Deck[order]` of the giver's rules is in range)
it returns a rejection for each of them. -/
theorem target_immunity (env : Env) (d : CommandData) (g : Game) (pi : Nat) (p p2 : GamePlayer)
    (hon : g.Options.DetrimentalCharacters = true)
    (hp : g.Players[pi]? = some p) (hp2 : index? g.Players d.Target = some p2)
    (himmune : (p2.Character = "Vulnerable" ∧ d.Type_ = ActionTypeRankClue ∧
        (d.Value = 2 ∨ d.Value = 5)) ∨
      (p2.Character = "Color-Blind" ∧ d.Type_ = ActionTypeColorClue)) :
    characterValidateClue env d g pi ≠ some .allow ∧
    (deckOrdered g = true → ∃ w, characterValidateClue env d g pi = some (.reject w)) := by
  have htarget : ∃ w, targetRules d p2 = .reject w := by
    rcases himmune with ⟨h1, h2, h3⟩ | ⟨h1, h2⟩
    · have hne : ActionTypeRankClue ≠ ActionTypeColorClue := by decide
      exact ⟨"You cannot give a number 2 or number 5 clue to a " ++ p2.Character ++
        " character.", by simp [targetRules, NewClue, h1, h2, h3, hne, ClueTypeRank]⟩
    · have hne : "Color-Blind" ≠ "Vulnerable" := by decide
      exact ⟨"You cannot give that color clue to a " ++ p2.Character ++ " character.",
        by simp [targetRules, NewClue, h1, h2, hne, ClueTypeColor]⟩
  obtain ⟨w, hw⟩ := htarget
  simp only [characterValidateClue, hon, hp, hp2, Bool.true_eq_false, if_false]
  constructor
  · cases hg : giverRules env d g p p2 with
    | none => simp
    | some v => cases v <;> simp [hw]
  · intro hwf
    obtain ⟨v, hv⟩ := giverRules_defined env d g p p2 hwf
    rw [hv]
    cases v with
    | allow => exact ⟨w, by simp [hw]⟩
    | reject w1 => exact ⟨w1, rfl⟩

/-- A Fuming giver's own color (value 1) is still rejected for a Color-Blind
target, and a Miser's rank 5 clue with eight tokens is still rejected for a
Vulnerable target. -/
theorem target_immunity_witness :
    (∃ w, characterValidateClue sampleEnv ⟨ActionTypeColorClue, 1, 1⟩
      (table true [] [seat "alice" 0 "Fuming" 1, seat "bob" 1 "Color-Blind" (-1)]) 0 =
        some (.reject w)) ∧
    (∃ w, characterValidateClue sampleEnv ⟨ActionTypeRankClue, 1, 5⟩
      (table true [] [seat "alice" 0 "Miser" (-1), seat "bob" 1 "Vulnerable" (-1)]) 0 =
        some (.reject w)) :=
  ⟨(target_immunity sampleEnv ⟨ActionTypeColorClue, 1, 1⟩
      (table true [] [seat "alice" 0 "Fuming" 1, seat "bob" 1 "Color-Blind" (-1)]) 0
      (seat "alice" 0 "Fuming" 1) (seat "bob" 1 "Color-Blind" (-1))
      (by decide) (by decide) (by decide) (Or.inr (by decide))).2 (by decide),
   (target_immunity sampleEnv ⟨ActionTypeRankClue, 1, 5⟩
      (table true [] [seat "alice" 0 "Miser" (-1), seat "bob" 1 "Vulnerable" (-1)]) 0
      (seat "alice" 0 "Miser" (-1)) (seat "bob" 1 "Vulnerable" (-1))
      (by decide) (by decide) (by decide) (Or.inl (by decide))).2 (by decide)⟩

/-- Indexing a list after a write through a position. -/
theorem index?_modify {α : Type} (f : α → α) (n : Nat) (l : List α) (o : Int) (a : α)
    (h : index? l o = some a) :
    index? (List.modify f n l) o = some (if n = o.toNat then f a else a) := by
  unfold index? at h ⊢
  split
  · rename_i hpos
    rw [if_pos hpos] at h
    rw [List.getElem?_modify, h]; rfl
  · rename_i hneg
    rw [if_neg hneg] at h
    exact absurd h (by simp)

/-- The marking loop of `characterPostClue` returns when every order is a
valid deck index; it changes neither players nor options, keeps every deck
position occupied, keeps the flags that were set, and sets the flag of every
card whose position is among the orders. -/
theorem markTouched_spec (os : List Int) :
    ∀ g : Game, (∀ o ∈ os, ∃ c, index? g.Deck o = some c) →
      ∃ g1, markTouched g os = some g1 ∧ g1.Players = g.Players ∧ g1.Options = g.Options ∧
        ∀ (k : Nat) (c : Card), g.Deck[k]? = some c →
          ∃ c1, g1.Deck[k]? = some c1 ∧
            ((c.InsistentTouched = true ∨ (k : Int) ∈ os) → c1.InsistentTouched = true) := by
  induction os with
  | nil =>
    intro g _
    exact ⟨g, rfl, rfl, rfl, fun k c hc => ⟨c, hc, fun h => h.elim id (by simp)⟩⟩
  | cons o rest ih =>
    intro g hvalid
    obtain ⟨c0, hc0⟩ := hvalid o (List.mem_cons_self _ _)
    have hrest : ∀ o1 ∈ rest, ∃ c, index? (setInsistentTouched g o.toNat true).Deck o1 = some c := by
      intro o1 ho1
      obtain ⟨c, hc⟩ := hvalid o1 (List.mem_cons_of_mem _ ho1)
      exact ⟨_, index?_modify _ _ _ _ _ hc⟩
    obtain ⟨g1, hrun, hpl, hopt, hdeck⟩ := ih (setInsistentTouched g o.toNat true) hrest
    refine ⟨g1, ?_, hpl, hopt, ?_⟩
    · simp only [markTouched, hc0]; exact hrun
    · intro k c hc
      have hk : (setInsistentTouched g o.toNat true).Deck[k]? =
          some (if o.toNat = k then { c with InsistentTouched := true } else c) := by
        simp only [setInsistentTouched, List.getElem?_modify, hc]; rfl
      obtain ⟨c1, hc1, hflag⟩ := hdeck k _ hk
      refine ⟨c1, hc1, ?_⟩
      intro h
      apply hflag
      rcases h with h | h
      · left; split <;> simp [h]
      · rcases List.mem_cons.mp h with h | h
        · left
          have : o.toNat = k := by rw [← h]; simp
          simp [this]
        · right; exact h

/-- The clearing loop of `characterPostRemoveCard` over a hand changes neither
players nor options, and afterwards the flag of every card the hand points to
is unset, as is every flag that was unset before. -/
theorem clearHand_spec (hand : List Nat) :
    ∀ g : Game,
      (hand.foldl (fun acc k => setInsistentTouched acc k false) g).Players = g.Players ∧
      (hand.foldl (fun acc k => setInsistentTouched acc k false) g).Options = g.Options ∧
      (hand.foldl (fun acc k => setInsistentTouched acc k false) g).Deck.length =
        g.Deck.length ∧
      ∀ (k : Nat) (c : Card),
        (hand.foldl (fun acc k => setInsistentTouched acc k false) g).Deck[k]? = some c →
        (k ∈ hand ∨ ∃ c0, g.Deck[k]? = some c0 ∧ c0.InsistentTouched = false) →
        c.InsistentTouched = false := by
  induction hand with
  | nil =>
    intro g
    refine ⟨rfl, rfl, rfl, ?_⟩
    intro k c hc h
    rcases h with h | ⟨c0, hc0, hf⟩
    · simp at h
    · simp only [List.foldl_nil] at hc
      rw [hc0] at hc
      cases hc; exact hf
  | cons h rest ih =>
    intro g
    obtain ⟨hpl, hopt, hlen, hdeck⟩ := ih (setInsistentTouched g h false)
    simp only [List.foldl_cons]
    refine ⟨hpl, hopt, ?_, ?_⟩
    · rw [hlen]; simp [setInsistentTouched]
    · intro k c hc hk
      apply hdeck k c hc
      have hklt : k < g.Deck.length := by
        have h1 := (List.getElem?_eq_some.mp hc).1
        rw [hlen] at h1
        simpa [setInsistentTouched] using h1
      have hget : (setInsistentTouched g h false).Deck[k]? =
          some (if h = k then { g.Deck[k] with InsistentTouched := false } else g.Deck[k]) := by
        simp only [setInsistentTouched, List.getElem?_modify, List.getElem?_eq_getElem hklt]
        rfl
      rcases hk with hk | ⟨c0, hc0, hf⟩
      · rcases List.mem_cons.mp hk with hk | hk
        · right
          exact ⟨_, hget, by simp [hk]⟩
        · left; exact hk
      · right
        refine ⟨_, hget, ?_⟩
        have : g.Deck[k] = c0 := by
          have := List.getElem?_eq_getElem hklt
          rw [hc0] at this
          exact (Option.some.inj this).symm
        split <;> simp [this, hf]

/-- The reset loop of `characterPostRemoveCard`: when the first Insistent
player is at position `i`, that player's metadata becomes -1, and names,
seats, hands and characters of all players are kept. -/
theorem resetInsistent_spec (l : List GamePlayer) :
    ∀ (i : Nat) (q : GamePlayer), l[i]? = some q → q.Character = "Insistent" →
      (∀ (j : Nat) (r : GamePlayer), j < i → l[j]? = some r → r.Character ≠ "Insistent") →
      (resetInsistent l)[i]? = some { q with CharacterMetadata := -1 } ∧
      (resetInsistent l).map (fun r => (r.Name, r.Index, r.Hand, r.Character)) =
        l.map (fun r => (r.Name, r.Index, r.Hand, r.Character)) := by
  induction l with
  | nil => intro i q h; simp at h
  | cons x xs ih =>
    intro i q hq hins hbefore
    cases i with
    | zero =>
      simp only [List.getElem?_cons_zero, Option.some.injEq] at hq
      subst hq
      simp [resetInsistent, hins]
    | succ i =>
      simp only [List.getElem?_cons_succ] at hq
      have hx : x.Character ≠ "Insistent" := hbefore 0 x (by omega) (by simp)
      obtain ⟨h1, h2⟩ := ih i q hq hins (fun j r hj hr =>
        hbefore (j + 1) r (by omega) (by simpa using hr))
      simp only [resetInsistent, hx, if_false, List.getElem?_cons_succ, List.map_cons]
      exact ⟨h1, by rw [h2]⟩

/-- The assignment of a metadata value keeps options, deck, names, seats,
hands and characters. -/
theorem setMetadata_seats (g : Game) (i : Nat) (m : Int) :
    (setMetadata g i m).Options = g.Options ∧ (setMetadata g i m).Deck = g.Deck ∧
    (setMetadata g i m).Players.map (fun r => (r.Name, r.Index, r.Hand, r.Character)) =
      g.Players.map (fun r => (r.Name, r.Index, r.Hand, r.Character)) :=
  ⟨rfl, rfl, map_modify_of_inv (fun q : GamePlayer => { q with CharacterMetadata := m })
    (fun r => (r.Name, r.Index, r.Hand, r.Character)) (fun _ => rfl) g.Players i⟩

/-- Assigning 0 to some player's metadata keeps a player whose metadata is 0. -/
theorem setMetadata_zero_keeps (g : Game) (i n : Nat) (q : GamePlayer)
    (hq : g.Players[i]? = some q) (h0 : q.CharacterMetadata = 0) :
    (setMetadata g n 0).Players[i]? = some q := by
  simp only [setMetadata, modifyPlayer, List.getElem?_modify, hq, Option.map_eq_map,
    Option.map_some', Option.some.injEq]
  split
  · cases q; simp only at h0; simp [h0]
  · rfl

/-- The hook `characterPostClue` for an Insistent giver with metadata -1 in an
ordered deck: it returns, the giver's metadata is 0, every deck position stays
occupied, every card whose position is among the touched orders is marked,
and options, names, seats, hands and characters are kept. -/
theorem postClue_insistent (env : Env) (d : CommandData) (g : Game) (pi : Nat)
    (p p2 : GamePlayer)
    (hon : g.Options.DetrimentalCharacters = true) (hwf : deckOrdered g = true)
    (hp : g.Players[pi]? = some p) (hins : p.Character = "Insistent")
    (hmeta : p.CharacterMetadata = -1) (hp2 : index? g.Players d.Target = some p2) :
    ∃ g1, characterPostClue env d g pi = some g1 ∧ g1.Options = g.Options ∧
      g1.Players.map (fun r => (r.Name, r.Index, r.Hand, r.Character)) =
        g.Players.map (fun r => (r.Name, r.Index, r.Hand, r.Character)) ∧
      g1.Players[pi]? = some { p with CharacterMetadata := 0 } ∧
      ∀ (k : Nat) (c : Card), g.Deck[k]? = some c →
        ∃ c1, g1.Deck[k]? = some c1 ∧
          ((k : Int) ∈ FindCardsTouchedByClue env g p2 (NewClue d) →
            c1.InsistentTouched = true) := by
  obtain ⟨gm, hrun, hpl, hopt, hdeck⟩ :=
    markTouched_spec (FindCardsTouchedByClue env g p2 (NewClue d)) g
      (touched_orders_valid env g hwf p2 (NewClue d))
  have hne : "Insistent" ≠ "Mood Swings" := by decide
  have hgiver : postClueGiver env d g pi p p2 = some (setMetadata gm pi 0) := by
    simp [postClueGiver, hins, hne, hmeta, hrun]
  have hpG : (setMetadata gm pi 0).Players[pi]? = some { p with CharacterMetadata := 0 } :=
    getElem?_setMetadata gm pi 0 p (by rw [hpl]; exact hp)
  obtain ⟨hoptG, hdeckG, hseatG⟩ := setMetadata_seats gm pi 0
  have hp2G : index? (setMetadata gm pi 0).Players d.Target =
      some (if pi = d.Target.toNat then { p2 with CharacterMetadata := 0 } else p2) :=
    index?_modify _ _ _ _ _ (by rw [hpl]; exact hp2)
  have hdeck1 : ∀ (k : Nat) (c : Card), g.Deck[k]? = some c →
      ∃ c1, (setMetadata gm pi 0).Deck[k]? = some c1 ∧
        ((k : Int) ∈ FindCardsTouchedByClue env g p2 (NewClue d) →
          c1.InsistentTouched = true) := by
    intro k c hc
    obtain ⟨c1, hc1, hflag⟩ := hdeck k c hc
    exact ⟨c1, by rw [hdeckG]; exact hc1, fun h => hflag (Or.inr h)⟩
  have hseat1 : (setMetadata gm pi 0).Players.map
      (fun r => (r.Name, r.Index, r.Hand, r.Character)) =
      g.Players.map (fun r => (r.Name, r.Index, r.Hand, r.Character)) := by
    rw [hseatG, hpl]
  have hA : ∃ g1, (g1 = setMetadata gm pi 0 ∨
      g1 = setMetadata (setMetadata gm pi 0) d.Target.toNat 0) ∧
      characterPostClue env d g pi = some g1 := by
    obtain ⟨q2, hq2⟩ : ∃ q2, index? (setMetadata gm pi 0).Players d.Target = some q2 :=
      ⟨_, hp2G⟩
    simp only [characterPostClue, hon, Bool.true_eq_false, if_false, hp, hp2, hgiver, hq2]
    by_cases h1 : q2.Character = "Vindictive"
    · exact ⟨_, Or.inr rfl, by rw [if_pos h1]⟩
    · by_cases h2 : q2.Character = "Impulsive" ∧
          IsFirstCardTouchedByClue env (setMetadata gm pi 0) q2 (NewClue d) = true
      · exact ⟨_, Or.inr rfl, by rw [if_neg h1, if_pos h2]⟩
      · exact ⟨_, Or.inl rfl, by rw [if_neg h1, if_neg h2]⟩
  obtain ⟨g1, hg1, hrun1⟩ := hA
  rcases hg1 with rfl | rfl
  · exact ⟨_, hrun1, by rw [hoptG, hopt], hseat1, hpG, hdeck1⟩
  · obtain ⟨hopt2, hdeck2, hseat2⟩ := setMetadata_seats (setMetadata gm pi 0) d.Target.toNat 0
    refine ⟨_, hrun1, by rw [hopt2, hoptG, hopt], by rw [hseat2, hseat1],
      setMetadata_zero_keeps _ _ _ _ hpG rfl, ?_⟩
    intro k c hc
    obtain ⟨c1, hc1, hflag⟩ := hdeck1 k c hc
    exact ⟨c1, by rw [hdeck2]; exact hc1, hflag⟩

/-- Lists with equal observations have, position by position, elements with
equal observations. -/
theorem getElem?_of_map_eq {α β : Type} (f : α → β) (l1 l2 : List α)
    (h : l1.map f = l2.map f) (i : Nat) (b : α) (hb : l2[i]? = some b) :
    ∃ a, l1[i]? = some a ∧ f a = f b := by
  have h1 := congrArg (fun l => l[i]?) h
  simp only [List.getElem?_map, hb, Option.map_some'] at h1
  cases ha : l1[i]? with
  | none => simp [ha] at h1
  | some a =>
    simp only [ha, Option.map_some', Option.some.injEq] at h1
    exact ⟨a, rfl, h1⟩

/-- The hook `characterPostRemoveCard` for a marked card, when the only
Insistent player sits at position `i`: it returns, the flag of every card the
hand points to is unset, the hand is the same, and the Insistent player's
metadata is -1. -/
theorem postRemoveCard_marked (g : Game) (t ci i : Nat) (pt q : GamePlayer) (c : Card)
    (hon : g.Options.DetrimentalCharacters = true)
    (hpt : g.Players[t]? = some pt) (hc : g.Deck[ci]? = some c)
    (hmarked : c.InsistentTouched = true)
    (hq : g.Players[i]? = some q) (hins : q.Character = "Insistent")
    (hfirst : ∀ (j : Nat) (r : GamePlayer), j < i → g.Players[j]? = some r →
      r.Character ≠ "Insistent") :
    ∃ g2, characterPostRemoveCard g t ci = some g2 ∧
      (∃ q2, g2.Players[t]? = some q2 ∧ q2.Hand = pt.Hand ∧
        ∀ k ∈ q2.Hand, ∀ c2, g2.Deck[k]? = some c2 → c2.InsistentTouched = false) ∧
      g2.Players[i]? = some { q with CharacterMetadata := -1 } := by
  obtain ⟨hpl, -, -, hdeck⟩ := clearHand_spec pt.Hand g
  obtain ⟨hreset, hseats⟩ := resetInsistent_spec g.Players i q hq hins hfirst
  refine ⟨{ (pt.Hand.foldl (fun acc k => setInsistentTouched acc k false) g) with
      Players := resetInsistent
        (pt.Hand.foldl (fun acc k => setInsistentTouched acc k false) g).Players }, ?_, ?_, ?_⟩
  · simp [characterPostRemoveCard, hon, hpt, hc, hmarked]
  · obtain ⟨q2, hq2, hq2s⟩ := getElem?_of_map_eq
      (fun r : GamePlayer => (r.Name, r.Index, r.Hand, r.Character)) _ _ hseats t pt hpt
    have hhand : q2.Hand = pt.Hand := by
      have := congrArg (fun x => x.2.2.1) hq2s
      simpa using this
    refine ⟨q2, by simp only [hpl]; exact hq2, hhand, ?_⟩
    intro k hk c2 hc2
    rw [hhand] at hk
    exact hdeck k c2 hc2 (Or.inl hk)
  · simp only [hpl]; exact hreset

/-- C9: with characters enabled, an ordered deck and exactly one Insistent
player, at position `pi` with metadata -1: `characterPostClue` for that
player's clue returns a state in which every card of the target's hand touched
by the clue has InsistentTouched set and the player's metadata is 0; and when
`characterPostRemoveCard` is then called on the target for one of those marked
cards, whatever cards `remaining` are left in the target's hand, no card of
that hand has InsistentTouched set and the Insistent player's metadata is -1
again. -/
theorem insistent_round_trip (env : Env) (d : CommandData) (g : Game) (pi : Nat)
    (p p2 : GamePlayer)
    (hon : g.Options.DetrimentalCharacters = true) (hwf : deckOrdered g = true)
    (hp : g.Players[pi]? = some p) (hins : p.Character = "Insistent")
    (hmeta : p.CharacterMetadata = -1)
    (huniq : ∀ (j : Nat) (r : GamePlayer), g.Players[j]? = some r →
      r.Character = "Insistent" → j = pi)
    (hp2 : index? g.Players d.Target = some p2) :
    ∃ g1, characterPostClue env d g pi = some g1 ∧
      (∀ k ∈ p2.Hand, ∀ c, g.Deck[k]? = some c →
        env.variantIsCardTouched g.Options.VariantName (NewClue d) c = true →
        ∃ c1, g1.Deck[k]? = some c1 ∧ c1.InsistentTouched = true) ∧
      g1.Players[pi]? = some { p with CharacterMetadata := 0 } ∧
      (∃ q2, g1.Players[d.Target.toNat]? = some q2 ∧ q2.Hand = p2.Hand) ∧
      ∀ (ci : Nat) (c : Card) (remaining : List Nat), ci ∈ p2.Hand → g.Deck[ci]? = some c →
        env.variantIsCardTouched g.Options.VariantName (NewClue d) c = true →
        ∃ g2, characterPostRemoveCard
            (modifyPlayer g1 d.Target.toNat (fun r => { r with Hand := remaining }))
            d.Target.toNat ci = some g2 ∧
          (∃ q2, g2.Players[d.Target.toNat]? = some q2 ∧ q2.Hand = remaining ∧
            ∀ k ∈ q2.Hand, ∀ c2, g2.Deck[k]? = some c2 → c2.InsistentTouched = false) ∧
          ∃ q, g2.Players[pi]? = some q ∧ q.Character = "Insistent" ∧
            q.CharacterMetadata = -1 := by
  obtain ⟨g1, hrun, hopt, hseats, hpi, hdeck⟩ :=
    postClue_insistent env d g pi p p2 hon hwf hp hins hmeta hp2
  have htp : g.Players[d.Target.toNat]? = some p2 := by
    unfold index? at hp2
    split at hp2
    · exact hp2
    · exact absurd hp2 (by simp)
  have hmark : ∀ k ∈ p2.Hand, ∀ c, g.Deck[k]? = some c →
      env.variantIsCardTouched g.Options.VariantName (NewClue d) c = true →
      ∃ c1, g1.Deck[k]? = some c1 ∧ c1.InsistentTouched = true := by
    intro k hk c hc htouch
    obtain ⟨c1, hc1, hflag⟩ := hdeck k c hc
    refine ⟨c1, hc1, hflag ?_⟩
    have hmem : c ∈ handCards g p2 := by
      simp only [handCards, List.mem_filterMap]
      exact ⟨k, hk, hc⟩
    have hord : c.Order = (k : Int) := by
      have := ordersFrom_getElem? g.Deck 0 k c hwf hc
      simpa using this
    simp only [FindCardsTouchedByClue, List.mem_map, List.mem_filter]
    exact ⟨c, ⟨hmem, htouch⟩, hord⟩
  obtain ⟨q2, hq2, hq2s⟩ := getElem?_of_map_eq
    (fun r : GamePlayer => (r.Name, r.Index, r.Hand, r.Character)) _ _ hseats
    d.Target.toNat p2 htp
  have hq2hand : q2.Hand = p2.Hand := by
    have := congrArg (fun x => x.2.2.1) hq2s
    simpa using this
  refine ⟨g1, hrun, hmark, hpi, ⟨q2, hq2, hq2hand⟩, ?_⟩
  intro ci c remaining hci hc htouch
  obtain ⟨c1, hc1, hflag1⟩ := hmark ci hci c hc htouch
  have hchars : (modifyPlayer g1 d.Target.toNat
      (fun r => { r with Hand := remaining })).Players.map (fun r => r.Character) =
      g.Players.map (fun r => r.Character) := by
    have h1 : (modifyPlayer g1 d.Target.toNat
        (fun r => { r with Hand := remaining })).Players.map (fun r => r.Character) =
        g1.Players.map (fun r => r.Character) :=
      map_modify_of_inv (fun r : GamePlayer => { r with Hand := remaining })
        (fun r => r.Character) (fun _ => rfl) g1.Players d.Target.toNat
    have h2 := congrArg (List.map (fun x : String × Int × List Nat × String => x.2.2.2)) hseats
    simp only [List.map_map] at h2
    rw [h1]; exact h2
  have hfirst : ∀ (j : Nat) (r : GamePlayer), j < pi →
      (modifyPlayer g1 d.Target.toNat (fun r => { r with Hand := remaining })).Players[j]? =
        some r → r.Character ≠ "Insistent" := by
    intro j r hj hr hrc
    obtain ⟨r0, hr0, hr0c⟩ := getElem?_of_map_eq (fun r : GamePlayer => r.Character) _ _
      hchars.symm j r hr
    have := huniq j r0 hr0 (by simpa [hrc] using hr0c)
    omega
  have hpiG : (modifyPlayer g1 d.Target.toNat
      (fun r => { r with Hand := remaining })).Players[pi]? =
      some (if d.Target.toNat = pi
        then { ({ p with CharacterMetadata := 0 } : GamePlayer) with Hand := remaining }
        else { p with CharacterMetadata := 0 }) := by
    simp only [modifyPlayer, List.getElem?_modify, hpi]; rfl
  have htG : (modifyPlayer g1 d.Target.toNat
      (fun r => { r with Hand := remaining })).Players[d.Target.toNat]? =
      some { q2 with Hand := remaining } := by
    simp [modifyPlayer, List.getElem?_modify, hq2]
  obtain ⟨g2, hrun2, hhand2, hpi2⟩ := postRemoveCard_marked
    (modifyPlayer g1 d.Target.toNat (fun r => { r with Hand := remaining }))
    d.Target.toNat ci pi _ _ c1 (by rw [← hon, ← hopt]; rfl) htG hc1 hflag1 hpiG
    (by split <;> exact hins) hfirst
  refine ⟨g2, hrun2, hhand2, _, hpi2, ?_, rfl⟩
  split <;> exact hins

/-- Alice's red clue to bob marks the red 1 and the red 3; when the red 1 then
leaves bob's hand, the red 3 is unmarked and alice's metadata is -1 again. -/
theorem insistent_round_trip_witness :
    characterPostClue sampleEnv ⟨ActionTypeColorClue, 1, 0⟩ insistentGame 0 =
      some insistentMarked ∧
    characterPostRemoveCard
      (modifyPlayer insistentMarked 1 (fun r => { r with Hand := [1, 2] })) 1 0 =
      some insistentCleared ∧
    ∃ g1, characterPostClue sampleEnv ⟨ActionTypeColorClue, 1, 0⟩ insistentGame 0 = some g1 ∧
      (∃ c1, g1.Deck[2]? = some c1 ∧ c1.InsistentTouched = true) ∧
      ∃ g2, characterPostRemoveCard
          (modifyPlayer g1 1 (fun r => { r with Hand := [1, 2] })) 1 0 = some g2 ∧
        (∃ q2, g2.Players[1]? = some q2 ∧ q2.Hand = [1, 2] ∧
          ∀ k ∈ q2.Hand, ∀ c2, g2.Deck[k]? = some c2 → c2.InsistentTouched = false) ∧
        ∃ q, g2.Players[0]? = some q ∧ q.Character = "Insistent" ∧
          q.CharacterMetadata = -1 := by
  refine ⟨by decide, by decide, ?_⟩
  obtain ⟨g1, h1, h2, -, -, h5⟩ :=
    insistent_round_trip sampleEnv ⟨ActionTypeColorClue, 1, 0⟩ insistentGame 0
      ⟨"alice", 0, [], "Insistent", -1⟩ ⟨"bob", 1, [0, 1, 2], "Fuming", 1⟩
      (by decide) (by decide) (by decide) (by decide) (by decide)
      (by
        intro j r hr hc
        match j, hr with
        | 0, _ => rfl
        | 1, hr =>
          simp only [insistentGame, List.getElem?_cons_succ, List.getElem?_cons_zero,
            Option.some.injEq] at hr
          subst hr
          exact absurd hc (by decide)
        | j + 2, hr => simp [insistentGame] at hr)
      (by decide)
  exact ⟨g1, h1, h2 2 (by decide) ⟨2, 0, 3, false⟩ (by decide) (by decide),
    h5 0 ⟨0, 0, 1, false⟩ [1, 2] (by decide) (by decide) (by decide)⟩

/-- The Stubborn loop of `characterPostAction` changes no character. -/
theorem map_character_stubborn (k : Int) (l : List GamePlayer) :
    (l.map (fun p2 : GamePlayer =>
        if p2.Character = "Stubborn" then { p2 with CharacterMetadata := k } else p2)).map
      (fun r => r.Character) = l.map (fun r => r.Character) := by
  rw [List.map_map]
  apply List.map_congr_left
  intro a _
  simp only [Function.comp]
  split <;> rfl

/-- The hook `characterPostAction` with characters enabled: it returns, keeps
the options, the characters and every field but the players' metadata and the
direction flag, and the direction flag is negated exactly when the acting
player is Contrarian. -/
theorem postAction_frame (d : CommandData) (g : Game) (pi : Nat) (p : GamePlayer)
    (hon : g.Options.DetrimentalCharacters = true) (hp : g.Players[pi]? = some p) :
    ∃ g1, characterPostAction d g pi = some g1 ∧ g1.Options = g.Options ∧
      g1.Players.map (fun r => r.Character) = g.Players.map (fun r => r.Character) ∧
      g1.TurnsInverted =
        (if p.Character = "Contrarian" then !g.TurnsInverted else g.TurnsInverted) ∧
      g1.Turn = g.Turn ∧ g1.EndTurn = g.EndTurn ∧ g1.ClueTokens = g.ClueTokens := by
  have hset : ∀ m, (setMetadata g pi m).Players.map (fun r => r.Character) =
      g.Players.map (fun r => r.Character) := fun m => (setMetadata_frame g pi m).1
  have e1 : ∀ m, (setMetadata g pi m).Options = g.Options := fun _ => rfl
  have e2 : ∀ m, (setMetadata g pi m).TurnsInverted = g.TurnsInverted := fun _ => rfl
  have e3 : ∀ m, (setMetadata g pi m).Turn = g.Turn := fun _ => rfl
  have e4 : ∀ m, (setMetadata g pi m).EndTurn = g.EndTurn := fun _ => rfl
  have e5 : ∀ m, (setMetadata g pi m).ClueTokens = g.ClueTokens := fun _ => rfl
  have n1 : "Vindictive" ≠ "Contrarian" := by decide
  have n2 : "Impulsive" ≠ "Contrarian" := by decide
  have n3 : "Indolent" ≠ "Contrarian" := by decide
  simp only [characterPostAction, hon, hp, Bool.true_eq_false, if_false]
  refine ⟨_, rfl, ?_⟩
  split_ifs with h1 h2 h3 h4 h5
  all_goals simp only [map_character_stubborn, hset, e1, e2, e3, e4, e5, and_self, true_and]
  all_goals first
    | rfl
    | simp_all

/-- C11: with characters enabled, `characterPostAction` for a Contrarian
acting player negates TurnsInverted, so that a second call for a Contrarian
acting player restores the original value; for an acting player of any other
character it leaves TurnsInverted unchanged. -/
theorem contrarian_toggle (d : CommandData) (g : Game) (pi : Nat) (p : GamePlayer)
    (hon : g.Options.DetrimentalCharacters = true) (hp : g.Players[pi]? = some p) :
    ∃ g1, characterPostAction d g pi = some g1 ∧
      (p.Character = "Contrarian" → g1.TurnsInverted = !g.TurnsInverted) ∧
      (p.Character ≠ "Contrarian" → g1.TurnsInverted = g.TurnsInverted) ∧
      (p.Character = "Contrarian" → ∀ (d2 : CommandData) (pi2 : Nat) (p2 : GamePlayer),
        g1.Players[pi2]? = some p2 → p2.Character = "Contrarian" →
        ∃ g2, characterPostAction d2 g1 pi2 = some g2 ∧ g2.TurnsInverted = g.TurnsInverted) := by
  obtain ⟨g1, hrun, hopt, -, hturn, -⟩ := postAction_frame d g pi p hon hp
  refine ⟨g1, hrun, ?_, ?_, ?_⟩
  · intro hc; rw [hturn, if_pos hc]
  · intro hc; rw [hturn, if_neg hc]
  · intro hc d2 pi2 p2 hp2 hc2
    obtain ⟨g2, hrun2, -, -, hturn2, -⟩ :=
      postAction_frame d2 g1 pi2 p2 (by rw [hopt]; exact hon) hp2
    refine ⟨g2, hrun2, ?_⟩
    rw [hturn2, if_pos hc2, hturn, if_pos hc, Bool.not_not]

/-- Two Contrarian players acting one after the other restore the direction,
and a Fuming player's action leaves it alone. -/
theorem contrarian_toggle_witness :
    (∃ g1, characterPostAction ⟨ActionTypePlay, 0, 0⟩
        (table true [] [seat "alice" 0 "Contrarian" (-1), seat "bob" 1 "Contrarian" (-1)]) 0 =
          some g1 ∧ g1.TurnsInverted = true ∧
      ∃ g2, characterPostAction ⟨ActionTypeDiscard, 0, 0⟩ g1 1 = some g2 ∧
        g2.TurnsInverted = false) ∧
    (∃ g1, characterPostAction ⟨ActionTypePlay, 0, 0⟩
        (table true [] [seat "alice" 0 "Fuming" 1, seat "bob" 1 "Contrarian" (-1)]) 0 =
          some g1 ∧ g1.TurnsInverted = false) := by
  constructor
  · obtain ⟨g1, h1, h2, -, h4⟩ := contrarian_toggle ⟨ActionTypePlay, 0, 0⟩
      (table true [] [seat "alice" 0 "Contrarian" (-1), seat "bob" 1 "Contrarian" (-1)]) 0
      (seat "alice" 0 "Contrarian" (-1)) (by decide) (by decide)
    refine ⟨g1, h1, h2 (by decide), ?_⟩
    have hb : g1.Players[1]? = some (seat "bob" 1 "Contrarian" (-1)) := by
      have : some g1 = some ({ table true []
          [seat "alice" 0 "Contrarian" (-1), seat "bob" 1 "Contrarian" (-1)] with
          TurnsInverted := true } : Game) := by rw [← h1]; decide
      rw [Option.some.inj this]; decide
    exact h4 (by decide) ⟨ActionTypeDiscard, 0, 0⟩ 1 _ hb (by decide)
  · obtain ⟨g1, h1, -, h3, -⟩ := contrarian_toggle ⟨ActionTypePlay, 0, 0⟩
      (table true [] [seat "alice" 0 "Fuming" 1, seat "bob" 1 "Contrarian" (-1)]) 0
      (seat "alice" 0 "Fuming" 1) (by decide) (by decide)
    exact ⟨g1, h1, h3 (by decide)⟩

/-- An `int` value is its own `int` result. -/
theorem wrapInt_of_range (x : Int) (h0 : minInt ≤ x) (h1 : x ≤ maxInt) : wrapInt x = x := by
  unfold minInt at h0
  unfold maxInt at h1
  unfold wrapInt
  omega

/-- The loop of `characterAdjustEndTurn`: the final-turn assignment is made
when some player is Contrarian and nothing is changed otherwise. -/
theorem adjustEndTurn_fold (l : List GamePlayer) :
    ∀ g : Game,
      l.foldl (fun acc p =>
        if p.Character = "Contrarian" then { acc with EndTurn := wrapInt (acc.Turn + 3) }
        else acc) g =
      if l.any (fun p => decide (p.Character = "Contrarian")) = true
      then { g with EndTurn := wrapInt (g.Turn + 3) } else g := by
  induction l with
  | nil => intro g; simp
  | cons x xs ih =>
    intro g
    simp only [List.foldl_cons, List.any_cons, Bool.or_eq_true, decide_eq_true_eq]
    by_cases hx : x.Character = "Contrarian"
    · simp only [hx, if_true, true_or]
      rw [ih]
      split <;> rfl
    · simp only [hx, if_false, false_or]
      rw [ih]

/-- C12 (as amended): with characters enabled, `characterAdjustEndTurn` sets
EndTurn to the `int` sum Turn + 3 when at least one player's character is
Contrarian, which is Turn + 3 whenever Turn + 3 does not exceed the largest
`int`, and leaves EndTurn unchanged when no player is Contrarian; in both
cases nothing but EndTurn changes, so Turn, TurnsInverted, ActivePlayerIndex
and the players with their metadata are the same. -/
theorem adjustEndTurn_contrarian (g : Game) (hon : g.Options.DetrimentalCharacters = true) :
    ((∃ p ∈ g.Players, p.Character = "Contrarian") →
      (characterAdjustEndTurn g).EndTurn = wrapInt (g.Turn + 3) ∧
      (minInt ≤ g.Turn → g.Turn + 3 ≤ maxInt →
        (characterAdjustEndTurn g).EndTurn = g.Turn + 3)) ∧
    ((∀ p ∈ g.Players, p.Character ≠ "Contrarian") →
      (characterAdjustEndTurn g).EndTurn = g.EndTurn) ∧
    characterAdjustEndTurn g = { g with EndTurn := (characterAdjustEndTurn g).EndTurn } ∧
    (characterAdjustEndTurn g).Turn = g.Turn ∧
    (characterAdjustEndTurn g).TurnsInverted = g.TurnsInverted ∧
    (characterAdjustEndTurn g).ActivePlayerIndex = g.ActivePlayerIndex ∧
    (characterAdjustEndTurn g).Players = g.Players := by
  have hrun : characterAdjustEndTurn g =
      if g.Players.any (fun p => decide (p.Character = "Contrarian")) = true
      then { g with EndTurn := wrapInt (g.Turn + 3) } else g := by
    simp only [characterAdjustEndTurn, hon, Bool.true_eq_false, if_false]
    exact adjustEndTurn_fold g.Players g
  by_cases hany : g.Players.any (fun p => decide (p.Character = "Contrarian")) = true
  · rw [hrun, if_pos hany]
    refine ⟨fun _ => ⟨rfl, fun h0 h1 => ?_⟩, ?_, rfl, rfl, rfl, rfl, rfl⟩
    · exact wrapInt_of_range _ (by unfold minInt at h0 ⊢; omega) h1
    · intro hnone
      obtain ⟨p, hp, hc⟩ := List.any_eq_true.mp hany
      exact absurd (of_decide_eq_true hc) (hnone p hp)
  · rw [hrun, if_neg hany]
    refine ⟨?_, fun _ => rfl, rfl, rfl, rfl, rfl, rfl⟩
    intro ⟨p, hp, hc⟩
    exact absurd (List.any_eq_true.mpr ⟨p, hp, decide_eq_true hc⟩) hany

/-- At turn 5 with a Contrarian player the final turn becomes 8; without one
it stays unset. -/
theorem adjustEndTurn_contrarian_witness :
    (characterAdjustEndTurn { table true []
        [seat "alice" 0 "Fuming" 1, seat "bob" 1 "Contrarian" (-1)] with Turn := 5 }).EndTurn =
      5 + 3 ∧
    (characterAdjustEndTurn { table true []
        [seat "alice" 0 "Fuming" 1, seat "bob" 1 "Miser" (-1)] with Turn := 5 }).EndTurn = -1 :=
  ⟨((adjustEndTurn_contrarian { table true []
        [seat "alice" 0 "Fuming" 1, seat "bob" 1 "Contrarian" (-1)] with Turn := 5 }
      (by decide)).1 ⟨seat "bob" 1 "Contrarian" (-1), by decide, by decide⟩).2
      (by decide) (by decide),
   (adjustEndTurn_contrarian { table true []
        [seat "alice" 0 "Fuming" 1, seat "bob" 1 "Miser" (-1)] with Turn := 5 }
      (by decide)).2.1 (by decide)⟩

/-- C12 as stated fails: at Turn = 2^63 - 2 with a Contrarian player the
`int` sum wraps around and EndTurn becomes -(2^63 - 1), not Turn + 3. -/
theorem adjustEndTurn_wraps :
    (characterAdjustEndTurn { table true []
        [seat "alice" 0 "Fuming" 1, seat "bob" 1 "Contrarian" (-1)] with
        Turn := 9223372036854775806 }).EndTurn = -9223372036854775807 ∧
    (characterAdjustEndTurn { table true []
        [seat "alice" 0 "Fuming" 1, seat "bob" 1 "Contrarian" (-1)] with
        Turn := 9223372036854775806 }).EndTurn ≠ 9223372036854775806 + 3 := by
  decide

/-- C13: with characters enabled, `characterCheckSoftlock(g, p)` sets
EndCondition to the character-softlock code and EndPlayer to p's index when
the clue-token count is below the variant-adjusted value of 1, p's metadata is
0 and p's character is Vindictive or Insistent, and in every other case it
leaves the game, hence EndCondition and EndPlayer, unchanged. -/
theorem softlock_iff (env : Env) (g : Game) (pi : Nat) (p : GamePlayer)
    (hon : g.Options.DetrimentalCharacters = true) (hp : g.Players[pi]? = some p) :
    ((g.ClueTokens < (env.variants g.Options.VariantName).GetAdjustedClueTokens 1 ∧
        p.CharacterMetadata = 0 ∧
        (p.Character = "Vindictive" ∨ p.Character = "Insistent")) →
      characterCheckSoftlock env g pi =
        some { g with EndCondition := env.EndConditionCharacterSoftlock,
                      EndPlayer := p.Index }) ∧
    (¬ (g.ClueTokens < (env.variants g.Options.VariantName).GetAdjustedClueTokens 1 ∧
        p.CharacterMetadata = 0 ∧
        (p.Character = "Vindictive" ∨ p.Character = "Insistent")) →
      characterCheckSoftlock env g pi = some g) := by
  constructor
  · intro h
    simp only [characterCheckSoftlock, hon, hp, Bool.true_eq_false, if_false]
    rw [if_pos h]
  · intro h
    simp only [characterCheckSoftlock, hon, hp, Bool.true_eq_false, if_false]
    rw [if_neg h]

/-- With no clue token left, a Vindictive player owing a clue ends the game
as player 1; with one token left nothing happens. -/
theorem softlock_iff_witness :
    characterCheckSoftlock sampleEnv { table true []
        [seat "alice" 0 "Fuming" 1, seat "bob" 1 "Vindictive" 0] with ClueTokens := 0 } 1 =
      some { table true [] [seat "alice" 0 "Fuming" 1, seat "bob" 1 "Vindictive" 0] with
        ClueTokens := 0, EndCondition := 7, EndPlayer := 1 } ∧
    characterCheckSoftlock sampleEnv { table true []
        [seat "alice" 0 "Fuming" 1, seat "bob" 1 "Vindictive" 0] with ClueTokens := 1 } 1 =
      some { table true [] [seat "alice" 0 "Fuming" 1, seat "bob" 1 "Vindictive" 0] with
        ClueTokens := 1 } :=
  ⟨(softlock_iff sampleEnv { table true []
        [seat "alice" 0 "Fuming" 1, seat "bob" 1 "Vindictive" 0] with ClueTokens := 0 } 1
      (seat "bob" 1 "Vindictive" 0) (by decide) (by decide)).1 (by decide),
   (softlock_iff sampleEnv { table true []
        [seat "alice" 0 "Fuming" 1, seat "bob" 1 "Vindictive" 0] with ClueTokens := 1 } 1
      (seat "bob" 1 "Vindictive" 0) (by decide) (by decide)).2 (by decide)⟩

/-- C14: with characters enabled, for every viewer p, every drawing player q
and every just-drawn card that occupies slot 1 of q's hand,
`characterHideCard` for the draw by q equals the negation of
`characterSeesCard(p, q, order)`: both hide the card exactly when p is Blind
Spot and q is the next seat, or p is Oblivious and q is the previous seat, or
p is Slow-Witted. -/
theorem hideCard_eq_not_seesCard (a : ActionDraw) (g : Game) (pi qi : Nat) (p q : GamePlayer)
    (hon : g.Options.DetrimentalCharacters = true)
    (hp : g.Players[pi]? = some p) (hq : g.Players[qi]? = some q)
    (hdraw : a.PlayerIndex = q.Index) (hslot : GetCardSlot g q a.Order = 1) :
    characterHideCard a g pi = (characterSeesCard g pi qi a.Order).map (fun b => !b) ∧
    characterHideCard a g pi = some (decide
      ((p.Character = "Blind Spot" ∧ q.Index = GetNextPlayer g p) ∨
       (p.Character = "Oblivious" ∧ q.Index = GetPreviousPlayer g p) ∨
       p.Character = "Slow-Witted")) := by
  simp only [characterHideCard, characterSeesCard, hon, hp, hq, hdraw, hslot,
    Bool.true_eq_false, if_false, and_true]
  by_cases h1 : p.Character = "Blind Spot" ∧ q.Index = GetNextPlayer g p
  · simp [h1]
  · by_cases h2 : p.Character = "Oblivious" ∧ q.Index = GetPreviousPlayer g p
    · simp [h1, h2]
    · by_cases h3 : p.Character = "Slow-Witted"
      · simp [h1, h2, h3]
      · simp [h1, h2, h3]

/-- Bob draws the card of order 2 into slot 1: a Blind Spot alice, seated
before bob, neither sees it nor is shown it at the draw; a Miser alice sees
it. -/
theorem hideCard_eq_not_seesCard_witness :
    (characterHideCard ⟨1, 2⟩ (viewerGame "Blind Spot") 0 = some true ∧
      characterSeesCard (viewerGame "Blind Spot") 0 1 2 = some false) ∧
    (characterHideCard ⟨1, 2⟩ (viewerGame "Miser") 0 = some false ∧
      characterSeesCard (viewerGame "Miser") 0 1 2 = some true) := by
  have h1 := hideCard_eq_not_seesCard ⟨1, 2⟩ (viewerGame "Blind Spot") 0 1
    ⟨"alice", 0, [], "Blind Spot", -1⟩ ⟨"bob", 1, [0, 1, 2], "Fuming", 1⟩
    (by decide) (by decide) (by decide) (by decide) (by decide)
  have h2 := hideCard_eq_not_seesCard ⟨1, 2⟩ (viewerGame "Miser") 0 1
    ⟨"alice", 0, [], "Miser", -1⟩ ⟨"bob", 1, [0, 1, 2], "Fuming", 1⟩
    (by decide) (by decide) (by decide) (by decide) (by decide)
  refine ⟨⟨h1.2.trans (by decide), by decide⟩, ⟨h2.2.trans (by decide), by decide⟩⟩

/-- On a stack of value `s` the card of rank `r ≥ 1` has been played once if
`r ≤ s` and not at all otherwise. -/
theorem count_stackCards (n : Nat) (r : Int) (hr : 1 ≤ r) :
    ((List.range n).map (fun k : Nat => (k : Int) + 1)).count r = if r ≤ (n : Int) then 1 else 0 := by
  induction n with
  | zero =>
    have : ¬ r ≤ 0 := by omega
    simp [this]
  | succ n ih =>
    rw [List.range_succ, List.map_append, List.count_append, ih]
    simp only [List.map_cons, List.map_nil, List.count_singleton]
    by_cases h1 : r ≤ (n : Int)
    · have h2 : r ≤ (n : Int) + 1 := by omega
      have h3 : ¬ ((n : Int) + 1 = r) := by omega
      simp [h1, h2, h3]
    · by_cases h4 : (n : Int) + 1 = r
      · have h2 : r ≤ (n : Int) + 1 := by omega
        simp [h1, h2, h4]
      · have h2 : ¬ r ≤ (n : Int) + 1 := by omega
        simp [h1, h2, h4]

/-- For a rank `r ≥ 1`, the stacks whose value is at least `r` are as many as
the played cards of rank `r`. -/
theorem playedOfRank_eq (piles : List Int) (r : Int) (hr : 1 ≤ r) :
    playedOfRank piles r = (piles.filter (fun s => decide (s ≥ r))).length := by
  induction piles with
  | nil => rfl
  | cons s rest ih =>
    have hs : (stackCards s).count r = if s ≥ r then 1 else 0 := by
      rw [stackCards, count_stackCards _ _ hr]
      by_cases h : r ≤ s
      · have : r ≤ ((s.toNat : Nat) : Int) := by omega
        simp [h, this]
      · have : ¬ r ≤ ((s.toNat : Nat) : Int) := by omega
        simp only [this, if_false]
        rw [if_neg (by omega)]
    simp only [playedOfRank, List.map_cons, List.sum_cons] at ih ⊢
    rw [ih, hs, List.filter_cons]
    by_cases h : s ≥ r
    · simp [h]; omega
    · simp [h]

/-- C15 (as amended): with characters enabled and a Follower player,
`characterCheckMisplay` returns true if and only if fewer than two play stacks
have a value equal to or higher than the card's rank, which for a card of rank
at least 1 means that fewer than two cards of exactly that rank have been
played across all stacks, independently of whether the card is playable; for
every other character it returns false. -/
theorem follower_misplay (g : Game) (pi ci : Nat) (p : GamePlayer) (c : Card)
    (hon : g.Options.DetrimentalCharacters = true)
    (hp : g.Players[pi]? = some p) (hc : g.Deck[ci]? = some c) :
    (p.Character = "Follower" → characterCheckMisplay g pi ci =
      some (decide ((g.Stacks.filter (fun s => decide (s ≥ c.Rank))).length < 2))) ∧
    (p.Character = "Follower" → 1 ≤ c.Rank → characterCheckMisplay g pi ci =
      some (decide (playedOfRank g.Stacks c.Rank < 2))) ∧
    (p.Character ≠ "Follower" → characterCheckMisplay g pi ci = some false) := by
  have hfol : p.Character = "Follower" → characterCheckMisplay g pi ci =
      some (decide ((g.Stacks.filter (fun s => decide (s ≥ c.Rank))).length < 2)) := by
    intro h
    simp only [characterCheckMisplay, hon, hp, hc, h, Bool.true_eq_false, if_false, if_true]
    split <;> simp [*]
  refine ⟨hfol, ?_, ?_⟩
  · intro h hr
    rw [hfol h, playedOfRank_eq _ _ hr]
  · intro h
    simp [characterCheckMisplay, hon, hp, hc, h]

/-- A Follower's 2 misplays over the stacks 3, 1, 0, 0, 0 (one 2 played) and
does not over the stacks 3, 2, 0, 0, 0 (two 2s played). -/
theorem follower_misplay_witness :
    characterCheckMisplay (followerGame [3, 1, 0, 0, 0] 2) 0 0 = some true ∧
    characterCheckMisplay (followerGame [3, 2, 0, 0, 0] 2) 0 0 = some false :=
  ⟨((follower_misplay (followerGame [3, 1, 0, 0, 0] 2) 0 0
      ⟨"alice", 0, [0], "Follower", -1⟩ ⟨0, 0, 2, false⟩ (by decide) (by decide)
      (by decide)).2.1 (by decide) (by decide)).trans (by decide),
   ((follower_misplay (followerGame [3, 2, 0, 0, 0] 2) 0 0
      ⟨"alice", 0, [0], "Follower", -1⟩ ⟨0, 0, 2, false⟩ (by decide) (by decide)
      (by decide)).2.1 (by decide) (by decide)).trans (by decide)⟩

/-- C15 as stated fails: over the stacks 3, 0, 0, 0, 0 three cards of rank
equal to or higher than 1 have been played, yet a Follower's card of rank 1
misplays. -/
theorem follower_counts_stacks_not_cards :
    playedOfRankAtLeast (followerGame [3, 0, 0, 0, 0] 1).Stacks 1 = 3 ∧
    ¬ (playedOfRankAtLeast (followerGame [3, 0, 0, 0, 0] 1).Stacks 1 < 2) ∧
    characterCheckMisplay (followerGame [3, 0, 0, 0, 0] 1) 0 0 = some true := by
  decide

/-- The value returned by `rand.Intn(n)` is below `n`. -/
theorem randIntn_lt (n : Nat) (rng rest : List Nat) (r : Nat)
    (h : randIntn n rng = some (r, rest)) : r < n := by
  unfold randIntn at h
  split at h
  · exact absurd h (by simp)
  · rename_i hn
    cases rng with
    | nil => exact absurd h (by simp)
    | cons x xs =>
      simp only [Option.some.injEq, Prod.mk.injEq] at h
      rw [← h.1]
      exact Nat.mod_lt _ (Nat.pos_of_ne_zero hn)

/-- The secondary attribute drawn for a player whose metadata was just
initialised to -1: a value from 1 to 4 for Dumbfounded and Awkward, a colour
index of the variant for Fuming and Inept, and -1 for every other
character. -/
theorem drawMetadata_range (env : Env) (i : Nat) (g g1 : Game) (rng rng1 : List Nat)
    (c : String) (p0 : GamePlayer) (hp0 : g.Players[i]? = some p0)
    (hinit : p0.CharacterMetadata = -1)
    (h : drawMetadata env i g rng c = some (g1, rng1)) :
    ∃ m : Int, g1.Players[i]? = some { p0 with CharacterMetadata := m } ∧
      ((c = "Dumbfounded" ∨ c = "Awkward") → 1 ≤ m ∧ m ≤ 4) ∧
      ((c = "Fuming" ∨ c = "Inept") →
        0 ≤ m ∧ m < ((env.variants g.Options.VariantName).ClueColors.length : Int)) ∧
      (c ≠ "Fuming" → c ≠ "Dumbfounded" → c ≠ "Inept" → c ≠ "Awkward" → m = -1) := by
  have n1 : "Fuming" ≠ "Dumbfounded" := by decide
  have n2 : "Fuming" ≠ "Awkward" := by decide
  have n3 : "Dumbfounded" ≠ "Inept" := by decide
  have n4 : "Inept" ≠ "Awkward" := by decide
  have n5 : "Fuming" ≠ "Inept" := by decide
  have n6 : "Dumbfounded" ≠ "Awkward" := by decide
  have colour : ∀ r : Nat × List Nat,
      randIntn (env.variants g.Options.VariantName).ClueColors.length rng = some r →
      (c = "Fuming" ∨ c = "Inept") → (c ≠ "Dumbfounded" ∧ c ≠ "Awkward") →
      some (setMetadata g i (r.1 : Int), r.2) = some (g1, rng1) →
      ∃ m : Int, g1.Players[i]? = some { p0 with CharacterMetadata := m } ∧
        ((c = "Dumbfounded" ∨ c = "Awkward") → 1 ≤ m ∧ m ≤ 4) ∧
        ((c = "Fuming" ∨ c = "Inept") →
          0 ≤ m ∧ m < ((env.variants g.Options.VariantName).ClueColors.length : Int)) ∧
        (c ≠ "Fuming" → c ≠ "Dumbfounded" → c ≠ "Inept" → c ≠ "Awkward" → m = -1) := by
    intro r hr hc hnc heq
    simp only [Option.some.injEq, Prod.mk.injEq] at heq
    obtain ⟨rfl, -⟩ := heq
    have hlt := randIntn_lt _ _ _ _ (show randIntn _ rng = some (r.1, r.2) from hr)
    refine ⟨(r.1 : Int), getElem?_setMetadata g i _ p0 hp0, ?_, ?_, ?_⟩
    · intro h'; rcases h' with h' | h'
      · exact absurd h' hnc.1
      · exact absurd h' hnc.2
    · intro _; exact ⟨by omega, by omega⟩
    · intro a _ b _; rcases hc with hc | hc
      · exact absurd hc a
      · exact absurd hc b
  have rank : ∀ r : Nat × List Nat, randIntn 4 rng = some r →
      (c = "Dumbfounded" ∨ c = "Awkward") → (c ≠ "Fuming" ∧ c ≠ "Inept") →
      some (setMetadata g i ((r.1 : Int) + 1), r.2) = some (g1, rng1) →
      ∃ m : Int, g1.Players[i]? = some { p0 with CharacterMetadata := m } ∧
        ((c = "Dumbfounded" ∨ c = "Awkward") → 1 ≤ m ∧ m ≤ 4) ∧
        ((c = "Fuming" ∨ c = "Inept") →
          0 ≤ m ∧ m < ((env.variants g.Options.VariantName).ClueColors.length : Int)) ∧
        (c ≠ "Fuming" → c ≠ "Dumbfounded" → c ≠ "Inept" → c ≠ "Awkward" → m = -1) := by
    intro r hr hc hnc heq
    simp only [Option.some.injEq, Prod.mk.injEq] at heq
    obtain ⟨rfl, -⟩ := heq
    have hlt := randIntn_lt _ _ _ _ (show randIntn _ rng = some (r.1, r.2) from hr)
    refine ⟨(r.1 : Int) + 1, getElem?_setMetadata g i _ p0 hp0, ?_, ?_, ?_⟩
    · intro _; exact ⟨by omega, by omega⟩
    · intro h'; rcases h' with h' | h'
      · exact absurd h' hnc.1
      · exact absurd h' hnc.2
    · intro _ a _ b; rcases hc with hc | hc
      · exact absurd hc a
      · exact absurd hc b
  simp only [drawMetadata] at h
  by_cases h1 : c = "Fuming"
  · rw [if_pos h1] at h
    cases hr : randIntn (env.variants g.Options.VariantName).ClueColors.length rng with
    | none => rw [hr] at h; exact absurd h (by simp)
    | some r =>
      rw [hr] at h
      exact colour r hr (Or.inl h1) ⟨by rw [h1]; exact n1, by rw [h1]; exact n2⟩ h
  · rw [if_neg h1] at h
    by_cases h2 : c = "Dumbfounded"
    · rw [if_pos h2] at h
      cases hr : randIntn 4 rng with
      | none => rw [hr] at h; exact absurd h (by simp)
      | some r =>
        rw [hr] at h
        exact rank r hr (Or.inl h2) ⟨h1, by rw [h2]; exact n3⟩ h
    · rw [if_neg h2] at h
      by_cases h3 : c = "Inept"
      · rw [if_pos h3] at h
        cases hr : randIntn (env.variants g.Options.VariantName).ClueColors.length rng with
        | none => rw [hr] at h; exact absurd h (by simp)
        | some r =>
          rw [hr] at h
          exact colour r hr (Or.inr h3) ⟨h2, by rw [h3]; exact n4⟩ h
      · rw [if_neg h3] at h
        by_cases h4 : c = "Awkward"
        · rw [if_pos h4] at h
          cases hr : randIntn 4 rng with
          | none => rw [hr] at h; exact absurd h (by simp)
          | some r =>
            rw [hr] at h
            exact rank r hr (Or.inr h4) ⟨h1, h3⟩ h
        · rw [if_neg h4] at h
          simp only [Option.some.injEq, Prod.mk.injEq] at h
          obtain ⟨rfl, -⟩ := h
          refine ⟨-1, ?_, ?_, ?_, fun _ _ _ _ => rfl⟩
          · rw [hp0, ← hinit]
          · intro h'; rcases h' with h' | h'
            · exact absurd h' h2
            · exact absurd h' h4
          · intro h'; rcases h' with h' | h'
            · exact absurd h' h1
            · exact absurd h' h3

/-- The draw loop keeps the game options. -/
theorem drawCharacter_options (env : Env) (i : Nat) (rng : List Nat) :
    ∀ (g g1 : Game) (rng1 : List Nat),
      drawCharacter env i g rng = some (g1, rng1) → g1.Options = g.Options := by
  induction rng with
  | nil => intro g g1 rng1 h; simp [drawCharacter] at h
  | cons r rest ih =>
    intro g g1 rng1 h
    simp only [drawCharacter] at h
    split at h
    · exact absurd h (by simp)
    · split at h
      · exact absurd h (by simp)
      · rename_i name _
        have hrec : ∀ g1 rng1, drawCharacter env i (setCharacter g i name) rest =
            some (g1, rng1) → g1.Options = g.Options :=
          fun g1 rng1 h1 => ih (setCharacter g i name) g1 rng1 h1
        split at h
        · exact hrec _ _ h
        · split at h
          · exact hrec _ _ h
          · simp only [Option.some.injEq, Prod.mk.injEq] at h
            rw [← h.1]; rfl

/-- C17 (what the code does): in the random path of `charactersGenerate`, a
player who is not a test fixture and draws Dumbfounded or Awkward starts with
a metadata from 1 to 4, never 5; one who draws Fuming or Inept starts with a
colour index of the variant; every other character starts with -1. -/
theorem starting_metadata (env : Env) (i : Nat) (g g1 : Game) (rng rng1 : List Nat)
    (p : GamePlayer) (hp : g.Players[i]? = some p)
    (hname : stringInSlice p.Name debugUsernames = false)
    (h : generateFor env i g rng = some (g1, rng1)) :
    ∃ q, g1.Players[i]? = some q ∧
      ((q.Character = "Dumbfounded" ∨ q.Character = "Awkward") →
        1 ≤ q.CharacterMetadata ∧ q.CharacterMetadata ≤ 4 ∧ q.CharacterMetadata ≠ 5) ∧
      ((q.Character = "Fuming" ∨ q.Character = "Inept") →
        0 ≤ q.CharacterMetadata ∧ q.CharacterMetadata <
          ((env.variants g.Options.VariantName).ClueColors.length : Int)) ∧
      (q.Character ≠ "Fuming" → q.Character ≠ "Dumbfounded" → q.Character ≠ "Inept" →
        q.Character ≠ "Awkward" → q.CharacterMetadata = -1) := by
  simp only [generateFor, hp, hname, Bool.false_eq_true, if_false] at h
  cases hd : drawCharacter env i g rng with
  | none => simp [hd] at h
  | some r =>
    obtain ⟨g2, rng2⟩ := r
    obtain ⟨-, -, p1, hp1, -, -⟩ := drawCharacter_spec env i rng g g2 rng2 p hp hd
    have hopt : g2.Options = g.Options := drawCharacter_options env i rng g g2 rng2 hd
    simp only [hd, hp1] at h
    obtain ⟨m, hq, hrank, hcolour, hother⟩ :=
      drawMetadata_range env i (setMetadata g2 i (-1)) g1 rng2 rng1 p1.Character
        { p1 with CharacterMetadata := -1 } (getElem?_setMetadata g2 i (-1) p1 hp1) rfl h
    have hopt2 : (setMetadata g2 i (-1)).Options = g.Options := hopt
    rw [hopt2] at hcolour
    refine ⟨_, hq, ?_, hcolour, hother⟩
    intro hc
    obtain ⟨a, b⟩ := hrank hc
    exact ⟨a, b, fun h5 => by
      have h5' : m = 5 := h5
      omega⟩

/-- With Dumbfounded the only character and the raw outputs 0 and 3, alice
starts with the metadata 3 % 4 + 1 = 4, the largest value the draw yields. -/
theorem starting_metadata_witness :
    generateFor (dumbfoundedEnv [0, 3]) 0 (table true [] [seat "alice" 0 "" 0]) [0, 3] =
      some (table true [] [seat "alice" 0 "Dumbfounded" 4], []) ∧
    ∃ q, (table true [] [seat "alice" 0 "Dumbfounded" 4]).Players[0]? = some q ∧
      ((q.Character = "Dumbfounded" ∨ q.Character = "Awkward") →
        1 ≤ q.CharacterMetadata ∧ q.CharacterMetadata ≤ 4 ∧ q.CharacterMetadata ≠ 5) :=
  ⟨by decide, by
    obtain ⟨q, h1, h2, -, -⟩ := starting_metadata (dumbfoundedEnv [0, 3]) 0
      (table true [] [seat "alice" 0 "" 0]) (table true [] [seat "alice" 0 "Dumbfounded" 4])
      [0, 3] [] (seat "alice" 0 "" 0) (by decide) (by decide) (by decide)
    exact ⟨q, h1, h2⟩⟩

/-- The hook `characterNeedsToTakeSecondTurn` for a Panicky player's
discard. -/
theorem panicky_step (env : Env) (d : CommandData) (g : Game) (pi : Nat) (q : GamePlayer)
    (hon : g.Options.DetrimentalCharacters = true) (hq : g.Players[pi]? = some q)
    (hpanicky : q.Character = "Panicky") (hdiscard : d.Type_ = ActionTypeDiscard) :
    characterNeedsToTakeSecondTurn env d g pi = some
      (if q.CharacterMetadata = -1 ∧
          g.ClueTokens ≤ (env.variants g.Options.VariantName).GetAdjustedClueTokens 4
       then (setMetadata g pi 0, true)
       else if q.CharacterMetadata = 0 then (setMetadata g pi (-1), false)
       else (g, false)) := by
  have hng : ¬ q.Character = "Genius" := by rw [hpanicky]; decide
  unfold characterNeedsToTakeSecondTurn
  rw [if_neg (by rw [hon]; decide)]
  simp only [hq]
  rw [if_neg hng, if_pos ⟨hpanicky, hdiscard⟩]
  split_ifs <;> rfl

/-- C18: with characters enabled, for a Panicky player whose metadata is -1 or
0, `characterNeedsToTakeSecondTurn` on a discard returns true if and only if
the metadata was -1 and the clue-token count is at most the variant-adjusted
value of 4; afterwards the metadata is 0 exactly when it returned true and -1
otherwise; a second call on a discard, whatever the clue-token count has
become, does not return true when the first did; and while the metadata is 0
`characterValidateSecondAction` rejects every action that is not a discard. -/
theorem panicky_second_turn (env : Env) (d : CommandData) (g : Game) (pi : Nat)
    (p : GamePlayer)
    (hon : g.Options.DetrimentalCharacters = true) (hp : g.Players[pi]? = some p)
    (hpanicky : p.Character = "Panicky") (hdiscard : d.Type_ = ActionTypeDiscard)
    (hmeta : p.CharacterMetadata = -1 ∨ p.CharacterMetadata = 0) :
    (∃ g1 b, characterNeedsToTakeSecondTurn env d g pi = some (g1, b) ∧
      (b = true ↔ (p.CharacterMetadata = -1 ∧
        g.ClueTokens ≤ (env.variants g.Options.VariantName).GetAdjustedClueTokens 4)) ∧
      g1.Players[pi]? = some { p with CharacterMetadata := if b = true then 0 else -1 } ∧
      ∀ (d2 : CommandData) (tokens : Int), d2.Type_ = ActionTypeDiscard →
        ∃ g2 b2, characterNeedsToTakeSecondTurn env d2 { g1 with ClueTokens := tokens } pi =
            some (g2, b2) ∧ ¬ (b = true ∧ b2 = true)) ∧
    (p.CharacterMetadata = 0 → ∀ d2 : CommandData, d2.Type_ ≠ ActionTypeDiscard →
      characterValidateSecondAction d2 g pi = some (.reject
        "You are Panicky, so you must discard again since there are 4 or less clues available.")) := by
  have hng : "Panicky" ≠ "Genius" := by decide
  have hstep := panicky_step env d g pi p hon hp hpanicky hdiscard
  constructor
  · by_cases hfirst : p.CharacterMetadata = -1 ∧
        g.ClueTokens ≤ (env.variants g.Options.VariantName).GetAdjustedClueTokens 4
    · rw [if_pos hfirst] at hstep
      have hq : (setMetadata g pi 0).Players[pi]? = some { p with CharacterMetadata := 0 } :=
        getElem?_setMetadata g pi 0 p hp
      refine ⟨setMetadata g pi 0, true, hstep, by simp [hfirst], by simpa using hq, ?_⟩
      intro d2 tokens hd2
      have h2 := panicky_step env d2 { setMetadata g pi 0 with ClueTokens := tokens } pi
        { p with CharacterMetadata := 0 } hon hq hpanicky hd2
      rw [if_neg (by simp), if_pos rfl] at h2
      exact ⟨_, false, h2, by simp⟩
    · rw [if_neg hfirst] at hstep
      have hsome : ∃ g1, characterNeedsToTakeSecondTurn env d g pi = some (g1, false) ∧
          g1.Options = g.Options ∧
          g1.Players[pi]? = some { p with CharacterMetadata := -1 } := by
        by_cases h0 : p.CharacterMetadata = 0
        · rw [if_pos h0] at hstep
          exact ⟨_, hstep, rfl, getElem?_setMetadata g pi (-1) p hp⟩
        · rw [if_neg h0] at hstep
          refine ⟨_, hstep, rfl, ?_⟩
          have hm : p.CharacterMetadata = -1 := hmeta.resolve_right h0
          rw [hp, ← hm]
      obtain ⟨g1, hrun, hopt, hq⟩ := hsome
      refine ⟨g1, false, hrun, by simp [hfirst], by simpa using hq, ?_⟩
      intro d2 tokens hd2
      have h2 := panicky_step env d2 { g1 with ClueTokens := tokens } pi
        { p with CharacterMetadata := -1 } (by rw [← hon, ← hopt]) hq hpanicky hd2
      exact ⟨_, _, h2, by simp⟩
  · intro h0 d2 hd2
    have hne : p.CharacterMetadata ≠ -1 := by rw [h0]; decide
    simp [characterValidateSecondAction, hon, hp, hne, hpanicky, hd2, hng]

/-- A Panicky player's discard at 4 clue tokens forces a second discard
(metadata 0), and the next discard, at 5 tokens, does not. -/
theorem panicky_second_turn_witness :
    characterNeedsToTakeSecondTurn sampleEnv ⟨ActionTypeDiscard, 0, 0⟩
        { table true [] [seat "alice" 0 "Panicky" (-1), seat "bob" 1 "Miser" (-1)] with
          ClueTokens := 4 } 0 =
      some ({ table true [] [seat "alice" 0 "Panicky" 0, seat "bob" 1 "Miser" (-1)] with
          ClueTokens := 4 }, true) ∧
    ∃ g1 b, characterNeedsToTakeSecondTurn sampleEnv ⟨ActionTypeDiscard, 0, 0⟩
        { table true [] [seat "alice" 0 "Panicky" (-1), seat "bob" 1 "Miser" (-1)] with
          ClueTokens := 4 } 0 = some (g1, b) ∧
      ∃ g2 b2, characterNeedsToTakeSecondTurn sampleEnv ⟨ActionTypeDiscard, 0, 0⟩
          { g1 with ClueTokens := 5 } 0 = some (g2, b2) ∧ ¬ (b = true ∧ b2 = true) := by
  refine ⟨by decide, ?_⟩
  obtain ⟨g1, b, h1, -, -, h4⟩ :=
    (panicky_second_turn sampleEnv ⟨ActionTypeDiscard, 0, 0⟩
      { table true [] [seat "alice" 0 "Panicky" (-1), seat "bob" 1 "Miser" (-1)] with
        ClueTokens := 4 } 0 (seat "alice" 0 "Panicky" (-1))
      (by decide) (by decide) (by decide) (by decide) (by decide)).1
  exact ⟨g1, b, h1, h4 ⟨ActionTypeDiscard, 0, 0⟩ 5 rfl⟩

/-- The player at position `j` after the go-around rules of
`characterPostAction` for the acting player at position `pi`. -/
theorem postAction_actor_getElem? (d : CommandData) (g : Game) (pi : Nat) (p : GamePlayer)
    (j : Nat) (q : GamePlayer) (hq : g.Players[j]? = some q) :
    (if p.Character = "Vindictive" then setMetadata g pi (-1)
     else if p.Character = "Impulsive" then setMetadata g pi (-1)
     else if p.Character = "Indolent" then
       if d.Type_ = ActionTypePlay then setMetadata g pi 0 else setMetadata g pi (-1)
     else if p.Character = "Contrarian" then { g with TurnsInverted := !g.TurnsInverted }
     else g).Players[j]? = some
      (if j = pi then
        (if p.Character = "Vindictive" ∨ p.Character = "Impulsive"
         then { q with CharacterMetadata := -1 }
         else if p.Character = "Indolent"
         then { q with CharacterMetadata := if d.Type_ = ActionTypePlay then 0 else -1 }
         else q)
       else q) := by
  have hset : ∀ m : Int, (setMetadata g pi m).Players[j]? =
      some (if j = pi then { q with CharacterMetadata := m } else q) := by
    intro m
    simp only [setMetadata, modifyPlayer, List.getElem?_modify, hq, Option.map_eq_map,
      Option.map_some', Option.some.injEq]
    by_cases hj : pi = j
    · subst hj; simp
    · have hj' : ¬ j = pi := fun h => hj h.symm
      simp [hj, hj']
  by_cases h1 : p.Character = "Vindictive"
  · rw [if_pos h1, hset, if_pos (Or.inl h1)]
  · rw [if_neg h1]
    by_cases h2 : p.Character = "Impulsive"
    · rw [if_pos h2, hset, if_pos (Or.inr h2)]
    · rw [if_neg h2, if_neg (not_or.mpr ⟨h1, h2⟩)]
      by_cases h3 : p.Character = "Indolent"
      · rw [if_pos h3, if_pos h3]
        by_cases hplay : d.Type_ = ActionTypePlay
        · rw [if_pos hplay, hset, if_pos hplay]
        · rw [if_neg hplay, hset, if_neg hplay]
      · rw [if_neg h3, if_neg h3]
        by_cases h4 : p.Character = "Contrarian"
        · rw [if_pos h4]
          simp [hq]
        · rw [if_neg h4]
          simp [hq]

/-- The players after `characterPostAction`, position by position: a Stubborn
player holds the action kind, the acting player holds the value of the
go-around rules, every other player is as before. -/
theorem postAction_getElem? (d : CommandData) (g : Game) (pi : Nat) (p : GamePlayer)
    (hon : g.Options.DetrimentalCharacters = true) (hp : g.Players[pi]? = some p) :
    ∃ g1, characterPostAction d g pi = some g1 ∧ g1.Options = g.Options ∧
      ∀ (j : Nat) (q : GamePlayer), g.Players[j]? = some q →
        g1.Players[j]? = some
          (if q.Character = "Stubborn" then { q with CharacterMetadata := d.Type_ }
           else if j = pi then
             (if p.Character = "Vindictive" ∨ p.Character = "Impulsive"
              then { q with CharacterMetadata := -1 }
              else if p.Character = "Indolent"
              then { q with CharacterMetadata := if d.Type_ = ActionTypePlay then 0 else -1 }
              else q)
           else q) := by
  obtain ⟨g1, hrun, hopt, -⟩ := postAction_frame d g pi p hon hp
  refine ⟨g1, hrun, hopt, ?_⟩
  intro j q hq
  have hact := postAction_actor_getElem? d g pi p j q hq
  simp only [characterPostAction, hon, hp, Bool.true_eq_false, if_false, Option.some.injEq]
    at hrun
  rw [← hrun]
  simp only [List.getElem?_map, hact, Option.map_some', Option.some.injEq]
  by_cases hs : q.Character = "Stubborn"
  · rw [if_pos hs]
    split_ifs <;> simp [hs]
  · rw [if_neg hs]
    split_ifs <;> simp [hs]

/-- The hook `characterValidateAction` for an Indolent player: a play is
rejected exactly when the metadata is 0. -/
theorem indolent_validate (d : CommandData) (g : Game) (pi : Nat) (q : GamePlayer)
    (hon : g.Options.DetrimentalCharacters = true) (hq : g.Players[pi]? = some q)
    (hindolent : q.Character = "Indolent") (hplay : d.Type_ = ActionTypePlay) :
    characterValidateAction d g pi =
      if q.CharacterMetadata = 0
      then some (.reject
        "You are Indolent, so you cannot play a card if you played one in the last round.")
      else some .allow := by
  have n1 : "Indolent" ≠ "Vindictive" := by decide
  have n2 : "Indolent" ≠ "Insistent" := by decide
  have n3 : "Indolent" ≠ "Impulsive" := by decide
  have n4 : "Indolent" ≠ "Stubborn" := by decide
  simp only [characterValidateAction, hon, hq, hindolent, hplay, Bool.true_eq_false, if_false,
    n1, n2, n3, n4, false_and, true_and]
  split <;> rfl

/-- C19: with characters enabled, after `characterPostAction` for the acting
player p: a Vindictive or Impulsive p has metadata -1 whatever the action
kind; an Indolent p has metadata 0 when the action was a play and -1
otherwise, so that `characterValidateAction` then rejects that player's play
after a play and accepts it after any other action; and every player other
than p that is not Stubborn is unchanged. -/
theorem go_around_reset (d : CommandData) (g : Game) (pi : Nat) (p : GamePlayer)
    (hon : g.Options.DetrimentalCharacters = true) (hp : g.Players[pi]? = some p) :
    ∃ g1, characterPostAction d g pi = some g1 ∧
      ((p.Character = "Vindictive" ∨ p.Character = "Impulsive") →
        g1.Players[pi]? = some { p with CharacterMetadata := -1 }) ∧
      (p.Character = "Indolent" →
        g1.Players[pi]? = some
          { p with CharacterMetadata := if d.Type_ = ActionTypePlay then 0 else -1 } ∧
        ∀ d2 : CommandData, d2.Type_ = ActionTypePlay →
          characterValidateAction d2 g1 pi =
            if d.Type_ = ActionTypePlay
            then some (.reject
              "You are Indolent, so you cannot play a card if you played one in the last round.")
            else some .allow) ∧
      (∀ (j : Nat) (q : GamePlayer), j ≠ pi → g.Players[j]? = some q →
        q.Character ≠ "Stubborn" → g1.Players[j]? = some q) := by
  obtain ⟨g1, hrun, hopt, hget⟩ := postAction_getElem? d g pi p hon hp
  have hpi := hget pi p hp
  refine ⟨g1, hrun, ?_, ?_, ?_⟩
  · intro hc
    have hs : p.Character ≠ "Stubborn" := by
      rcases hc with hc | hc <;> rw [hc] <;> decide
    rw [hpi, if_neg hs, if_pos rfl, if_pos hc]
  · intro hc
    have hs : p.Character ≠ "Stubborn" := by rw [hc]; decide
    have hv : ¬ (p.Character = "Vindictive" ∨ p.Character = "Impulsive") := by
      rw [hc]; decide
    have hq : g1.Players[pi]? = some
        { p with CharacterMetadata := if d.Type_ = ActionTypePlay then 0 else -1 } := by
      rw [hpi, if_neg hs, if_pos rfl, if_neg hv, if_pos hc]
    refine ⟨hq, ?_⟩
    intro d2 hd2
    rw [indolent_validate d2 g1 pi _ (by rw [hopt]; exact hon) hq hc hd2]
    by_cases hplay : d.Type_ = ActionTypePlay
    · simp [hplay]
    · simp [hplay]
  · intro j q hj hq hs
    rw [hget j q hq, if_neg hs, if_neg hj]

/-- An Indolent player who played may not play next time; one who discarded
may; a Vindictive player's flag is cleared by a play. -/
theorem go_around_reset_witness :
    (∃ g1, characterPostAction ⟨ActionTypePlay, 0, 0⟩
        (table true [] [seat "alice" 0 "Indolent" (-1), seat "bob" 1 "Vindictive" 0]) 0 =
          some g1 ∧
      characterValidateAction ⟨ActionTypePlay, 0, 0⟩ g1 0 = some (.reject
        "You are Indolent, so you cannot play a card if you played one in the last round.") ∧
      g1.Players[1]? = some (seat "bob" 1 "Vindictive" 0)) ∧
    (∃ g1, characterPostAction ⟨ActionTypePlay, 0, 0⟩
        (table true [] [seat "alice" 0 "Indolent" (-1), seat "bob" 1 "Vindictive" 0]) 1 =
          some g1 ∧
      g1.Players[1]? = some (seat "bob" 1 "Vindictive" (-1))) := by
  constructor
  · obtain ⟨g1, h1, -, h3, h4⟩ := go_around_reset ⟨ActionTypePlay, 0, 0⟩
      (table true [] [seat "alice" 0 "Indolent" (-1), seat "bob" 1 "Vindictive" 0]) 0
      (seat "alice" 0 "Indolent" (-1)) (by decide) (by decide)
    exact ⟨g1, h1, (h3 (by decide)).2 ⟨ActionTypePlay, 0, 0⟩ rfl,
      h4 1 _ (by decide) (by decide) (by decide)⟩
  · obtain ⟨g1, h1, h2, -, -⟩ := go_around_reset ⟨ActionTypePlay, 0, 0⟩
      (table true [] [seat "alice" 0 "Indolent" (-1), seat "bob" 1 "Vindictive" 0]) 1
      (seat "bob" 1 "Vindictive" 0) (by decide) (by decide)
    exact ⟨g1, h1, h2 (Or.inl (by decide))⟩

/-- The hook `characterValidateAction` for a Stubborn player: the action is
rejected exactly when its kind is the stored kind or both are clue kinds of
different type. -/
theorem stubborn_validate (d : CommandData) (g : Game) (j : Nat) (q : GamePlayer)
    (hon : g.Options.DetrimentalCharacters = true) (hq : g.Players[j]? = some q)
    (hstubborn : q.Character = "Stubborn") :
    characterValidateAction d g j =
      if d.Type_ = q.CharacterMetadata ∨
          (d.Type_ = ActionTypeColorClue ∧ q.CharacterMetadata = ActionTypeRankClue) ∨
          (d.Type_ = ActionTypeRankClue ∧ q.CharacterMetadata = ActionTypeColorClue)
      then some (.reject
        "You are Stubborn, so you cannot perform the same kind of action that the previous player did.")
      else some .allow := by
  have n1 : "Stubborn" ≠ "Vindictive" := by decide
  have n2 : "Stubborn" ≠ "Insistent" := by decide
  have n3 : "Stubborn" ≠ "Impulsive" := by decide
  have n4 : "Stubborn" ≠ "Indolent" := by decide
  simp only [characterValidateAction, hon, hq, hstubborn, Bool.true_eq_false, if_false,
    n1, n2, n3, n4, false_and, true_and]
  split <;> rfl

/-- C20: with characters enabled, after `characterPostAction` for a committed
action of kind k by any player, every Stubborn player's metadata equals k, and
`characterValidateAction` then rejects a Stubborn player's action of kind k'
if and only if k' = k or both k and k' are clue kinds, and allows it otherwise;
a Stubborn player whose metadata is still -1 is not rejected for an action of
any kind other than -1. -/
theorem stubborn_no_repeat (d : CommandData) (g : Game) (pi : Nat) (p : GamePlayer)
    (hon : g.Options.DetrimentalCharacters = true) (hp : g.Players[pi]? = some p) :
    (∃ g1, characterPostAction d g pi = some g1 ∧
      ∀ (j : Nat) (q : GamePlayer), g.Players[j]? = some q → q.Character = "Stubborn" →
        g1.Players[j]? = some { q with CharacterMetadata := d.Type_ } ∧
        ∀ d2 : CommandData,
          ((∃ w, characterValidateAction d2 g1 j = some (.reject w)) ↔
            (d2.Type_ = d.Type_ ∨
              ((d2.Type_ = ActionTypeColorClue ∨ d2.Type_ = ActionTypeRankClue) ∧
               (d.Type_ = ActionTypeColorClue ∨ d.Type_ = ActionTypeRankClue)))) ∧
          (¬ (d2.Type_ = d.Type_ ∨
              ((d2.Type_ = ActionTypeColorClue ∨ d2.Type_ = ActionTypeRankClue) ∧
               (d.Type_ = ActionTypeColorClue ∨ d.Type_ = ActionTypeRankClue))) →
            characterValidateAction d2 g1 j = some .allow)) ∧
    (∀ (j : Nat) (q : GamePlayer) (d2 : CommandData), g.Players[j]? = some q →
      q.Character = "Stubborn" → q.CharacterMetadata = -1 → d2.Type_ ≠ -1 →
      characterValidateAction d2 g j = some .allow) := by
  constructor
  · obtain ⟨g1, hrun, hopt, hget⟩ := postAction_getElem? d g pi p hon hp
    refine ⟨g1, hrun, ?_⟩
    intro j q hq hs
    have hq1 : g1.Players[j]? = some { q with CharacterMetadata := d.Type_ } := by
      rw [hget j q hq, if_pos hs]
    refine ⟨hq1, ?_⟩
    intro d2
    have hval := stubborn_validate d2 g1 j _ (by rw [hopt]; exact hon) hq1 hs
    simp only at hval
    have hequiv : (d2.Type_ = d.Type_ ∨
          (d2.Type_ = ActionTypeColorClue ∧ d.Type_ = ActionTypeRankClue) ∨
          (d2.Type_ = ActionTypeRankClue ∧ d.Type_ = ActionTypeColorClue)) ↔
        (d2.Type_ = d.Type_ ∨
          ((d2.Type_ = ActionTypeColorClue ∨ d2.Type_ = ActionTypeRankClue) ∧
           (d.Type_ = ActionTypeColorClue ∨ d.Type_ = ActionTypeRankClue))) := by
      constructor
      · rintro (h | ⟨h1, h2⟩ | ⟨h1, h2⟩)
        · exact Or.inl h
        · exact Or.inr ⟨Or.inl h1, Or.inr h2⟩
        · exact Or.inr ⟨Or.inr h1, Or.inl h2⟩
      · rintro (h | ⟨h1 | h1, h2 | h2⟩)
        · exact Or.inl h
        · exact Or.inl (h1.trans h2.symm)
        · exact Or.inr (Or.inl ⟨h1, h2⟩)
        · exact Or.inr (Or.inr ⟨h1, h2⟩)
        · exact Or.inl (h1.trans h2.symm)
    by_cases hc : d2.Type_ = d.Type_ ∨
        (d2.Type_ = ActionTypeColorClue ∧ d.Type_ = ActionTypeRankClue) ∨
        (d2.Type_ = ActionTypeRankClue ∧ d.Type_ = ActionTypeColorClue)
    · rw [if_pos hc] at hval
      exact ⟨⟨fun _ => hequiv.mp hc, fun _ => ⟨_, hval⟩⟩, fun hn => absurd (hequiv.mp hc) hn⟩
    · rw [if_neg hc] at hval
      refine ⟨⟨?_, fun h => absurd (hequiv.mpr h) hc⟩, fun _ => hval⟩
      rintro ⟨w, hw⟩
      rw [hval] at hw
      exact absurd hw (by simp)
  · intro j q d2 hq hs hm hd2
    rw [stubborn_validate d2 g j q hon hq hs, hm]
    have hc : ¬ (d2.Type_ = -1 ∨ (d2.Type_ = ActionTypeColorClue ∧ (-1 : Int) = ActionTypeRankClue) ∨
        (d2.Type_ = ActionTypeRankClue ∧ (-1 : Int) = ActionTypeColorClue)) := by
      have e1 : ¬ ((-1 : Int) = ActionTypeRankClue) := by decide
      have e2 : ¬ ((-1 : Int) = ActionTypeColorClue) := by decide
      simp [hd2, e1, e2]
    rw [if_neg hc]

/-- After alice's color clue a Stubborn bob may neither give a rank clue nor a
color clue but may discard; before any action he may do anything. -/
theorem stubborn_no_repeat_witness :
    (∃ g1, characterPostAction ⟨ActionTypeColorClue, 1, 0⟩
        (table true [] [seat "alice" 0 "Miser" (-1), seat "bob" 1 "Stubborn" (-1)]) 0 =
          some g1 ∧
      g1.Players[1]? = some (seat "bob" 1 "Stubborn" ActionTypeColorClue) ∧
      (∃ w, characterValidateAction ⟨ActionTypeRankClue, 0, 3⟩ g1 1 = some (.reject w)) ∧
      characterValidateAction ⟨ActionTypeDiscard, 0, 0⟩ g1 1 = some .allow) ∧
    characterValidateAction ⟨ActionTypeColorClue, 0, 3⟩
      (table true [] [seat "alice" 0 "Miser" (-1), seat "bob" 1 "Stubborn" (-1)]) 1 =
      some .allow := by
  have h := stubborn_no_repeat ⟨ActionTypeColorClue, 1, 0⟩
    (table true [] [seat "alice" 0 "Miser" (-1), seat "bob" 1 "Stubborn" (-1)]) 0
    (seat "alice" 0 "Miser" (-1)) (by decide) (by decide)
  obtain ⟨⟨g1, h1, h2⟩, h3⟩ := h
  obtain ⟨hq, hv⟩ := h2 1 (seat "bob" 1 "Stubborn" (-1)) (by decide) (by decide)
  refine ⟨⟨g1, h1, hq, ((hv ⟨ActionTypeRankClue, 0, 3⟩).1).mpr (by decide),
    (hv ⟨ActionTypeDiscard, 0, 0⟩).2 (by decide)⟩, ?_⟩
  exact h3 1 (seat "bob" 1 "Stubborn" (-1)) ⟨ActionTypeColorClue, 0, 3⟩ (by decide) (by decide)
    (by decide) (by decide)

/-- The state transformer of `characterValidateAction` hands back the game it
was given, with the verdict of `characterValidateAction`. -/
theorem validateActionCall_eq (d : CommandData) (g : Game) (pi : Nat) :
    characterValidateActionCall d g pi =
      (characterValidateAction d g pi).map (fun v => (g, v)) := by
  unfold characterValidateActionCall characterValidateAction
  split
  · rfl
  · cases g.Players[pi]? with
    | none => rfl
    | some p =>
      simp only
      split
      · rfl
      · split
        · rfl
        · cases (if p.Character = "Impulsive" ∧ p.CharacterMetadata = 0
              then notSlot1Play d g p else some false) with
          | none => rfl
          | some b =>
            cases b with
            | true => rfl
            | false =>
              simp only
              split
              · rfl
              · split <;> rfl

/-- The state transformer of `characterValidateSecondAction` hands back the
game it was given, with the verdict of `characterValidateSecondAction`. -/
theorem validateSecondActionCall_eq (d : CommandData) (g : Game) (pi : Nat) :
    characterValidateSecondActionCall d g pi =
      (characterValidateSecondAction d g pi).map (fun v => (g, v)) := by
  unfold characterValidateSecondActionCall characterValidateSecondAction
  split
  · rfl
  · cases g.Players[pi]? with
    | none => rfl
    | some p =>
      simp only
      split
      · rfl
      · split
        · split
          · rfl
          · split <;> rfl
        · split <;> rfl

/-- The state transformer of `characterCheckPlay` hands back the game it was
given, with the verdict of `characterCheckPlay`. -/
theorem checkPlayCall_eq (d : CommandData) (g : Game) (pi : Nat) :
    characterCheckPlayCall d g pi = (characterCheckPlay d g pi).map (fun v => (g, v)) := by
  unfold characterCheckPlayCall characterCheckPlay
  split
  · rfl
  · cases g.Players[pi]? with
    | none => rfl
    | some p =>
      simp only
      split <;> rfl

/-- The state transformer of `characterCheckMisplay` hands back the game it
was given, with the result of `characterCheckMisplay`. -/
theorem checkMisplayCall_eq (g : Game) (pi ci : Nat) :
    characterCheckMisplayCall g pi ci = (characterCheckMisplay g pi ci).map (fun b => (g, b)) := by
  unfold characterCheckMisplayCall characterCheckMisplay
  split
  · rfl
  · cases g.Players[pi]? with
    | none => rfl
    | some p =>
      cases g.Deck[ci]? with
      | none => rfl
      | some c =>
        simp only
        split
        · split <;> rfl
        · rfl

/-- The state transformer of `characterCheckDiscard` hands back the game it
was given, with the verdict of `characterCheckDiscard`. -/
theorem checkDiscardCall_eq (env : Env) (g : Game) (pi : Nat) :
    characterCheckDiscardCall env g pi =
      (characterCheckDiscard env g pi).map (fun v => (g, v)) := by
  unfold characterCheckDiscardCall characterCheckDiscard
  split
  · rfl
  · cases g.Players[pi]? with
    | none => rfl
    | some p =>
      simp only
      split
      · rfl
      · split
        · rfl
        · split <;> rfl

/-- The state transformer of the first chain of `characterValidateClue` hands
back the game it was given, with the verdict of `giverRules`. -/
theorem giverRulesCall_eq (env : Env) (d : CommandData) (g : Game) (p p2 : GamePlayer) :
    giverRulesCall env d g p p2 = (giverRules env d g p p2).map (fun v => (g, v)) := by
  unfold giverRulesCall giverRules
  dsimp only
  generalize anyTouched g (fun c => decide (c.SuitIndex = p.CharacterMetadata))
    (FindCardsTouchedByClue env g p2 (NewClue d)) = r1
  generalize anyTouched g (fun c => decide (c.Rank = p.CharacterMetadata))
    (FindCardsTouchedByClue env g p2 (NewClue d)) = r2
  generalize anyTouched g (fun c => c.InsistentTouched)
    (FindCardsTouchedByClue env g p2 (NewClue d)) = r3
  have hmap : ∀ (c : Prop) [Decidable c] (a b : Option Verdict),
      (if c then a else b).map (fun v => (g, v)) =
        if c then a.map (fun v => (g, v)) else b.map (fun v => (g, v)) := by
    intro c _ a b; split <;> rfl
  simp only [hmap, Option.map_some']
  rcases r1 with _ | _ | _ <;> rcases r2 with _ | _ | _ <;> rcases r3 with _ | _ | _ <;> rfl

/-- The state transformer of the second chain of `characterValidateClue`
hands back the game it was given, with the verdict of `targetRules`. -/
theorem targetRulesCall_eq (d : CommandData) (g : Game) (p2 : GamePlayer) :
    targetRulesCall d g p2 = (g, targetRules d p2) := by
  unfold targetRulesCall targetRules
  dsimp only
  split
  · rfl
  · split <;> rfl

/-- The state transformer of `characterValidateClue` hands back the game it
was given, with the verdict of `characterValidateClue`. -/
theorem validateClueCall_eq (env : Env) (d : CommandData) (g : Game) (pi : Nat) :
    characterValidateClueCall env d g pi =
      (characterValidateClue env d g pi).map (fun v => (g, v)) := by
  unfold characterValidateClueCall characterValidateClue
  split
  · rfl
  · cases index? g.Players d.Target with
    | none => rfl
    | some p2 =>
      cases g.Players[pi]? with
      | none => rfl
      | some p =>
        simp only [giverRulesCall_eq]
        cases giverRules env d g p p2 with
        | none => rfl
        | some v =>
          cases v with
          | allow => simp [targetRulesCall_eq]
          | reject w => rfl

/-- C16: whether they accept or reject, `characterValidateAction`,
`characterValidateSecondAction`, `characterValidateClue`, `characterCheckPlay`,
`characterCheckMisplay` and `characterCheckDiscard` leave the game state
unchanged: on every path of their bodies the game handed back by a returning
call is the game it was given (with every player's Character and
CharacterMetadata, every card's InsistentTouched, ClueTokens, Turn, EndTurn,
TurnsInverted, EndCondition and EndPlayer), and the result is the one of the
validator. -/
theorem validators_frame (env : Env) (d : CommandData) (g : Game) (pi ci : Nat) :
    (∀ g1 v, characterValidateActionCall d g pi = some (g1, v) →
      g1 = g ∧ characterValidateAction d g pi = some v) ∧
    (∀ g1 v, characterValidateSecondActionCall d g pi = some (g1, v) →
      g1 = g ∧ characterValidateSecondAction d g pi = some v) ∧
    (∀ g1 v, characterValidateClueCall env d g pi = some (g1, v) →
      g1 = g ∧ characterValidateClue env d g pi = some v) ∧
    (∀ g1 v, characterCheckPlayCall d g pi = some (g1, v) →
      g1 = g ∧ characterCheckPlay d g pi = some v) ∧
    (∀ g1 b, characterCheckMisplayCall g pi ci = some (g1, b) →
      g1 = g ∧ characterCheckMisplay g pi ci = some b) ∧
    (∀ g1 v, characterCheckDiscardCall env g pi = some (g1, v) →
      g1 = g ∧ characterCheckDiscard env g pi = some v) := by
  have key : ∀ {α : Type} (r : Option α) (g1 : Game) (v : α),
      r.map (fun a => (g, a)) = some (g1, v) → g1 = g ∧ r = some v := by
    intro α r g1 v h
    cases r with
    | none => simp at h
    | some a =>
      simp only [Option.map_some', Option.some.injEq, Prod.mk.injEq] at h
      exact ⟨h.1.symm, by rw [h.2]⟩
  refine ⟨?_, ?_, ?_, ?_, ?_, ?_⟩
  · intro g1 v h; rw [validateActionCall_eq] at h; exact key _ g1 v h
  · intro g1 v h; rw [validateSecondActionCall_eq] at h; exact key _ g1 v h
  · intro g1 v h; rw [validateClueCall_eq] at h; exact key _ g1 v h
  · intro g1 v h; rw [checkPlayCall_eq] at h; exact key _ g1 v h
  · intro g1 b h; rw [checkMisplayCall_eq] at h; exact key _ g1 b h
  · intro g1 v h; rw [checkDiscardCall_eq] at h; exact key _ g1 v h

/-- A rejected clue of a Fuming player leaves the game as it was, and so does
an accepted one. -/
theorem validators_frame_witness :
    characterValidateClueCall sampleEnv ⟨ActionTypeColorClue, 1, 0⟩ fumingGenius 0 =
      some (fumingGenius, .reject "You are Fuming, so you can not give that type of clue.") ∧
    characterValidateClueCall sampleEnv ⟨ActionTypeColorClue, 1, 1⟩ fumingGenius 0 =
      some (fumingGenius, .allow) ∧
    characterValidateClue sampleEnv ⟨ActionTypeColorClue, 1, 1⟩ fumingGenius 0 = some .allow :=
  ⟨by decide, by decide,
   ((validators_frame sampleEnv ⟨ActionTypeColorClue, 1, 1⟩ fumingGenius 0 0).2.2.1
      fumingGenius .allow (by decide)).2⟩

/-- The forward step `(activePlayer + 1) % n` from an index in range. -/
theorem step_forward (a n : Int) (h0 : 0 ≤ a) (h1 : a < n) :
    Int.tmod (a + 1) n = if a + 1 = n then 0 else a + 1 := by
  rw [Int.tmod_eq_emod (by omega) (by omega)]
  split
  · rename_i h; rw [h, Int.emod_self]
  · exact Int.emod_eq_of_lt (by omega) (by omega)

/-- The backward step `(activePlayer + n - 1) % n` from an index in range. -/
theorem step_backward (a n : Int) (h0 : 0 ≤ a) (h1 : a < n) :
    Int.tmod (a + n - 1) n = if a = 0 then n - 1 else a - 1 := by
  rw [Int.tmod_eq_emod (by omega) (by omega)]
  split
  · rename_i h; subst h
    simp only [zero_add]
    exact Int.emod_eq_of_lt (by omega) (by omega)
  · have : a + n - 1 = (a - 1) + n := by ring
    rw [this, Int.add_emod_self]
    exact Int.emod_eq_of_lt (by omega) (by omega)

/-- An index in range is a player. -/
theorem index?_in_range {α : Type} (xs : List α) (i : Int) (h0 : 0 ≤ i)
    (h1 : i < (xs.length : Int)) : ∃ x, index? xs i = some x ∧ x ∈ xs := by
  have hlt : i.toNat < xs.length := by omega
  refine ⟨xs[i.toNat], ?_, List.getElem_mem hlt⟩
  simp [index?, h0, List.getElem?_eq_getElem hlt]

/-- Without a Contrarian player and with a final turn below the largest `int`
the walk keeps its direction and `turn` does not wrap: entered at the loop test
with `turn`, `dist` steps before the original player (`dist` from 1 to the
number of players, in the walking direction), and granted more loop tests
than the iterations left, it returns true exactly when fewer than `dist`
iterations are left. -/
theorem lastTurnWalk_no_contrarian (g : Game)
    (hnone : ∀ q ∈ g.Players, q.Character ≠ "Contrarian")
    (hA0 : 0 ≤ g.ActivePlayerIndex) (hA1 : g.ActivePlayerIndex < (g.Players.length : Int))
    (hend : g.EndTurn < maxInt)
    (inv : Bool) (fuel : Nat) :
    ∀ (turn a dist : Int), minInt ≤ turn → (g.EndTurn - turn + 1).toNat < fuel →
      0 ≤ a → a < (g.Players.length : Int) →
      1 ≤ dist → dist ≤ (g.Players.length : Int) →
      (if inv = true
        then (dist = a - g.ActivePlayerIndex ∨
              dist = a - g.ActivePlayerIndex + (g.Players.length : Int))
        else (dist = g.ActivePlayerIndex - a ∨
              dist = g.ActivePlayerIndex - a + (g.Players.length : Int))) →
      lastTurnWalk g fuel turn a inv = some (decide (g.EndTurn - turn + 1 < dist)) := by
  induction fuel with
  | zero => intro turn a dist _ hfuel; omega
  | succ fuel ih =>
    intro turn a dist hturn hfuel ha0 ha1 hd1 hd2 hrel
    have hn : g.Players.length ≠ 0 := by omega
    by_cases hloop : turn ≤ g.EndTurn
    · have hwrap : wrapInt (turn + 1) = turn + 1 :=
        wrapInt_of_range _ (by unfold minInt at hturn ⊢; omega) (by omega)
      have key : ∀ a1 : Int, 0 ≤ a1 → a1 < (g.Players.length : Int) →
          (a1 = g.ActivePlayerIndex ↔ dist = 1) →
          (dist ≠ 1 →
            (if inv = true
              then (dist - 1 = a1 - g.ActivePlayerIndex ∨
                    dist - 1 = a1 - g.ActivePlayerIndex + (g.Players.length : Int))
              else (dist - 1 = g.ActivePlayerIndex - a1 ∨
                    dist - 1 = g.ActivePlayerIndex - a1 + (g.Players.length : Int)))) →
          (if a1 = g.ActivePlayerIndex then some false
           else match index? g.Players a1 with
             | none => none
             | some q => lastTurnWalk g fuel (wrapInt (turn + 1)) a1
                 (if q.Character = "Contrarian" then !inv else inv)) =
            some (decide (g.EndTurn - turn + 1 < dist)) := by
        intro a1 h0 h1 hiff hnext
        by_cases hret : a1 = g.ActivePlayerIndex
        · rw [if_pos hret]
          have hd : dist = 1 := hiff.mp hret
          have hfalse : ¬ (g.EndTurn - turn + 1 < dist) := by omega
          rw [decide_eq_false hfalse]
        · rw [if_neg hret]
          have hd : dist ≠ 1 := fun h => hret (hiff.mpr h)
          obtain ⟨q, hq, hmem⟩ := index?_in_range g.Players a1 h0 h1
          simp only [hq, hnone q hmem, if_false]
          rw [hwrap, ih (turn + 1) a1 (dist - 1) (by unfold minInt at hturn ⊢; omega)
            (by omega) h0 h1 (by omega) (by omega) (hnext hd)]
          congr 1
          have hiff2 : (g.EndTurn - (turn + 1) + 1 < dist - 1) ↔
              (g.EndTurn - turn + 1 < dist) := by
            constructor <;> intro h <;> omega
          simp only [hiff2]
      simp only [lastTurnWalk, hloop, hn, if_true, if_false]
      cases inv with
      | true =>
        simp only [if_true] at hrel key ⊢
        rw [step_backward a _ ha0 ha1]
        by_cases hz : a = 0
        · rw [if_pos hz]
          exact key _ (by omega) (by omega) (by constructor <;> intro h <;> omega)
            (by intro h; omega)
        · rw [if_neg hz]
          exact key _ (by omega) (by omega) (by constructor <;> intro h <;> omega)
            (by intro h; omega)
      | false =>
        simp only [Bool.false_eq_true, if_false] at hrel key ⊢
        rw [step_forward a _ ha0 ha1]
        by_cases hz : a + 1 = (g.Players.length : Int)
        · rw [if_pos hz]
          exact key _ (by omega) (by omega) (by constructor <;> intro h <;> omega)
            (by intro h; omega)
        · rw [if_neg hz]
          exact key _ (by omega) (by omega) (by constructor <;> intro h <;> omega)
            (by intro h; omega)
    · simp only [lastTurnWalk, hloop, if_false]
      have htrue : g.EndTurn - turn + 1 < dist := by omega
      rw [decide_eq_true htrue]

/-- From an index in range, every value the loop assigns to `activePlayer`
is an index in range, in either direction and whatever the characters and the
turns. -/
theorem lastTurnTrace_in_range (g : Game) (fuel : Nat) :
    ∀ (turn a : Int) (inv : Bool), 0 ≤ a → a < (g.Players.length : Int) →
      ∀ x ∈ lastTurnTrace g fuel turn a inv, 0 ≤ x ∧ x < (g.Players.length : Int) := by
  induction fuel with
  | zero => intro turn a inv _ _ x hx; simp [lastTurnTrace] at hx
  | succ fuel ih =>
    intro turn a inv ha0 ha1 x hx
    have hn : g.Players.length ≠ 0 := by omega
    have key : ∀ a1 : Int, 0 ≤ a1 → a1 < (g.Players.length : Int) →
        x ∈ (if a1 = g.ActivePlayerIndex then [a1]
          else match index? g.Players a1 with
            | none => [a1]
            | some q => a1 :: lastTurnTrace g fuel (wrapInt (turn + 1)) a1
                (if q.Character = "Contrarian" then !inv else inv)) →
        0 ≤ x ∧ x < (g.Players.length : Int) := by
      intro a1 h0 h1 hmem
      split at hmem
      · rw [List.mem_singleton] at hmem; subst hmem; exact ⟨h0, h1⟩
      · split at hmem
        · rw [List.mem_singleton] at hmem; subst hmem; exact ⟨h0, h1⟩
        · rcases List.mem_cons.mp hmem with h | h
          · subst h; exact ⟨h0, h1⟩
          · exact ih _ a1 _ h0 h1 x h
    by_cases hloop : turn ≤ g.EndTurn
    · simp only [lastTurnTrace, hloop, hn, if_true, if_false] at hx
      cases inv with
      | true =>
        simp only [if_true] at hx key
        rw [step_backward a _ ha0 ha1] at hx
        exact key _ (by split <;> omega) (by split <;> omega) hx
      | false =>
        simp only [Bool.false_eq_true, if_false] at hx key
        rw [step_forward a _ ha0 ha1] at hx
        exact key _ (by split <;> omega) (by split <;> omega) hx
    · simp [lastTurnTrace, hloop] at hx

/-- C21 (as amended): `characterHasTakenLastTurn` returns false whenever
EndTurn is -1; and for a game with n >= 1 players, 0 <= ActivePlayerIndex < n
and no Contrarian player, with either value of TurnsInverted, whose Turn and
EndTurn are `int` values below the largest `int` (so that `turn` does not wrap
around), it returns, and returns true if and only if EndTurn != -1 and
EndTurn - Turn < n; and whatever the turns and the characters, every value
`activePlayer` takes during the walk lies in 0..n-1, also when walking
backwards from index 0. -/
theorem last_turn_taken (g : Game) :
    (g.EndTurn = -1 → characterHasTakenLastTurn g = some false) ∧
    (1 ≤ g.Players.length → 0 ≤ g.ActivePlayerIndex →
      g.ActivePlayerIndex < (g.Players.length : Int) →
      (∀ q ∈ g.Players, q.Character ≠ "Contrarian") →
      minInt ≤ g.Turn → g.Turn < maxInt → g.EndTurn < maxInt →
      characterHasTakenLastTurn g = some (decide
        (g.EndTurn ≠ -1 ∧ g.EndTurn - g.Turn < (g.Players.length : Int)))) ∧
    (0 ≤ g.ActivePlayerIndex → g.ActivePlayerIndex < (g.Players.length : Int) →
      ∀ x ∈ lastTurnTrace g lastTurnFuel (wrapInt (g.Turn + 1)) g.ActivePlayerIndex
          g.TurnsInverted,
        0 ≤ x ∧ x < (g.Players.length : Int)) := by
  refine ⟨?_, ?_, fun hA0 hA1 => lastTurnTrace_in_range g _ _ _ _ hA0 hA1⟩
  · intro h; simp [characterHasTakenLastTurn, h]
  · intro hn hA0 hA1 hnone hT0 hT1 hE1
    by_cases hend : g.EndTurn = -1
    · simp [characterHasTakenLastTurn, hend]
    · have hwrap : wrapInt (g.Turn + 1) = g.Turn + 1 :=
        wrapInt_of_range _ (by unfold minInt at hT0 ⊢; omega) (by omega)
      simp only [characterHasTakenLastTurn, hend, if_false, hwrap]
      rw [lastTurnWalk_no_contrarian g hnone hA0 hA1 hE1 g.TurnsInverted lastTurnFuel
        (g.Turn + 1) g.ActivePlayerIndex (g.Players.length : Int)
        (by unfold minInt at hT0 ⊢; omega)
        (by unfold minInt at hT0; unfold maxInt at hE1; unfold lastTurnFuel; omega)
        hA0 hA1 (by omega) (by omega) (by split <;> exact Or.inr (by omega))]
      congr 1
      have hiff : (g.EndTurn - (g.Turn + 1) + 1 < (g.Players.length : Int)) ↔
          (g.EndTurn ≠ -1 ∧ g.EndTurn - g.Turn < (g.Players.length : Int)) := by
        constructor
        · intro h; exact ⟨hend, by omega⟩
        · intro h; omega
      simp only [hiff]

/-- Three players, inverted direction, player 0 active at turn 10: with the
final turn 12 the last turn has been taken, the walk visiting the indices 2
and 1; with the final turn 13 it has not. -/
theorem last_turn_taken_witness :
    (characterHasTakenLastTurn
        { table true [] [seat "alice" 0 "Fuming" 1, seat "bob" 1 "Miser" (-1),
            seat "carol" 2 "Genius" (-1)] with
          Turn := 10, EndTurn := 12, TurnsInverted := true } = some true ∧
      lastTurnTrace
        { table true [] [seat "alice" 0 "Fuming" 1, seat "bob" 1 "Miser" (-1),
            seat "carol" 2 "Genius" (-1)] with
          Turn := 10, EndTurn := 12, TurnsInverted := true } lastTurnFuel 11 0 true =
        [2, 1]) ∧
    characterHasTakenLastTurn
        { table true [] [seat "alice" 0 "Fuming" 1, seat "bob" 1 "Miser" (-1),
            seat "carol" 2 "Genius" (-1)] with
          Turn := 10, EndTurn := 13, TurnsInverted := true } = some false :=
  ⟨⟨((last_turn_taken
        { table true [] [seat "alice" 0 "Fuming" 1, seat "bob" 1 "Miser" (-1),
            seat "carol" 2 "Genius" (-1)] with
          Turn := 10, EndTurn := 12, TurnsInverted := true }).2.1
        (by decide) (by decide) (by decide) (by decide) (by decide) (by decide)
        (by decide)).trans (by decide),
     by decide⟩,
   ((last_turn_taken
        { table true [] [seat "alice" 0 "Fuming" 1, seat "bob" 1 "Miser" (-1),
            seat "carol" 2 "Genius" (-1)] with
          Turn := 10, EndTurn := 13, TurnsInverted := true }).2.1
        (by decide) (by decide) (by decide) (by decide) (by decide) (by decide)
        (by decide)).trans (by decide)⟩

/-- C21 as stated fails: with two players, player 0 active, no Contrarian and
EndTurn - Turn < 2, `characterHasTakenLastTurn` returns false when Turn is the
largest `int` and EndTurn is 0 (`turn` starts at the smallest `int`), and when
Turn is 2^63 - 2 and EndTurn is the largest `int` (the loop test never
fails). -/
theorem last_turn_turn_wraps :
    (characterHasTakenLastTurn
        { table true [] [seat "alice" 0 "Fuming" 1, seat "bob" 1 "Miser" (-1)] with
          Turn := 9223372036854775807, EndTurn := 0 } = some false ∧
      ((0 : Int) ≠ -1 ∧ (0 : Int) - 9223372036854775807 < 2)) ∧
    (characterHasTakenLastTurn
        { table true [] [seat "alice" 0 "Fuming" 1, seat "bob" 1 "Miser" (-1)] with
          Turn := 9223372036854775806, EndTurn := 9223372036854775807 } = some false ∧
      ((9223372036854775807 : Int) ≠ -1 ∧
        (9223372036854775807 : Int) - 9223372036854775806 < 2)) := by
  decide

end Characters
